import Mathlib

/-! DASimpleFoam: fixed-point adjoint members

A shallow embedding of `fixedPointAdjoint.H` (class `DASimpleFoam`), in the build with
reverse-mode differentiation (`CODI_AD_REVERSE` defined), the build in which the bodies of
`runFPAdj`, `vec2Fields` and `calcAdjointResidual` are compiled.

Conventions of the embedding:

* a scalar is a value of a type `α`; where arithmetic matters `α` is a linearly ordered
  field (exact arithmetic), and the square root is a function handed in; the six divisions
  of the convergence check are divisions of doubles, whose divisor can be zero: their
  result is a `DivResult`, a number or one of the values a division by zero gives; the
  other divisions of the source (by a cell volume in `L2norm`, by the diagonal `A()` of the
  momentum matrix) are written with the division of the field and are evaluated in no
  example at a zero divisor;
* a field over the cells (or faces) of the mesh is a total function of the cell (face)
  index, the mesh holds the counts the loops of the source run over;
* a PETSc vector is its local length and the array that `VecGetArray` hands out; the source
  indexes the array without any check, so a call that would touch an entry at or past the
  local length has no defined behaviour: it ends in the failure `outOfBounds`;
* `forAll(list, i)` is a left fold over `0, 1, ..., size - 1`;
* the discretisation engine, the turbulence model, the options dictionary and the
  differentiation tape are collaborators and are taken as data or as functions.
-/

namespace DASimpleFoam

/-! ## Loops -/

/-- The loop `forAll(list, i)` of the source: `body` runs for `i = 0, 1, ..., n - 1`,
in this order, on the state `s`. -/
def forAll {σ : Type} (n : Nat) (body : Nat → σ → σ) (s : σ) : σ :=
  (List.range n).foldl (fun acc i => body i acc) s

/-- The loop `for (label comp = 0; comp < 3; comp++)` over the components of a vector. -/
def forComp {σ : Type} (body : Fin 3 → σ → σ) (s : σ) : σ :=
  ([0, 1, 2] : List (Fin 3)).foldl (fun acc comp => body comp acc) s

/-! ## Fields, blocks and vectors -/

/-- A `Foam::vector`: three components. -/
abbrev vector (α : Type) := Fin 3 → α

/-- The internal (cell) values of a `volScalarField`. -/
abbrev volScalarField (α : Type) := Nat → α

/-- The internal (cell) values of a `volVectorField`. -/
abbrev volVectorField (α : Type) := Nat → vector α

/-- A `surfaceScalarField`: the values on the internal faces and, per patch, the values
on the boundary faces. -/
structure surfaceScalarField (α : Type) where
  primitiveField : Nat → α
  boundaryField : Nat → Nat → α

/-- The four blocks `U`, `p`, `phi`, `nuTilda` that the members pass around together
(state, residual, objective gradient, `Psi` and adjoint residual all have this shape). -/
structure Blocks (α : Type) where
  U : volVectorField α
  p : volScalarField α
  phi : surfaceScalarField α
  nuTilda : volScalarField α

/-- A PETSc `Vec`: local length and the array handed out by `VecGetArray`. The entries of
`array` at or past `size` are not part of the vector; no member reads or writes them. -/
structure Vec (α : Type) where
  size : Nat
  array : Nat → α

/-- What the members read of `meshPtr_`: the counts their loops run over, the face cells
of the patches and the cell volumes `V()`. -/
structure fvMesh (α : Type) where
  nCells : Nat
  nFaces : Nat
  nInternalFaces : Nat
  nPatches : Nat
  patchSize : Nat → Nat
  faceCells : Nat → Nat → Nat
  V : Nat → α

/-- What the members read of `daIndexPtr_`. The last argument of
`getLocalAdjointStateIndex` is the component, `none` where the call leaves it defaulted. -/
structure DAIndex where
  nLocalInternalFaces : Nat
  bFacePatchI : Nat → Nat
  bFaceFaceI : Nat → Nat
  getLocalAdjointStateIndex : String → Nat → Option Nat → Nat

/-- Assignment `field[cellI][comp] = v`. -/
def setComp {α : Type} (field : volVectorField α) (cellI : Nat) (comp : Fin 3) (v : α) :
    volVectorField α :=
  Function.update field cellI (Function.update (field cellI) comp v)

/-- Assignment `field.boundaryFieldRef()[patchI][faceI] = v`. -/
def setBoundary {α : Type} (field : surfaceScalarField α) (patchI faceI : Nat) (v : α) :
    surfaceScalarField α :=
  { field with
    boundaryField :=
      Function.update field.boundaryField patchI
        (Function.update (field.boundaryField patchI) faceI v) }

/-- Assignment `field[faceI] = v` on the internal faces. -/
def setInternal {α : Type} (field : surfaceScalarField α) (faceI : Nat) (v : α) :
    surfaceScalarField α :=
  { field with primitiveField := Function.update field.primitiveField faceI v }

/-! ## vec2Fields -/

/-- The branch `mode == "vec2Field"` of `vec2Fields`: the four loops that read the array of
the vector into the blocks. -/
def vec2FieldsRead {α : Type} (mesh : fvMesh α) (daIndex : DAIndex) (cVecArray : Nat → α)
    (b : Blocks α) : Blocks α :=
  -- U
  let UField := forAll mesh.nCells (fun cellI UField =>
    forComp (fun comp UField =>
      let adjLocalIdx := daIndex.getLocalAdjointStateIndex "U" cellI (some comp.val)
      setComp UField cellI comp (cVecArray adjLocalIdx)) UField) b.U
  -- p
  let pField := forAll mesh.nCells (fun cellI pField =>
    let adjLocalIdx := daIndex.getLocalAdjointStateIndex "p" cellI none
    Function.update pField cellI (cVecArray adjLocalIdx)) b.p
  -- phi
  let phiField := forAll mesh.nFaces (fun faceI phiField =>
    let adjLocalIdx := daIndex.getLocalAdjointStateIndex "phi" faceI none
    if faceI < daIndex.nLocalInternalFaces then
      setInternal phiField faceI (cVecArray adjLocalIdx)
    else
      let relIdx := faceI - daIndex.nLocalInternalFaces
      let patchIdx := daIndex.bFacePatchI relIdx
      let faceIdx := daIndex.bFaceFaceI relIdx
      setBoundary phiField patchIdx faceIdx (cVecArray adjLocalIdx)) b.phi
  -- nuTilda
  let nuTildaField := forAll mesh.nCells (fun cellI nuTildaField =>
    let adjLocalIdx := daIndex.getLocalAdjointStateIndex "nuTilda" cellI none
    Function.update nuTildaField cellI (cVecArray adjLocalIdx)) b.nuTilda
  { U := UField, p := pField, phi := phiField, nuTilda := nuTildaField }

/-- The branch `mode == "field2Vec"` of `vec2Fields`: the four loops that write the blocks
into the array of the vector. -/
def vec2FieldsWrite {α : Type} (mesh : fvMesh α) (daIndex : DAIndex) (cVecArray : Nat → α)
    (b : Blocks α) : Nat → α :=
  -- U
  let cVecArray := forAll mesh.nCells (fun cellI cVecArray =>
    forComp (fun comp cVecArray =>
      let adjLocalIdx := daIndex.getLocalAdjointStateIndex "U" cellI (some comp.val)
      Function.update cVecArray adjLocalIdx (b.U cellI comp)) cVecArray) cVecArray
  -- p
  let cVecArray := forAll mesh.nCells (fun cellI cVecArray =>
    let adjLocalIdx := daIndex.getLocalAdjointStateIndex "p" cellI none
    Function.update cVecArray adjLocalIdx (b.p cellI)) cVecArray
  -- phi
  let cVecArray := forAll mesh.nFaces (fun faceI cVecArray =>
    let adjLocalIdx := daIndex.getLocalAdjointStateIndex "phi" faceI none
    if faceI < daIndex.nLocalInternalFaces then
      Function.update cVecArray adjLocalIdx (b.phi.primitiveField faceI)
    else
      let relIdx := faceI - daIndex.nLocalInternalFaces
      let patchIdx := daIndex.bFacePatchI relIdx
      let faceIdx := daIndex.bFaceFaceI relIdx
      Function.update cVecArray adjLocalIdx (b.phi.boundaryField patchIdx faceIdx)) cVecArray
  -- nuTilda
  forAll mesh.nCells (fun cellI cVecArray =>
    let adjLocalIdx := daIndex.getLocalAdjointStateIndex "nuTilda" cellI none
    Function.update cVecArray adjLocalIdx (b.nuTilda cellI)) cVecArray

/-- The (field, location, component) tuples of the state layout. -/
inductive StateKey where
  | U (cellI : Nat) (comp : Fin 3)
  | p (cellI : Nat)
  | phi (faceI : Nat)
  | nuTilda (cellI : Nat)
  deriving DecidableEq, Repr

/-- The flat index that `getLocalAdjointStateIndex` gives to a tuple, with the arguments
of the calls in `vec2Fields`. -/
def DAIndex.indexOf (daIndex : DAIndex) : StateKey → Nat
  | .U cellI comp => daIndex.getLocalAdjointStateIndex "U" cellI (some comp.val)
  | .p cellI => daIndex.getLocalAdjointStateIndex "p" cellI none
  | .phi faceI => daIndex.getLocalAdjointStateIndex "phi" faceI none
  | .nuTilda cellI => daIndex.getLocalAdjointStateIndex "nuTilda" cellI none

/-- The tuples of a mesh with `nCells` cells and `nFaces` faces. -/
def stateKeys (nCells nFaces : Nat) : List StateKey :=
  ((List.range nCells).flatMap fun cellI => [StateKey.U cellI 0, StateKey.U cellI 1, StateKey.U cellI 2])
    ++ (List.range nCells).map StateKey.p
    ++ (List.range nFaces).map StateKey.phi
    ++ (List.range nCells).map StateKey.nuTilda

/-- How a member fails: with the fatal error of the source (`FatalErrorIn(...) <<
exit(FatalError)`), or by an access outside the array of a vector, which the source does
not check and whose behaviour is undefined. -/
inductive Failure where
  | fatal (msg : String)
  | outOfBounds
  deriving DecidableEq, Repr

/-- Whether every index that the loops of `vec2Fields` use, the flat index of every tuple of
the mesh, lies inside an array of the length `size`. -/
def DAIndex.fits {α : Type} (daIndex : DAIndex) (mesh : fvMesh α) (size : Nat) : Bool :=
  (stateKeys mesh.nCells mesh.nFaces).all (fun key => decide (daIndex.indexOf key < size))

/-- The member `vec2Fields(mode, cVec, UField, pField, phiField, nuTildaField)`. It returns
the vector and the blocks as they are after the call, or the fatal error of the last
branch. The loops of both valid modes index the array `cVecArray` with the flat indices of
the tuples of the mesh and check none of them; when one of these indices is not below the
local length of the vector the call ends in `outOfBounds`. -/
def vec2Fields {α : Type} (mesh : fvMesh α) (daIndex : DAIndex) (mode : String)
    (cVec : Vec α) (b : Blocks α) : Except Failure (Vec α × Blocks α) :=
  if mode = "vec2Field" then
    if daIndex.fits mesh cVec.size then
      .ok (cVec, vec2FieldsRead mesh daIndex cVec.array b)
    else
      .error .outOfBounds
  else if mode = "field2Vec" then
    if daIndex.fits mesh cVec.size then
      .ok ({ cVec with array := vec2FieldsWrite mesh daIndex cVec.array b }, b)
    else
      .error .outOfBounds
  else
    .error (.fatal "mode not valid")

/-- The index map is injective on the tuples of the mesh: no two of them get the same
flat index. -/
def DAIndex.InjectiveOn (daIndex : DAIndex) (nCells nFaces : Nat) : Prop :=
  ∀ k₁ ∈ stateKeys nCells nFaces, ∀ k₂ ∈ stateKeys nCells nFaces,
    daIndex.indexOf k₁ = daIndex.indexOf k₂ → k₁ = k₂

/-- The value that a tuple has in the blocks, boundary faces resolved through the tables
`bFacePatchI` and `bFaceFaceI`. -/
def Blocks.valueAt {α : Type} (b : Blocks α) (daIndex : DAIndex) : StateKey → α
  | .U cellI comp => b.U cellI comp
  | .p cellI => b.p cellI
  | .phi faceI =>
      if faceI < daIndex.nLocalInternalFaces then b.phi.primitiveField faceI
      else b.phi.boundaryField (daIndex.bFacePatchI (faceI - daIndex.nLocalInternalFaces))
        (daIndex.bFaceFaceI (faceI - daIndex.nLocalInternalFaces))
  | .nuTilda cellI => b.nuTilda cellI

/-- Writing the values `val k` at the places `idx k` of an array, for the keys of a list in
the order of the list (the shape of every loop of the branch `field2Vec`). -/
def writeAll {ι α : Type} (keys : List ι) (idx : ι → Nat) (val : ι → α) (arr : Nat → α) :
    Nat → α :=
  keys.foldl (fun a k => Function.update a (idx k) (val k)) arr

/-! ## A small mesh for concrete evaluations -/

/-- Two cells, one internal face and two boundary faces on one patch; both boundary faces
belong to cell 1; unit volumes. -/
def exampleMesh : fvMesh ℚ where
  nCells := 2
  nFaces := 3
  nInternalFaces := 1
  nPatches := 1
  patchSize := fun _ => 2
  faceCells := fun _ _ => 1
  V := fun _ => 1

/-- The layout of the flat vector on `exampleMesh`: the components of `U` cell by cell, then
`p`, then `phi`, then `nuTilda`. -/
def exampleIndex : DAIndex where
  nLocalInternalFaces := 1
  bFacePatchI := fun _ => 0
  bFaceFaceI := fun relIdx => relIdx
  getLocalAdjointStateIndex := fun name i comp =>
    if name = "U" then 3 * i + comp.getD 0
    else if name = "p" then 6 + i
    else if name = "phi" then 8 + i
    else 11 + i

/-- Blocks with pairwise different values. -/
def exampleBlocks : Blocks ℚ where
  U := fun cellI comp => 10 * cellI + comp.val + 1
  p := fun cellI => 100 + cellI
  phi := { primitiveField := fun faceI => 200 + faceI,
           boundaryField := fun patchI faceI => 300 + 10 * patchI + faceI }
  nuTilda := fun cellI => 400 + cellI

/-- Blocks that are zero everywhere. -/
def zeroBlocks : Blocks ℚ where
  U := fun _ _ => 0
  p := fun _ => 0
  phi := { primitiveField := fun _ => 0, boundaryField := fun _ _ => 0 }
  nuTilda := fun _ => 0

/-- A vector of local length 13, the number of entries of the layout of `exampleMesh`,
all entries zero. -/
def exampleVec : Vec ℚ where
  size := 13
  array := fun _ => 0

/-- A vector of local length 20, longer than the 13 entries of the layout of
`exampleMesh`, all entries zero. -/
def exampleLongVec : Vec ℚ where
  size := 20
  array := fun _ => 0

/-- A vector of local length 5, shorter than the 13 entries of the layout of
`exampleMesh`, all entries zero. -/
def exampleShortVec : Vec ℚ where
  size := 5
  array := fun _ => 0

/-! ## Norms -/

/-- The square `sqr(x)`. -/
def sqr {α : Type} [Mul α] (x : α) : α := x * x

/-- The member `L2norm(const volScalarField& v)`: the values are scaled by the cell
volumes. -/
def L2norm {α : Type} [Field α] (sqrt : α → α) (mesh : fvMesh α) (v : volScalarField α) : α :=
  let L2norm_v := forAll mesh.nCells (fun cellI L2norm_v =>
    L2norm_v + sqr (v cellI / mesh.V cellI)) 0
  sqrt L2norm_v

/-- The member `L2norm(const volVectorField& U)`. -/
def L2normVector {α : Type} [Field α] (sqrt : α → α) (mesh : fvMesh α)
    (U : volVectorField α) : vector α :=
  let L2norm_U := forAll mesh.nCells (fun cellI (L2norm_U : vector α) =>
    let L2norm_U := Function.update L2norm_U 0 (L2norm_U 0 + sqr (U cellI 0 / mesh.V cellI))
    let L2norm_U := Function.update L2norm_U 1 (L2norm_U 1 + sqr (U cellI 1 / mesh.V cellI))
    Function.update L2norm_U 2 (L2norm_U 2 + sqr (U cellI 2 / mesh.V cellI))) (fun _ => 0)
  let L2norm_U := Function.update L2norm_U 0 (sqrt (L2norm_U 0))
  let L2norm_U := Function.update L2norm_U 1 (sqrt (L2norm_U 1))
  Function.update L2norm_U 2 (sqrt (L2norm_U 2))

/-- The member `L2norm(const surfaceScalarField& Phi)`: internal faces, then the faces of
every patch, no scaling. -/
def L2normSurface {α : Type} [Field α] (sqrt : α → α) (mesh : fvMesh α)
    (Phi : surfaceScalarField α) : α :=
  let L2norm_Phi := forAll mesh.nInternalFaces (fun cellI L2norm_Phi =>
    L2norm_Phi + sqr (Phi.primitiveField cellI)) 0
  let L2norm_Phi := forAll mesh.nPatches (fun patchI L2norm_Phi =>
    forAll (mesh.patchSize patchI) (fun faceI L2norm_Phi =>
      L2norm_Phi + sqr (Phi.boundaryField patchI faceI)) L2norm_Phi) L2norm_Phi
  sqrt L2norm_Phi

/-! ## The discretisation engine and the turbulence model (collaborators) -/

/-- What the members read and write of an `fvMatrix`: the coefficient arrays of the
`lduMatrix` (`lower` and `upper` per internal face, `diag` per cell), the source, the
boundary coefficients per patch and face, and the field `psi` the matrix is built on and
solves for. `τ` is the type of a value of the field (a scalar or a vector). -/
structure fvMatrix (α τ : Type) where
  lower : Nat → α
  upper : Nat → α
  diag : Nat → α
  source : Nat → τ
  internalCoeffs : Nat → Nat → τ
  boundaryCoeffs : Nat → Nat → τ
  psi : Nat → τ

/-- The operations of the finite-volume library that the members call; they are not part
of the repository and are taken as functions. -/
structure Discretization (α : Type) where
  /-- The matrix `fvm::div(phi, psi) - fvm::laplacian(nuEff, psi) - fvc::div(nuEff*dev2(T(fvc::grad(psi))))`. -/
  momentumEqn : surfaceScalarField α → volScalarField α → volVectorField α →
    fvMatrix α (vector α)
  /-- The call `relax()` of a matrix. -/
  relax : fvMatrix α (vector α) → fvMatrix α (vector α)
  /-- The call `A()` of a matrix. -/
  A : fvMatrix α (vector α) → volScalarField α
  /-- The call `H()` of a matrix. -/
  H : fvMatrix α (vector α) → volVectorField α
  /-- The call `lduMatrix::H(psi)` of a vector matrix. -/
  lduHVector : fvMatrix α (vector α) → volVectorField α → volVectorField α
  /-- The call `lduMatrix::H(psi)` of a scalar matrix. -/
  lduHScalar : fvMatrix α α → volScalarField α → volScalarField α
  /-- The gradient `fvc::grad(p)`. -/
  grad : volScalarField α → volVectorField α
  /-- The face flux `fvc::flux(HbyA)`. -/
  flux : volVectorField α → surfaceScalarField α
  /-- The matrix `fvm::laplacian(rAU, psi)`. -/
  laplacian : volScalarField α → volScalarField α → fvMatrix α α
  /-- The matrix `fvm::laplacian(rAU, p) == fvc::div(phiHbyA)`. -/
  pressureEqn : volScalarField α → volScalarField α → surfaceScalarField α → fvMatrix α α
  /-- The call `flux()` of a matrix. -/
  matrixFlux : fvMatrix α α → surfaceScalarField α
  /-- The call `setReference(celli, value)` of a matrix. -/
  setReference : Nat → α → fvMatrix α α → fvMatrix α α
  /-- The call `solve()` of a vector matrix: the field `psi` after the solve. -/
  solveVector : fvMatrix α (vector α) → volVectorField α
  /-- The call `solve()` of a scalar matrix: the field `psi` after the solve. -/
  solveScalar : fvMatrix α α → volScalarField α

/-- What the members call of `daTurbulenceModelPtr_`. -/
structure DATurbulenceModel (α : Type) where
  /-- The field `nuEff()`. -/
  nuEff : volScalarField α
  /-- The call `calcLduResidualTurb(nuTildaRes)`: the residual it writes. -/
  calcLduResidualTurb : volScalarField α
  /-- The call `invTranProdNuTildaEqn(mySource, pseudoNuTilda)`: the pseudo field after the call. -/
  invTranProdNuTildaEqn : volScalarField α → volScalarField α → volScalarField α

/-! ## The differentiation tape (collaborator) -/

/-- The place of a scalar inside a set of four blocks. -/
inductive Slot where
  | U (cellI : Nat) (comp : Fin 3)
  | p (cellI : Nat)
  | phi (faceI : Nat)
  | phiBoundary (patchI faceI : Nat)
  | nuTilda (cellI : Nat)
  deriving DecidableEq, Repr

/-- The active scalars the tape knows: the components of the state fields `U`, `p`, `phi`,
`nuTilda`, the components of the residual fields `URes`, `pRes`, `phiRes`, `nuTildaRes`,
and the intermediate results of the residual evaluation. -/
inductive Var where
  | state (slot : Slot)
  | residual (slot : Slot)
  | intermediate (n : Nat)
  deriving DecidableEq, Repr

/-- One recorded statement: the scalar it assigns and, for every argument, the local
derivative of the statement with respect to it. -/
structure Statement (α : Type) where
  lhs : Var
  args : List (Var × α)

/-- Modelled from the spec: the reverse-mode differentiation tape (`codi::RealReverse`'s
global tape, a library outside the repository): "a recorded sequence of elementary
operations over registered input/output variables enabling repeated backward evaluation
without re-recording". `resets` counts the calls of `reset` (it is not read by any
operation). -/
structure Tape (α : Type) where
  active : Bool
  statements : List (Statement α)
  inputs : List Var
  outputs : List Var
  adjoints : Var → α
  resets : Nat

/-- Modelled from the spec: the call `tape.reset()` of the tape library, "reset the
differentiation tape": the recorded statements are dropped and the adjoints cleared. -/
def Tape.reset {α : Type} [Zero α] (t : Tape α) : Tape α :=
  { t with statements := [], inputs := [], outputs := [], adjoints := fun _ => 0,
           resets := t.resets + 1 }

/-- The call `tape.setActive()`. -/
def Tape.setActive {α : Type} (t : Tape α) : Tape α := { t with active := true }

/-- The call `tape.setPassive()`. -/
def Tape.setPassive {α : Type} (t : Tape α) : Tape α := { t with active := false }

/-- The call `tape.registerInput(x)`. -/
def Tape.registerInput {α : Type} (t : Tape α) (x : Var) : Tape α :=
  { t with inputs := t.inputs ++ [x] }

/-- The call `tape.registerOutput(x)`. -/
def Tape.registerOutput {α : Type} (t : Tape α) (x : Var) : Tape α :=
  { t with outputs := t.outputs ++ [x] }

/-- Modelled from the spec: what a computation on active scalars does to the tape ("every
elementary operation inside those evaluations is recorded" while the tape is active): its
statements are appended while the tape is active, nothing is stored while it is passive. -/
def Tape.push {α : Type} (t : Tape α) (program : List (Statement α)) : Tape α :=
  if t.active then { t with statements := t.statements ++ program } else t

/-- The call `x.setGradient(g)`. -/
def Tape.setGradient {α : Type} (t : Tape α) (x : Var) (g : α) : Tape α :=
  { t with adjoints := Function.update t.adjoints x g }

/-- The call `x.getGradient()`. -/
def Tape.getGradient {α : Type} (t : Tape α) (x : Var) : α := t.adjoints x

/-- Modelled from the spec: the reverse step of one recorded statement: the adjoint of the
assigned scalar, times the local derivative, is added to the adjoint of every argument. -/
def Statement.propagate {α : Type} [Add α] [Mul α] (st : Statement α) (adjoints : Var → α) :
    Var → α :=
  st.args.foldl (fun a arg => Function.update a arg.1 (a arg.1 + arg.2 * adjoints st.lhs))
    adjoints

/-- Modelled from the spec: the call `tape.evaluate()` of the tape library, "propagate
seeded output adjoints backward through the recorded program to the registered inputs":
the statements are propagated from the last one back to the first. -/
def Tape.evaluate {α : Type} [Add α] [Mul α] (t : Tape α) : Tape α :=
  { t with adjoints := t.statements.foldr (fun st a => st.propagate a) t.adjoints }

/-- Modelled from the spec: the call `tape.clearAdjoints()` of the tape library, "clear the
tape's adjoint accumulators so the next seeding starts from zero". -/
def Tape.clearAdjoints {α : Type} [Zero α] (t : Tape α) : Tape α :=
  { t with adjoints := fun _ => 0 }

/-! ## The solver object -/

/-- The entries of the options dictionary that `runFPAdj` reads: `adjEqnSolMethod` and,
from the sub-dictionary `adjEqnOption`, the budget, the relaxation factors and the
tolerance. -/
structure DAOption (α : Type) where
  adjEqnSolMethod : String
  fpMaxIters : Nat
  relaxU : α
  relaxP : α
  relaxPhi : α
  relaxNuTilda : α
  fpRelTol : α

/-- What the members read of the object: mesh, index, options, the collaborators, the
state fields `U`, `p`, `phi`, `nuTilda` looked up in the registry, the pressure reference
`pRefCell_` and `pRefValue_`, the square root of the scalar type, and the statements that
the computations on active scalars store on an active tape (`linkProgram` for
`correctBoundaryConditions` and `updateIntermediateVariables`, `residualProgram` for
`calcLduResiduals` and `calcLduResidualTurb`). -/
structure Solver (α : Type) where
  mesh : fvMesh α
  daIndex : DAIndex
  daOption : DAOption α
  fv : Discretization α
  daTurbulenceModel : DATurbulenceModel α
  state : Blocks α
  pRefCell_ : Nat
  pRefValue_ : α
  sqrt : α → α
  linkProgram : List (Statement α)
  residualProgram : List (Statement α)

/-! ## calcLduResiduals -/

/-- The member `calcLduResiduals(URes, pRes, phiRes)`: the blocks `U`, `p`, `phi` of `res`
are the three fields on entry, the result holds them on return; `nuTilda` is not
touched. -/
def calcLduResiduals {α : Type} [Field α] (s : Solver α) (res : Blocks α) : Blocks α :=
  let U := s.state.U
  let p := s.state.p
  let phi := s.state.phi
  let nuEff := s.daTurbulenceModel.nuEff
  let UEqn := s.fv.momentumEqn phi nuEff U
  let USource := UEqn.source
  let UDiag := UEqn.diag
  let gradp := s.fv.grad p
  -- Initiate URes, with no boundary contribution
  let URes := forAll s.mesh.nCells (fun i URes =>
    Function.update URes i
      (fun cmpt => UDiag i * U i cmpt - USource i cmpt + s.mesh.V i * gradp i cmpt)) res.U
  let HU := s.fv.lduHVector UEqn U
  let URes : volVectorField α := fun i cmpt => URes i cmpt - HU i cmpt
  -- Add boundary contribution to source and diag
  let URes := forAll s.mesh.nPatches (fun patchI URes =>
    forAll (s.mesh.patchSize patchI) (fun faceI URes =>
      let cellI := s.mesh.faceCells patchI faceI
      let URes := forComp (fun cmpt URes =>
        setComp URes cellI cmpt
          (URes cellI cmpt + UEqn.internalCoeffs patchI faceI cmpt * U cellI cmpt)) URes
      Function.update URes cellI
        (fun cmpt => URes cellI cmpt - UEqn.boundaryCoeffs patchI faceI cmpt)) URes) URes
  let UEqn := s.fv.relax UEqn
  let AU := s.fv.A UEqn
  let rAU : volScalarField α := fun i => 1 / AU i
  let HUEqn := s.fv.H UEqn
  let HbyA : volVectorField α := fun i cmpt => rAU i * HUEqn i cmpt
  let phiHbyA := s.fv.flux HbyA
  let pEqn := s.fv.pressureEqn rAU p phiHbyA
  let pSource := pEqn.source
  let pDiag := pEqn.diag
  -- Initiate pRes, with no boundary contribution
  let pRes := forAll s.mesh.nCells (fun i pRes =>
    Function.update pRes i (pDiag i * p i - pSource i)) res.p
  let Hp := s.fv.lduHScalar pEqn p
  let pRes : volScalarField α := fun i => pRes i - Hp i
  -- Boundary correction
  let pRes := forAll s.mesh.nPatches (fun patchI pRes =>
    forAll (s.mesh.patchSize patchI) (fun faceI pRes =>
      let cellI := s.mesh.faceCells patchI faceI
      let pRes := Function.update pRes cellI
        (pRes cellI + pEqn.internalCoeffs patchI faceI * p cellI)
      Function.update pRes cellI (pRes cellI - pEqn.boundaryCoeffs patchI faceI)) pRes) pRes
  -- Then do phiRes
  let pFlux := s.fv.matrixFlux pEqn
  let phiRes : surfaceScalarField α :=
    { primitiveField := fun faceI =>
        phiHbyA.primitiveField faceI - pFlux.primitiveField faceI - phi.primitiveField faceI,
      boundaryField := fun patchI faceI =>
        phiHbyA.boundaryField patchI faceI - pFlux.boundaryField patchI faceI
          - phi.boundaryField patchI faceI }
  { res with U := URes, p := pRes, phi := phiRes }

/-! ## calcAdjointResidual -/

/-- What `calcAdjointResidual` leaves behind: the residual blocks, the adjoint residual
blocks, the tape, and the counter it holds by reference. -/
structure AdjointResidual (α : Type) where
  Res : Blocks α
  adjRes : Blocks α
  tape : Tape α
  cnt : Nat

/-- The branch `cnt == 0` of `calcAdjointResidual`: the tape is reset and set active, the
state is registered as input, the residuals are computed, the residuals are registered as
output and the tape is set passive. -/
def recordResiduals {α : Type} [Field α] (s : Solver α) (Res : Blocks α) (tape : Tape α) :
    Blocks α × Tape α :=
  let tape := tape.reset
  let tape := tape.setActive
  -- register all (3+1) state variables as input
  let tape := forAll s.mesh.nCells (fun cellI tape =>
    let tape := tape.registerInput (.state (.U cellI 0))
    let tape := tape.registerInput (.state (.U cellI 1))
    tape.registerInput (.state (.U cellI 2))) tape
  let tape := forAll s.mesh.nCells (fun cellI tape =>
    tape.registerInput (.state (.p cellI))) tape
  let tape := forAll s.mesh.nInternalFaces (fun faceI tape =>
    tape.registerInput (.state (.phi faceI))) tape
  let tape := forAll s.mesh.nPatches (fun patchI tape =>
    forAll (s.mesh.patchSize patchI) (fun faceI tape =>
      tape.registerInput (.state (.phiBoundary patchI faceI))) tape) tape
  let tape := forAll s.mesh.nCells (fun cellI tape =>
    tape.registerInput (.state (.nuTilda cellI))) tape
  -- Correct boundaries, construct nuEff
  let tape := tape.push s.linkProgram
  -- Call the residual functions
  let Res := calcLduResiduals s Res
  let Res := { Res with nuTilda := s.daTurbulenceModel.calcLduResidualTurb }
  let tape := tape.push s.residualProgram
  -- register output
  let tape := forAll s.mesh.nCells (fun cellI tape =>
    let tape := tape.registerOutput (.residual (.U cellI 0))
    let tape := tape.registerOutput (.residual (.U cellI 1))
    tape.registerOutput (.residual (.U cellI 2))) tape
  let tape := forAll s.mesh.nCells (fun cellI tape =>
    tape.registerOutput (.residual (.p cellI))) tape
  let tape := forAll s.mesh.nInternalFaces (fun faceI tape =>
    tape.registerOutput (.residual (.phi faceI))) tape
  let tape := forAll s.mesh.nPatches (fun patchI tape =>
    forAll (s.mesh.patchSize patchI) (fun faceI tape =>
      tape.registerOutput (.residual (.phiBoundary patchI faceI))) tape) tape
  let tape := forAll s.mesh.nCells (fun cellI tape =>
    tape.registerOutput (.residual (.nuTilda cellI))) tape
  -- stop recording
  (Res, tape.setPassive)

/-- The seeding loops of `calcAdjointResidual`: the gradient of every component of the
residual fields is set to the value of the matching component of the `Psi` blocks. -/
def seedResiduals {α : Type} (mesh : fvMesh α) (Psi : Blocks α) (tape : Tape α) : Tape α :=
  let tape := forAll mesh.nCells (fun cellI tape =>
    let tape := tape.setGradient (.residual (.U cellI 0)) (Psi.U cellI 0)
    let tape := tape.setGradient (.residual (.U cellI 1)) (Psi.U cellI 1)
    tape.setGradient (.residual (.U cellI 2)) (Psi.U cellI 2)) tape
  let tape := forAll mesh.nCells (fun cellI tape =>
    tape.setGradient (.residual (.p cellI)) (Psi.p cellI)) tape
  let tape := forAll mesh.nInternalFaces (fun faceI tape =>
    tape.setGradient (.residual (.phi faceI)) (Psi.phi.primitiveField faceI)) tape
  let tape := forAll mesh.nPatches (fun patchI tape =>
    forAll (mesh.patchSize patchI) (fun faceI tape =>
      tape.setGradient (.residual (.phiBoundary patchI faceI))
        (Psi.phi.boundaryField patchI faceI)) tape) tape
  forAll mesh.nCells (fun cellI tape =>
    tape.setGradient (.residual (.nuTilda cellI)) (Psi.nuTilda cellI)) tape

/-- The loops of `calcAdjointResidual` after `tape.evaluate()`: the gradient of every
component of the state is added to the matching component of the adjoint residual. -/
def addGradients {α : Type} [Add α] (mesh : fvMesh α) (tape : Tape α) (adjRes : Blocks α) :
    Blocks α :=
  let adjURes := forAll mesh.nCells (fun cellI adjURes =>
    let adjURes := setComp adjURes cellI 0
      (adjURes cellI 0 + tape.getGradient (.state (.U cellI 0)))
    let adjURes := setComp adjURes cellI 1
      (adjURes cellI 1 + tape.getGradient (.state (.U cellI 1)))
    setComp adjURes cellI 2
      (adjURes cellI 2 + tape.getGradient (.state (.U cellI 2)))) adjRes.U
  let adjpRes := forAll mesh.nCells (fun cellI adjpRes =>
    Function.update adjpRes cellI
      (adjpRes cellI + tape.getGradient (.state (.p cellI)))) adjRes.p
  let adjphiRes := forAll mesh.nInternalFaces (fun faceI adjphiRes =>
    setInternal adjphiRes faceI
      (adjphiRes.primitiveField faceI + tape.getGradient (.state (.phi faceI)))) adjRes.phi
  let adjphiRes := forAll mesh.nPatches (fun patchI adjphiRes =>
    forAll (mesh.patchSize patchI) (fun faceI adjphiRes =>
      setBoundary adjphiRes patchI faceI
        (adjphiRes.boundaryField patchI faceI
          + tape.getGradient (.state (.phiBoundary patchI faceI)))) adjphiRes) adjphiRes
  let adjnuTildaRes := forAll mesh.nCells (fun cellI adjnuTildaRes =>
    Function.update adjnuTildaRes cellI
      (adjnuTildaRes cellI + tape.getGradient (.state (.nuTilda cellI)))) adjRes.nuTilda
  { U := adjURes, p := adjpRes, phi := adjphiRes, nuTilda := adjnuTildaRes }

/-- The negated blocks `-dfdU`, `-dfdp`, `-dfdphi`, `-dfdnuTilda`. -/
def negBlocks {α : Type} [Neg α] (dfd : Blocks α) : Blocks α :=
  { U := fun cellI comp => - dfd.U cellI comp,
    p := fun cellI => - dfd.p cellI,
    phi := { primitiveField := fun faceI => - dfd.phi.primitiveField faceI,
             boundaryField := fun patchI faceI => - dfd.phi.boundaryField patchI faceI },
    nuTilda := fun cellI => - dfd.nuTilda cellI }

/-- The tape that `calcAdjointResidual` seeds: recorded in the call itself when `cnt == 0`,
the tape as it is otherwise. -/
def tapeForCall {α : Type} [Field α] (s : Solver α) (Res : Blocks α) (tape : Tape α)
    (cnt : Nat) : Blocks α × Tape α :=
  if cnt = 0 then recordResiduals s Res tape else (Res, tape)

/-- The member `calcAdjointResidual(URes, pRes, phiRes, nuTildaRes, dfdU, dfdp, dfdphi,
dfdnuTilda, UPsi, pPsi, phiPsi, nuTildaPsi, adjURes, adjpRes, adjphiRes, adjnuTildaRes,
cnt)` on the global tape: `Res`, `dfd`, `Psi`, `adjRes` are the four groups of blocks. -/
def calcAdjointResidual {α : Type} [Field α] (s : Solver α) (Res dfd Psi adjRes : Blocks α)
    (tape : Tape α) (cnt : Nat) : AdjointResidual α :=
  -- Pass -dfdw to adjRes:
  let adjRes := { adjRes with U := (negBlocks dfd).U }
  let adjRes := { adjRes with p := (negBlocks dfd).p }
  let adjRes := { adjRes with phi := (negBlocks dfd).phi }
  let adjRes := { adjRes with nuTilda := (negBlocks dfd).nuTilda }
  let recorded := tapeForCall s Res tape cnt
  -- set the AD seed to the output var
  let tape := seedResiduals s.mesh Psi recorded.2
  -- evaluate the tape
  let tape := tape.evaluate
  let adjRes := addGradients s.mesh tape adjRes
  -- Clear adjoints for future Jacobian calculations
  { Res := recorded.1, adjRes := adjRes, tape := tape.clearAdjoints, cnt := cnt }

/-! ## The inverse transpose products -/

/-- The three statements `temp = upper; upper = lower; lower = temp` of both inverse
transpose products. -/
def swapUpperLower {α τ : Type} (eqn : fvMatrix α τ) : fvMatrix α τ :=
  let temp := eqn.upper
  let eqn := { eqn with upper := eqn.lower }
  { eqn with lower := temp }

/-- The loop over the boundary faces of both inverse transpose products:
`source()[cellI] -= boundaryCoeffs()[patchI][faceI]` with `cellI` the face cell. -/
def subtractBoundarySource {α τ : Type} [Sub τ] (mesh : fvMesh α) (eqn : fvMatrix α τ) :
    fvMatrix α τ :=
  forAll mesh.nPatches (fun patchI eqn =>
    forAll (mesh.patchSize patchI) (fun faceI eqn =>
      let cellI := mesh.faceCells patchI faceI
      { eqn with
        source := Function.update eqn.source cellI
          (eqn.source cellI - eqn.boundaryCoeffs patchI faceI) }) eqn) eqn

/-- The matrix that `invTranProdUEqn(mySource, pseudoU)` hands to `solve()`, with the
zeroed `pseudoU` as its field `psi`. -/
def invTranProdUEqnSystem {α : Type} [Field α] (s : Solver α) (mySource : volVectorField α)
    (pseudoU : volVectorField α) : fvMatrix α (vector α) :=
  let phi := s.state.phi
  let nuEff := s.daTurbulenceModel.nuEff
  let pseudoUEqn := s.fv.momentumEqn phi nuEff pseudoU
  let pseudoUEqn := s.fv.relax pseudoUEqn
  -- Swap upper() and lower()
  let pseudoUEqn := swapUpperLower pseudoUEqn
  -- Overwrite the r.h.s.
  let pseudoUEqn := { pseudoUEqn with source := mySource }
  -- Make sure that boundary contribution to source is zero
  let pseudoUEqn := subtractBoundarySource s.mesh pseudoUEqn
  -- Before solve, force xEqn.psi() to be solved into all zero
  let pseudoU := forAll s.mesh.nCells (fun cellI pseudoU =>
    let pseudoU := setComp pseudoU cellI 0 0
    let pseudoU := setComp pseudoU cellI 1 0
    setComp pseudoU cellI 2 0) pseudoU
  { pseudoUEqn with psi := pseudoU }

/-- The member `invTranProdUEqn(mySource, pseudoU)`: the field `pseudoU` after the call. -/
def invTranProdUEqn {α : Type} [Field α] (s : Solver α) (mySource : volVectorField α)
    (pseudoU : volVectorField α) : volVectorField α :=
  s.fv.solveVector (invTranProdUEqnSystem s mySource pseudoU)

/-- The matrix that `invTranProdPEqn(mySource, pseudoP)` hands to `solve()`, with the
zeroed `pseudoP` as its field `psi`. -/
def invTranProdPEqnSystem {α : Type} [Field α] (s : Solver α) (mySource : volScalarField α)
    (pseudoP : volScalarField α) : fvMatrix α α :=
  let U := s.state.U
  let phi := s.state.phi
  let nuEff := s.daTurbulenceModel.nuEff
  -- Construct UEqn first
  let UEqn := s.fv.momentumEqn phi nuEff U
  let UEqn := s.fv.relax UEqn
  let AU := s.fv.A UEqn
  let rAU : volScalarField α := fun i => 1 / AU i
  let pseudoPEqn := s.fv.laplacian rAU pseudoP
  -- Swap upper() and lower()
  let pseudoPEqn := swapUpperLower pseudoPEqn
  -- Overwrite the r.h.s.
  let pseudoPEqn := { pseudoPEqn with source := mySource }
  let pseudoPEqn := s.fv.setReference 0 0 pseudoPEqn
  -- Make sure that boundary contribution to source is zero
  let pseudoPEqn := subtractBoundarySource s.mesh pseudoPEqn
  -- Before solve, force xEqn.psi() to be solved into all zero
  let pseudoP := forAll s.mesh.nCells (fun cellI pseudoP =>
    Function.update pseudoP cellI 0) pseudoP
  { pseudoPEqn with psi := pseudoP }

/-- The member `invTranProdPEqn(mySource, pseudoP)`: the field `pseudoP` after the call. -/
def invTranProdPEqn {α : Type} [Field α] (s : Solver α) (mySource : volScalarField α)
    (pseudoP : volScalarField α) : volScalarField α :=
  s.fv.solveScalar (invTranProdPEqnSystem s mySource pseudoP)

/-! ## runFPAdj -/

/-- The locals of `runFPAdj` that the loop changes: the `Psi` blocks, the pseudo fields,
the residual blocks, the adjoint residual blocks, the initial norms, the global tape and
the counter `cnt`. Two more fields keep a record of the run and are read by no statement:
`calls` lists the value of `cnt` handed to every call of `calcAdjointResidual`, `sweeps`
counts the entries into the body of the loop. -/
structure FPState (α : Type) where
  Psi : Blocks α
  pseudo_U : volVectorField α
  pseudo_p : volScalarField α
  pseudo_nuTilda : volScalarField α
  Res : Blocks α
  adjRes : Blocks α
  initNorm_adjURes : vector α
  initNorm_adjpRes : α
  initNorm_adjphiRes : α
  initNorm_adjnuTildaRes : α
  tape : Tape α
  cnt : Nat
  calls : List Nat
  sweeps : Nat

/-- The statement `this->calcAdjointResidual(URes, ..., adjnuTildaRes, cnt)` of the loop. -/
def FPState.callAdjointResidual {α : Type} [Field α] (st : FPState α) (s : Solver α)
    (dFd : Blocks α) : FPState α :=
  let r := calcAdjointResidual s st.Res dFd st.Psi st.adjRes st.tape st.cnt
  { st with Res := r.Res, adjRes := r.adjRes, tape := r.tape, cnt := r.cnt,
            calls := st.calls ++ [st.cnt] }

/-- The block `U` of the loop body. -/
def updateUPsi {α : Type} [Field α] (s : Solver α) (dFd : Blocks α) (st : FPState α) :
    FPState α :=
  let st := st.callAdjointResidual s dFd
  let pseudo_U := invTranProdUEqn s st.adjRes.U st.pseudo_U
  let UPsi := forAll s.mesh.nCells (fun cellI (UPsi : volVectorField α) =>
    Function.update UPsi cellI
      (fun comp => UPsi cellI comp - s.daOption.relaxU * pseudo_U cellI comp)) st.Psi.U
  { st with pseudo_U := pseudo_U, Psi := { st.Psi with U := UPsi } }

/-- The block `p` of the loop body. -/
def updatepPsi {α : Type} [Field α] (s : Solver α) (dFd : Blocks α) (st : FPState α) :
    FPState α :=
  let st := st.callAdjointResidual s dFd
  let pseudo_p := invTranProdPEqn s st.adjRes.p st.pseudo_p
  let pPsi := forAll s.mesh.nCells (fun cellI pPsi =>
    Function.update pPsi cellI (pPsi cellI - s.daOption.relaxP * pseudo_p cellI)) st.Psi.p
  { st with pseudo_p := pseudo_p, Psi := { st.Psi with p := pPsi } }

/-- The block `phi` of the loop body. -/
def updatephiPsi {α : Type} [Field α] (s : Solver α) (dFd : Blocks α) (st : FPState α) :
    FPState α :=
  let st := st.callAdjointResidual s dFd
  let adjphiRes := st.adjRes.phi
  let phiPsi := forAll s.mesh.nInternalFaces (fun faceI phiPsi =>
    setInternal phiPsi faceI
      (phiPsi.primitiveField faceI + s.daOption.relaxPhi * adjphiRes.primitiveField faceI))
    st.Psi.phi
  let phiPsi := forAll s.mesh.nPatches (fun patchI phiPsi =>
    forAll (s.mesh.patchSize patchI) (fun faceI phiPsi =>
      setBoundary phiPsi patchI faceI
        (phiPsi.boundaryField patchI faceI
          + s.daOption.relaxPhi * adjphiRes.boundaryField patchI faceI)) phiPsi) phiPsi
  { st with Psi := { st.Psi with phi := phiPsi } }

/-- The block `nuTilda` of the loop body. -/
def updatenuTildaPsi {α : Type} [Field α] (s : Solver α) (dFd : Blocks α) (st : FPState α) :
    FPState α :=
  let st := st.callAdjointResidual s dFd
  let pseudo_nuTilda :=
    s.daTurbulenceModel.invTranProdNuTildaEqn st.adjRes.nuTilda st.pseudo_nuTilda
  let nuTildaPsi := forAll s.mesh.nCells (fun cellI nuTildaPsi =>
    Function.update nuTildaPsi cellI
      (nuTildaPsi cellI - s.daOption.relaxNuTilda * pseudo_nuTilda cellI)) st.Psi.nuTilda
  { st with pseudo_nuTilda := pseudo_nuTilda, Psi := { st.Psi with nuTilda := nuTildaPsi } }

/-- The four block updates of one pass through the loop body, in the order of the
source. -/
def updateBlocks {α : Type} [Field α] (s : Solver α) (dFd : Blocks α) (st : FPState α) :
    FPState α :=
  updatenuTildaPsi s dFd (updatephiPsi s dFd (updatepPsi s dFd (updateUPsi s dFd st)))

/-- The locals `norm_adjURes`, `norm_adjpRes`, `norm_adjphiRes`, `norm_adjnuTildaRes` of
the convergence check. -/
structure AdjointNorms (α : Type) where
  norm_adjURes : vector α
  norm_adjpRes : α
  norm_adjphiRes : α
  norm_adjnuTildaRes : α

/-- The four calls of `L2norm` at the head of the convergence check. -/
def currentNorms {α : Type} [Field α] (s : Solver α) (st : FPState α) : AdjointNorms α :=
  { norm_adjURes := L2normVector s.sqrt s.mesh st.adjRes.U,
    norm_adjpRes := L2norm s.sqrt s.mesh st.adjRes.p,
    norm_adjphiRes := L2normSurface s.sqrt s.mesh st.adjRes.phi,
    norm_adjnuTildaRes := L2norm s.sqrt s.mesh st.adjRes.nuTilda }

/-- The block `if (cnt == 1)` of the convergence check. -/
def captureBaselines {α : Type} (st : FPState α) (n : AdjointNorms α) : FPState α :=
  if st.cnt = 1 then
    { st with initNorm_adjURes := n.norm_adjURes,
              initNorm_adjpRes := n.norm_adjpRes,
              initNorm_adjphiRes := n.norm_adjphiRes,
              initNorm_adjnuTildaRes := n.norm_adjnuTildaRes }
  else st

/-- The value of a division of two scalars of the source (`double`s): the quotient when
the divisor is not zero; when it is zero, plus or minus infinity for a positive or negative
dividend and not-a-number for the dividend zero. The zero divisor is the positive zero: the
divisors of the convergence check are square roots of sums of squares that start at
`0.0`. -/
inductive DivResult (α : Type) where
  | finite (q : α)
  | posInf
  | negInf
  | nan
  deriving DecidableEq, Repr

/-- The division `x / y` of two scalars of the source. -/
def divide {α : Type} [LinearOrderedField α] (x y : α) : DivResult α :=
  if y = 0 then
    if 0 < x then .posInf else if x < 0 then .negInf else .nan
  else .finite (x / y)

/-- The comparison `q < tol` of the result of a division with a scalar: minus infinity is
below every scalar, plus infinity and not-a-number are below none. -/
def DivResult.below {α : Type} [LinearOrderedField α] (q : DivResult α) (tol : α) : Bool :=
  match q with
  | .finite q => decide (q < tol)
  | .posInf => false
  | .negInf => true
  | .nan => false

/-- The locals `norm_adjURes`, `norm_adjpRes`, `norm_adjphiRes`, `norm_adjnuTildaRes` of the
convergence check after the six divisions. -/
structure NormalizedNorms (α : Type) where
  norm_adjURes : Fin 3 → DivResult α
  norm_adjpRes : DivResult α
  norm_adjphiRes : DivResult α
  norm_adjnuTildaRes : DivResult α

/-- The six divisions `norm /= initNorm` of the convergence check. -/
def normalizeNorms {α : Type} [LinearOrderedField α] (st : FPState α) (n : AdjointNorms α) :
    NormalizedNorms α :=
  { norm_adjURes := fun comp => divide (n.norm_adjURes comp) (st.initNorm_adjURes comp),
    norm_adjpRes := divide n.norm_adjpRes st.initNorm_adjpRes,
    norm_adjphiRes := divide n.norm_adjphiRes st.initNorm_adjphiRes,
    norm_adjnuTildaRes := divide n.norm_adjnuTildaRes st.initNorm_adjnuTildaRes }

/-- The condition of the statement `if (...) break;` of the convergence check. -/
def toleranceMet {α : Type} [LinearOrderedField α] (fpRelTol : α) (n : NormalizedNorms α) :
    Bool :=
  (n.norm_adjURes 0).below fpRelTol && (n.norm_adjURes 1).below fpRelTol
    && (n.norm_adjURes 2).below fpRelTol && n.norm_adjpRes.below fpRelTol
    && n.norm_adjphiRes.below fpRelTol && n.norm_adjnuTildaRes.below fpRelTol

/-- The normalized norms that the convergence check of a sweep compares with the
tolerance, from the state after the four block updates. -/
def normalizedNorms {α : Type} [LinearOrderedField α] (s : Solver α) (st : FPState α) :
    NormalizedNorms α :=
  normalizeNorms (captureBaselines st (currentNorms s st)) (currentNorms s st)

/-- The convergence check `if (cnt >= 1) ...` at the end of the loop body: the state after
it and whether `break` is reached. -/
def convergenceCheck {α : Type} [LinearOrderedField α] (s : Solver α) (st : FPState α) :
    FPState α × Bool :=
  if st.cnt ≥ 1 then
    let n := currentNorms s st
    let st := captureBaselines st n
    let n := normalizeNorms st n
    (st, toleranceMet s.daOption.fpRelTol n)
  else
    (st, false)

/-- The body of the loop up to the statement `cnt++`: the state after it and whether
`break` is reached. -/
def sweep {α : Type} [LinearOrderedField α] (s : Solver α) (dFd : Blocks α)
    (st : FPState α) : FPState α × Bool :=
  convergenceCheck s (updateBlocks s dFd { st with sweeps := st.sweeps + 1 })

/-- The loop `while (cnt < fpMaxIters)` of `runFPAdj`. -/
def fpLoop {α : Type} [LinearOrderedField α] (s : Solver α) (dFd : Blocks α)
    (st : FPState α) : FPState α :=
  if st.cnt < s.daOption.fpMaxIters then
    let r := sweep s dFd st
    if r.2 then r.1 else fpLoop s dFd { r.1 with cnt := r.1.cnt + 1 }
  else st
termination_by s.daOption.fpMaxIters - st.cnt
decreasing_by
  have hcnt : (sweep s dFd st).1.cnt = st.cnt := by
    unfold sweep convergenceCheck captureBaselines
    split
    · dsimp only
      split <;> rfl
    · rfl
  simp only [hcnt]
  omega

/-- The call `VecZeroEntries(psi)`. -/
def VecZeroEntries {α : Type} [Zero α] (v : Vec α) : Vec α :=
  { v with array := fun i => if i < v.size then 0 else v.array i }

/-- The fields `0.0 * U`, `0.0 * p`, `0.0 * phi`, `0.0 * nuTilda`. -/
def zeroTimes {α : Type} [Field α] (b : Blocks α) : Blocks α :=
  { U := fun cellI comp => 0 * b.U cellI comp,
    p := fun cellI => 0 * b.p cellI,
    phi := { primitiveField := fun faceI => 0 * b.phi.primitiveField faceI,
             boundaryField := fun patchI faceI => 0 * b.phi.boundaryField patchI faceI },
    nuTilda := fun cellI => 0 * b.nuTilda cellI }

/-- What a call of `runFPAdj` leaves behind: the label it returns or its failure, the
vector `psi`, and, when the loop of the branch `fixedPoint` ran, the state of the loop at
its end. -/
structure RunResult (α : Type) where
  ret : Except Failure Nat
  psi : Vec α
  loop : Option (FPState α)

/-- The locals of `runFPAdj` at the head of the loop. -/
def initialState {α : Type} [Field α] (s : Solver α) (tape : Tape α) : FPState α :=
  let Res := zeroTimes s.state
  let Res := calcLduResiduals s Res
  let Res := { Res with nuTilda := s.daTurbulenceModel.calcLduResidualTurb }
  { Psi := zeroTimes s.state,
    pseudo_U := s.state.U,
    pseudo_p := s.state.p,
    pseudo_nuTilda := s.state.nuTilda,
    Res := Res,
    adjRes := zeroTimes s.state,
    initNorm_adjURes := fun _ => 0,
    initNorm_adjpRes := 0,
    initNorm_adjphiRes := 0,
    initNorm_adjnuTildaRes := 0,
    tape := tape.push s.residualProgram,
    cnt := 0,
    calls := [],
    sweeps := 0 }

/-- The member `runFPAdj(dFdW, psi)`, run with the global tape in the state `tape`. -/
def runFPAdj {α : Type} [LinearOrderedField α] (s : Solver α) (dFdW psi : Vec α)
    (tape : Tape α) : RunResult α :=
  let psi := VecZeroEntries psi
  let adjEqnSolMethod := s.daOption.adjEqnSolMethod
  if adjEqnSolMethod = "fixedPoint" then
    match vec2Fields s.mesh s.daIndex "vec2Field" dFdW (zeroTimes s.state) with
    | .error msg => { ret := .error msg, psi := psi, loop := none }
    | .ok (_, dFd) =>
      let st := fpLoop s dFd (initialState s tape)
      -- converged, assign the field Psi to psiVec
      match vec2Fields s.mesh s.daIndex "field2Vec" psi st.Psi with
      | .error msg => { ret := .error msg, psi := psi, loop := some st }
      | .ok (psi, _) => { ret := .ok 0, psi := psi, loop := some st }
  else if adjEqnSolMethod = "fixedPointC" then
    -- not implemented yet
    { ret := .ok 0, psi := psi, loop := none }
  else
    { ret := .error (.fatal "adjEqnSolMethod not valid"), psi := psi, loop := none }

/-- The number of passes through the loop body in a run (none outside the branch
`fixedPoint`). -/
def RunResult.sweeps {α : Type} (r : RunResult α) : Nat :=
  match r.loop with
  | some st => st.sweeps
  | none => 0

/-- The values of `cnt` handed to `calcAdjointResidual` in a run, in the order of the
calls. -/
def RunResult.calls {α : Type} (r : RunResult α) : List Nat :=
  match r.loop with
  | some st => st.calls
  | none => []

/-! ## A small solver for concrete evaluations -/

/-- A stand-in for the finite-volume library on `exampleMesh`: constant coefficients, boundary
coefficients zero, `setReference` adding `diag*value` to the source and doubling the
diagonal at the cell, and a solve that corrects the field `psi` by the residual of its
diagonal equation. -/
def exampleFv : Discretization ℚ where
  momentumEqn := fun _ nuEff psi =>
    { lower := fun _ => -1, upper := fun _ => -2, diag := fun i => 4 + nuEff i,
      source := fun _ _ => 3, internalCoeffs := fun _ _ _ => 1,
      boundaryCoeffs := fun _ _ _ => 0, psi := psi }
  relax := fun eqn => { eqn with diag := fun i => 2 * eqn.diag i }
  A := fun eqn => eqn.diag
  H := fun eqn => eqn.source
  lduHVector := fun _ _ _ _ => 0
  lduHScalar := fun _ _ _ => 0
  grad := fun p i _ => p i
  flux := fun HbyA => { primitiveField := fun f => HbyA f 0, boundaryField := fun _ _ => 0 }
  laplacian := fun rAU psi =>
    { lower := fun _ => -1, upper := fun _ => -1, diag := fun i => 20 * rAU i,
      source := fun _ => 0, internalCoeffs := fun _ _ => 1,
      boundaryCoeffs := fun _ _ => 0, psi := psi }
  pressureEqn := fun rAU p phiHbyA =>
    { lower := fun _ => -1, upper := fun _ => -1, diag := fun i => 20 * rAU i,
      source := fun i => phiHbyA.primitiveField i, internalCoeffs := fun _ _ => 1,
      boundaryCoeffs := fun _ _ => 0, psi := p }
  matrixFlux := fun eqn =>
    { primitiveField := fun f => eqn.upper f * eqn.psi f, boundaryField := fun _ _ => 0 }
  setReference := fun celli value eqn =>
    { eqn with
      source := Function.update eqn.source celli (eqn.source celli + eqn.diag celli * value),
      diag := Function.update eqn.diag celli (eqn.diag celli + eqn.diag celli) }
  solveVector := fun eqn i comp =>
    eqn.psi i comp + (eqn.source i comp - eqn.diag i * eqn.psi i comp) / eqn.diag i
  solveScalar := fun eqn i =>
    eqn.psi i + (eqn.source i - eqn.diag i * eqn.psi i) / eqn.diag i

/-- A stand-in for the turbulence model. -/
def exampleTurbulence : DATurbulenceModel ℚ where
  nuEff := fun _ => 1
  calcLduResidualTurb := fun _ => 0
  invTranProdNuTildaEqn := fun mySource _ => mySource

/-- A recorded residual evaluation on `exampleMesh`: the residual of `p` in cell 0 depends
on `p` in both cells, the residual of `p` in cell 1 on `p` in cell 1. -/
def exampleProgram : List (Statement ℚ) :=
  [ { lhs := .residual (.p 0), args := [(.state (.p 0), 2), (.state (.p 1), -1)] },
    { lhs := .residual (.p 1), args := [(.state (.p 1), 3)] } ]

/-- A solver on `exampleMesh`: scheme `fixedPoint`, a budget of two sweeps, the pressure
reference in cell 1 with value 5. The rationals have no square root; the identity stands
in for it. -/
def exampleSolver : Solver ℚ where
  mesh := exampleMesh
  daIndex := exampleIndex
  daOption :=
    { adjEqnSolMethod := "fixedPoint", fpMaxIters := 2, relaxU := 1 / 2, relaxP := 1 / 2,
      relaxPhi := 1 / 2, relaxNuTilda := 1 / 2, fpRelTol := 1 / 1000 }
  fv := exampleFv
  daTurbulenceModel := exampleTurbulence
  state := exampleBlocks
  pRefCell_ := 1
  pRefValue_ := 5
  sqrt := fun x => x
  linkProgram := []
  residualProgram := exampleProgram

/-- A tape with nothing recorded. -/
def emptyTape : Tape ℚ where
  active := false
  statements := []
  inputs := []
  outputs := []
  adjoints := fun _ => 0
  resets := 0

/-! ## Components of blocks, for the statements about calcAdjointResidual -/

/-- The value of a set of blocks at a slot. -/
def Blocks.component {α : Type} (b : Blocks α) : Slot → α
  | .U cellI comp => b.U cellI comp
  | .p cellI => b.p cellI
  | .phi faceI => b.phi.primitiveField faceI
  | .phiBoundary patchI faceI => b.phi.boundaryField patchI faceI
  | .nuTilda cellI => b.nuTilda cellI

/-- The slots of the mesh: the cells for `U`, `p`, `nuTilda`, the internal faces and the
faces of every patch for `phi`; these are the components the loops of
`calcAdjointResidual` run over. -/
def fvMesh.hasSlot {α : Type} (mesh : fvMesh α) : Slot → Bool
  | .U cellI _ => decide (cellI < mesh.nCells)
  | .p cellI => decide (cellI < mesh.nCells)
  | .phi faceI => decide (faceI < mesh.nInternalFaces)
  | .phiBoundary patchI faceI =>
      decide (patchI < mesh.nPatches) && decide (faceI < mesh.patchSize patchI)
  | .nuTilda cellI => decide (cellI < mesh.nCells)

/-- The adjoints of the tape once the residual outputs are seeded with the `Psi` blocks:
the adjoint of every residual component of the mesh is the matching component of `Psi`,
every other adjoint is as before. -/
def seedAdjoints {α : Type} (mesh : fvMesh α) (Psi : Blocks α) (adjoints : Var → α) :
    Var → α
  | .residual slot =>
      if mesh.hasSlot slot then Psi.component slot else adjoints (.residual slot)
  | .state slot => adjoints (.state slot)
  | .intermediate n => adjoints (.intermediate n)

/-! ## Predicates for the statements about the inverse transpose products -/

/-- A field that is zero in every cell of the mesh. -/
def zeroInCells {α τ : Type} [Zero τ] (mesh : fvMesh α) (field : Nat → τ) : Prop :=
  ∀ i, i < mesh.nCells → field i = 0

/-- A matrix whose boundary coefficients are zero on every face of every patch. -/
def zeroBoundaryCoeffs {α τ : Type} [Zero τ] (mesh : fvMesh α) (eqn : fvMatrix α τ) : Prop :=
  ∀ patchI faceI, patchI < mesh.nPatches → faceI < mesh.patchSize patchI →
    eqn.boundaryCoeffs patchI faceI = 0

/-- A solve that returns zero in every cell for a matrix whose source and initial guess
are zero in every cell and whose boundary coefficients are zero. -/
def solveKeepsZero {α τ : Type} [Zero τ] (mesh : fvMesh α)
    (solve : fvMatrix α τ → (Nat → τ)) : Prop :=
  ∀ eqn, zeroInCells mesh eqn.source → zeroInCells mesh eqn.psi →
    zeroBoundaryCoeffs mesh eqn → zeroInCells mesh (solve eqn)

/-- A `setReference` that, called with the value zero, leaves a source that is zero in
every cell zero in every cell. -/
def referenceKeepsZero {α : Type} [Zero α] (mesh : fvMesh α)
    (setReference : Nat → α → fvMatrix α α → fvMatrix α α) : Prop :=
  ∀ eqn, zeroInCells mesh eqn.source → zeroInCells mesh (setReference 0 0 eqn).source

/-! ## A run that ends in its second sweep -/

/-- A solver on `exampleMesh` like `exampleSolver`, with a budget of five sweeps, the
relative tolerance 2, the square root of the rationals (exact on squares), and a residual
evaluation that stores no statement on the tape, so that the adjoint residual of every
call is the negated objective gradient. -/
def exampleLooseSolver : Solver ℚ :=
  { exampleSolver with
    daOption :=
      { adjEqnSolMethod := "fixedPoint", fpMaxIters := 5, relaxU := 1 / 2, relaxP := 1 / 2,
        relaxPhi := 1 / 2, relaxNuTilda := 1 / 2, fpRelTol := 2 }
    sqrt := Rat.sqrt
    linkProgram := []
    residualProgram := [] }

/-- An objective gradient `dFdW` on `exampleMesh`: -3 in cell 0 and -4 in cell 1 for
every component of `U`, for `p` and for `nuTilda`; -3 on the internal face, -4 and 0 on
the two boundary faces. Every block has the norm 5 on the unit volumes of the mesh. -/
def exampleGradientVec : Vec ℚ where
  size := 13
  array := fun i =>
    if i = 10 then 0
    else if i = 3 ∨ i = 4 ∨ i = 5 ∨ i = 7 ∨ i = 9 ∨ i = 12 then -4
    else -3

/-- The blocks that `runFPAdj` reads from `exampleGradientVec`. -/
def exampleGradient : Blocks ℚ :=
  vec2FieldsRead exampleMesh exampleIndex exampleGradientVec.array (zeroTimes exampleBlocks)

/-! ## The sweeps of a run, one by one -/

/-- One pass through the body of the loop of `runFPAdj` in which `break` is not reached:
the sweep followed by the statement `cnt++`. -/
def completedSweep {α : Type} [LinearOrderedField α] (s : Solver α) (dFd : Blocks α)
    (st : FPState α) : FPState α :=
  { (sweep s dFd st).1 with cnt := (sweep s dFd st).1.cnt + 1 }

/-- The locals of `runFPAdj` at the head of the loop after `k` completed sweeps. -/
def sweepHead {α : Type} [LinearOrderedField α] (s : Solver α) (dFd : Blocks α)
    (tape : Tape α) : Nat → FPState α
  | 0 => initialState s tape
  | k + 1 => completedSweep s dFd (sweepHead s dFd tape k)

/-- The locals of `runFPAdj` where the sweep that follows `k` completed sweeps enters its
convergence check: after the four block updates. -/
def beforeCheck {α : Type} [LinearOrderedField α] (s : Solver α) (dFd : Blocks α)
    (tape : Tape α) (k : Nat) : FPState α :=
  updateBlocks s dFd
    { sweepHead s dFd tape k with sweeps := (sweepHead s dFd tape k).sweeps + 1 }

/-! ## The coefficient matrix of an operator in lower/diagonal/upper form -/

/-- Modelled from the spec: the face addressing of an operator in lower/diagonal/upper
form, "owner cell, neighbour cell per internal face": `lowerAddr` gives the owner and
`upperAddr` the neighbour of a face. -/
structure lduAddressing where
  lowerAddr : Nat → Nat
  upperAddr : Nat → Nat

/-- Modelled from the spec: the entry `(i, j)` of the internal-coefficient matrix of an
operator in lower/diagonal/upper form: the diagonal coefficient of the cell on the
diagonal, and for every internal face its upper coefficient in the row of the owner and
the column of the neighbour, its lower coefficient in the row of the neighbour and the
column of the owner. -/
def fvMatrix.entry {α τ : Type} [Field α] (eqn : fvMatrix α τ) (mesh : fvMesh α)
    (addr : lduAddressing) (i j : Nat) : α :=
  forAll mesh.nInternalFaces (fun faceI acc =>
    acc + ((if addr.lowerAddr faceI = i ∧ addr.upperAddr faceI = j then eqn.upper faceI else 0)
      + (if addr.upperAddr faceI = i ∧ addr.lowerAddr faceI = j then eqn.lower faceI else 0)))
    (if i = j then eqn.diag i else 0)

/-- The owner and the neighbour of the one internal face of `exampleMesh`. -/
def exampleAddressing : lduAddressing where
  lowerAddr := fun _ => 0
  upperAddr := fun _ => 1

/-! ## The momentum operator with its boundary contributions -/

/-- Modelled from the spec: the sum of `g patchI faceI` over "every boundary face whose
face cell is" `cellI`. -/
def boundarySum {α : Type} [Field α] (mesh : fvMesh α) (g : Nat → Nat → α) (cellI : Nat) : α :=
  forAll mesh.nPatches (fun patchI acc =>
    forAll (mesh.patchSize patchI) (fun faceI acc =>
      acc + (if mesh.faceCells patchI faceI = cellI then g patchI faceI else 0)) acc) 0

/-- Modelled from the spec: the off-diagonal part of the operator applied to a field, in
cell `cellI` the sum over the internal faces of the off-diagonal coefficient times the
value in the cell across the face (the upper coefficient times the value of the neighbour
in the row of the owner, the lower coefficient times the value of the owner in the row of
the neighbour). -/
def offDiagonalTimes {α : Type} [Field α] (mesh : fvMesh α) (addr : lduAddressing)
    (eqn : fvMatrix α (vector α)) (psi : volVectorField α) : volVectorField α :=
  fun cellI cmpt =>
    forAll mesh.nInternalFaces (fun faceI acc =>
      acc + ((if addr.lowerAddr faceI = cellI
                then eqn.upper faceI * psi (addr.upperAddr faceI) cmpt else 0)
        + (if addr.upperAddr faceI = cellI
                then eqn.lower faceI * psi (addr.lowerAddr faceI) cmpt else 0))) 0

/-- Modelled from the spec: `H(U)`, "the negated sum of off-diagonal coefficients times
neighbour values": every internal face takes its lower coefficient times the value of the
owner off the cell of the neighbour, and its upper coefficient times the value of the
neighbour off the cell of the owner. -/
def lduMatrixH {α : Type} [Field α] (mesh : fvMesh α) (addr : lduAddressing)
    (eqn : fvMatrix α (vector α)) (psi : volVectorField α) : volVectorField α :=
  fun cellI cmpt =>
    forAll mesh.nInternalFaces (fun faceI Hpsi =>
      let Hpsi := if addr.upperAddr faceI = cellI
        then Hpsi - eqn.lower faceI * psi (addr.lowerAddr faceI) cmpt else Hpsi
      if addr.lowerAddr faceI = cellI
        then Hpsi - eqn.upper faceI * psi (addr.upperAddr faceI) cmpt else Hpsi) 0

/-- Modelled from the spec: `A*U` for "the full un-relaxed operator A (diagonal plus
boundary internal coefficients plus off-diagonals)". -/
def operatorTimes {α : Type} [Field α] (mesh : fvMesh α) (addr : lduAddressing)
    (eqn : fvMatrix α (vector α)) (psi : volVectorField α) : volVectorField α :=
  fun cellI cmpt =>
    (eqn.diag cellI + boundarySum mesh (fun patchI faceI => eqn.internalCoeffs patchI faceI cmpt)
      cellI) * psi cellI cmpt
    + offDiagonalTimes mesh addr eqn psi cellI cmpt

/-- Modelled from the spec: the "full source b (source plus boundary coefficients)". -/
def fullSource {α : Type} [Field α] (mesh : fvMesh α) (eqn : fvMatrix α (vector α)) :
    volVectorField α :=
  fun cellI cmpt =>
    eqn.source cellI cmpt
      + boundarySum mesh (fun patchI faceI => eqn.boundaryCoeffs patchI faceI cmpt) cellI

/-- A discretisation on `exampleMesh` as `exampleFv`, with boundary coefficients that are
not zero and with `lduMatrix::H` computed from the coefficients over `exampleAddressing`. -/
def exampleLduFv : Discretization ℚ :=
  { exampleFv with
    momentumEqn := fun _ nuEff psi =>
      { lower := fun _ => -1, upper := fun _ => -2, diag := fun i => 4 + nuEff i,
        source := fun _ _ => 3, internalCoeffs := fun _ _ _ => 1,
        boundaryCoeffs := fun _ faceI _ => 7 + faceI, psi := psi }
    lduHVector := fun eqn psi => lduMatrixH exampleMesh exampleAddressing eqn psi }

/-- The solver `exampleSolver` on the discretisation `exampleLduFv`. -/
def exampleLduSolver : Solver ℚ :=
  { exampleSolver with fv := exampleLduFv }

/-! ## A run whose norms change from sweep to sweep -/

/-- A recorded residual evaluation on `exampleMesh` in which the residual of `p` in cell 0
depends on `p` in cell 0, with the derivative 8/3. -/
def exampleCoupledProgram : List (Statement ℚ) :=
  [ { lhs := .residual (.p 0), args := [(.state (.p 0), 8 / 3)] } ]

/-- The solver `exampleSolver` with a budget of three sweeps, the tolerance 1 and the
recorded residual evaluation `exampleCoupledProgram`; the identity stands in for the square
root. -/
def exampleCoupledSolver : Solver ℚ :=
  { exampleSolver with
    daOption :=
      { adjEqnSolMethod := "fixedPoint", fpMaxIters := 3, relaxU := 1 / 2, relaxP := 1 / 2,
        relaxPhi := 1 / 2, relaxNuTilda := 1 / 2, fpRelTol := 1 }
    linkProgram := []
    residualProgram := exampleCoupledProgram }

/-- The gradient that `getGradient` gives for a state slot after `tape.evaluate()`, on a
tape that holds the statements `program` and whose adjoints, all zero before, are seeded
with the blocks `Psi`. -/
def seededGradient {α : Type} [Field α] (mesh : fvMesh α) (program : List (Statement α))
    (Psi : Blocks α) (slot : Slot) : α :=
  (program.foldr (fun st a => st.propagate a) (seedAdjoints mesh Psi (fun _ => 0)))
    (.state slot)

/-! ## Loops: unfolding and invariants -/

theorem forAll_zero {σ : Type} (body : Nat → σ → σ) (s : σ) : forAll 0 body s = s := by
  simp [forAll]

theorem forAll_succ {σ : Type} (n : Nat) (body : Nat → σ → σ) (s : σ) :
    forAll (n + 1) body s = body n (forAll n body s) := by
  simp [forAll, List.range_succ, List.foldl_append]

theorem forComp_eq {σ : Type} (body : Fin 3 → σ → σ) (s : σ) :
    forComp body s = body 2 (body 1 (body 0 s)) := by
  simp [forComp]

/-- A loop that assigns `f i` to entry `i` of a field. -/
theorem forAll_update {β : Type} (n : Nat) (f : Nat → β) (a : Nat → β) :
    forAll n (fun i acc => Function.update acc i (f i)) a
      = fun i => if i < n then f i else a i := by
  induction n with
  | zero => simp [forAll_zero]
  | succ n ih =>
    rw [forAll_succ, ih]
    funext i
    by_cases h : i = n
    · subst h; simp
    · rw [Function.update_noteq h]
      have : (i < n + 1) = (i < n) := by
        apply propext; omega
      simp [this]

/-! ## vec2Fields: the array after `field2Vec` -/

theorem writeAll_append {ι α : Type} (l₁ l₂ : List ι) (idx : ι → Nat) (val : ι → α)
    (arr : Nat → α) :
    writeAll (l₁ ++ l₂) idx val arr = writeAll l₂ idx val (writeAll l₁ idx val arr) := by
  simp [writeAll, List.foldl_append]

theorem writeAll_of_not_mem {ι α : Type} (l : List ι) (idx : ι → Nat) (val : ι → α)
    (arr : Nat → α) (x : Nat) (hx : x ∉ l.map idx) : writeAll l idx val arr x = arr x := by
  induction l generalizing arr with
  | nil => rfl
  | cons k t ih =>
    simp only [List.map_cons, List.mem_cons, not_or] at hx
    have h := ih (Function.update arr (idx k) (val k)) hx.2
    simp only [writeAll, List.foldl_cons] at h ⊢
    rw [h, Function.update_noteq hx.1]

/-- An entry of the array keeps a value that every write to it writes. -/
theorem writeAll_of_agree {ι α : Type} (l : List ι) (idx : ι → Nat) (val : ι → α)
    (arr : Nat → α) (x : Nat) (v : α) (h0 : arr x = v)
    (hagree : ∀ k ∈ l, idx k = x → val k = v) : writeAll l idx val arr x = v := by
  induction l generalizing arr with
  | nil => exact h0
  | cons h t ih =>
    have hstep : writeAll (h :: t) idx val arr
        = writeAll t idx val (Function.update arr (idx h) (val h)) := rfl
    rw [hstep]
    refine ih _ ?_ (fun k hk => hagree k (List.mem_cons_of_mem _ hk))
    by_cases hx : x = idx h
    · subst hx
      rw [Function.update_same]
      exact hagree h (List.mem_cons_self _ _) rfl
    · rw [Function.update_noteq hx]
      exact h0

theorem writeAll_of_mem {ι α : Type} (l : List ι) (idx : ι → Nat) (val : ι → α)
    (arr : Nat → α) (hinj : ∀ k₁ ∈ l, ∀ k₂ ∈ l, idx k₁ = idx k₂ → k₁ = k₂) (k : ι)
    (hk : k ∈ l) : writeAll l idx val arr (idx k) = val k := by
  induction l generalizing arr with
  | nil => simp at hk
  | cons h t ih =>
    have hstep : writeAll (h :: t) idx val arr
        = writeAll t idx val (Function.update arr (idx h) (val h)) := rfl
    rw [hstep]
    by_cases hkt : k ∈ t
    · exact ih _ (fun k₁ h₁ k₂ h₂ => hinj k₁ (List.mem_cons_of_mem _ h₁) k₂
        (List.mem_cons_of_mem _ h₂)) hkt
    · have hkh : k = h := by
        rcases List.mem_cons.mp hk with h' | h'
        · exact h'
        · exact absurd h' hkt
      subst hkh
      refine writeAll_of_agree t idx val _ _ _ (by rw [Function.update_same]) ?_
      intro k' hk' he
      rw [hinj k' (List.mem_cons_of_mem _ hk') k (List.mem_cons_self _ _) he]

theorem forAll_eq_writeAll {ι α : Type} (n : Nat) (K : Nat → ι) (idx : ι → Nat)
    (val : ι → α) (arr : Nat → α) :
    forAll n (fun i a => Function.update a (idx (K i)) (val (K i))) arr
      = writeAll ((List.range n).map K) idx val arr := by
  simp [forAll, writeAll, List.foldl_map]

theorem vec2FieldsWrite_eq_writeAll {α : Type} (mesh : fvMesh α) (daIndex : DAIndex)
    (arr : Nat → α) (b : Blocks α) :
    vec2FieldsWrite mesh daIndex arr b
      = writeAll (stateKeys mesh.nCells mesh.nFaces) daIndex.indexOf (b.valueAt daIndex) arr := by
  have hU : ∀ (n : Nat) (a : Nat → α),
      forAll n (fun cellI cVecArray =>
        forComp (fun comp cVecArray =>
          Function.update cVecArray
            (daIndex.getLocalAdjointStateIndex "U" cellI (some comp.val)) (b.U cellI comp))
          cVecArray) a
        = writeAll ((List.range n).flatMap fun cellI =>
            [StateKey.U cellI 0, StateKey.U cellI 1, StateKey.U cellI 2])
            daIndex.indexOf (b.valueAt daIndex) a := by
    intro n a
    induction n with
    | zero => simp [forAll_zero, writeAll]
    | succ n ih =>
      rw [forAll_succ, ih, List.range_succ, List.flatMap_append, writeAll_append, forComp_eq]
      simp [writeAll, DAIndex.indexOf, Blocks.valueAt]
  have hp := forAll_eq_writeAll mesh.nCells StateKey.p daIndex.indexOf (b.valueAt daIndex)
  have hphi := forAll_eq_writeAll mesh.nFaces StateKey.phi daIndex.indexOf (b.valueAt daIndex)
  have hnu := forAll_eq_writeAll mesh.nCells StateKey.nuTilda daIndex.indexOf
    (b.valueAt daIndex)
  have hphi' : ∀ a : Nat → α,
      forAll mesh.nFaces (fun faceI cVecArray =>
        if faceI < daIndex.nLocalInternalFaces then
          Function.update cVecArray (daIndex.getLocalAdjointStateIndex "phi" faceI none)
            (b.phi.primitiveField faceI)
        else
          Function.update cVecArray (daIndex.getLocalAdjointStateIndex "phi" faceI none)
            (b.phi.boundaryField (daIndex.bFacePatchI (faceI - daIndex.nLocalInternalFaces))
              (daIndex.bFaceFaceI (faceI - daIndex.nLocalInternalFaces)))) a
        = writeAll ((List.range mesh.nFaces).map StateKey.phi) daIndex.indexOf
            (b.valueAt daIndex) a := by
    intro a
    rw [← hphi a]
    congr 1
    funext faceI cVecArray
    simp only [DAIndex.indexOf, Blocks.valueAt]
    split <;> rfl
  simp only [DAIndex.indexOf, Blocks.valueAt] at hp hnu
  unfold vec2FieldsWrite stateKeys
  simp only [writeAll_append]
  rw [hU, hp, hphi', hnu]

/-- After `field2Vec` the array holds, at the flat index of every tuple of the mesh, the
value of the blocks at that tuple. -/
theorem vec2FieldsWrite_at {α : Type} (mesh : fvMesh α) (daIndex : DAIndex)
    (arr : Nat → α) (b : Blocks α) (hinj : daIndex.InjectiveOn mesh.nCells mesh.nFaces)
    (k : StateKey) (hk : k ∈ stateKeys mesh.nCells mesh.nFaces) :
    vec2FieldsWrite mesh daIndex arr b (daIndex.indexOf k) = b.valueAt daIndex k := by
  rw [vec2FieldsWrite_eq_writeAll]
  exact writeAll_of_mem _ _ _ _ hinj k hk

/-! ## vec2Fields: the blocks after `vec2Field` -/

theorem mem_stateKeys_U (nCells nFaces cellI : Nat) (comp : Fin 3) (h : cellI < nCells) :
    StateKey.U cellI comp ∈ stateKeys nCells nFaces := by
  simp only [stateKeys, List.mem_append, List.mem_flatMap, List.mem_range]
  refine Or.inl (Or.inl (Or.inl ⟨cellI, h, ?_⟩))
  fin_cases comp <;> simp

theorem mem_stateKeys_p (nCells nFaces cellI : Nat) (h : cellI < nCells) :
    StateKey.p cellI ∈ stateKeys nCells nFaces := by
  simp [stateKeys, h]

theorem mem_stateKeys_phi (nCells nFaces faceI : Nat) (h : faceI < nFaces) :
    StateKey.phi faceI ∈ stateKeys nCells nFaces := by
  simp [stateKeys, h]

theorem mem_stateKeys_nuTilda (nCells nFaces cellI : Nat) (h : cellI < nCells) :
    StateKey.nuTilda cellI ∈ stateKeys nCells nFaces := by
  simp [stateKeys, h]

/-- The loop over the cells and the components that assigns `f cellI comp`. -/
theorem forAll_forComp_setComp {α : Type} (n : Nat) (f : Nat → Fin 3 → α)
    (U : volVectorField α) :
    forAll n (fun cellI UField =>
        forComp (fun comp UField => setComp UField cellI comp (f cellI comp)) UField) U
      = fun cellI => if cellI < n then f cellI else U cellI := by
  induction n with
  | zero => simp [forAll_zero]
  | succ n ih =>
    rw [forAll_succ, ih, forComp_eq]
    funext cellI
    by_cases h : cellI = n
    · subst h
      funext comp
      fin_cases comp <;> simp [setComp, Function.update]
    · have hlt : (cellI < n + 1) = (cellI < n) := by
        apply propext; omega
      simp [setComp, Function.update_noteq h, hlt]

theorem vec2FieldsRead_U {α : Type} (mesh : fvMesh α) (daIndex : DAIndex)
    (arr : Nat → α) (b : Blocks α) (cellI : Nat) (comp : Fin 3) (h : cellI < mesh.nCells) :
    (vec2FieldsRead mesh daIndex arr b).U cellI comp = arr (daIndex.indexOf (.U cellI comp)) := by
  simp only [vec2FieldsRead]
  rw [forAll_forComp_setComp mesh.nCells
    (fun cellI comp => arr (daIndex.getLocalAdjointStateIndex "U" cellI (some comp.val)))]
  simp [h, DAIndex.indexOf]

theorem vec2FieldsRead_p {α : Type} (mesh : fvMesh α) (daIndex : DAIndex)
    (arr : Nat → α) (b : Blocks α) (cellI : Nat) (h : cellI < mesh.nCells) :
    (vec2FieldsRead mesh daIndex arr b).p cellI = arr (daIndex.indexOf (.p cellI)) := by
  simp only [vec2FieldsRead]
  rw [forAll_update mesh.nCells
    (fun cellI => arr (daIndex.getLocalAdjointStateIndex "p" cellI none))]
  simp [h, DAIndex.indexOf]

theorem vec2FieldsRead_nuTilda {α : Type} (mesh : fvMesh α) (daIndex : DAIndex)
    (arr : Nat → α) (b : Blocks α) (cellI : Nat) (h : cellI < mesh.nCells) :
    (vec2FieldsRead mesh daIndex arr b).nuTilda cellI
      = arr (daIndex.indexOf (.nuTilda cellI)) := by
  simp only [vec2FieldsRead]
  rw [forAll_update mesh.nCells
    (fun cellI => arr (daIndex.getLocalAdjointStateIndex "nuTilda" cellI none))]
  simp [h, DAIndex.indexOf]

/-- The face loop of `vec2Field`, as a function of the number of faces done. -/
theorem vec2FieldsRead_phi_eq {α : Type} (mesh : fvMesh α) (daIndex : DAIndex)
    (arr : Nat → α) (b : Blocks α) :
    (vec2FieldsRead mesh daIndex arr b).phi
      = forAll mesh.nFaces (fun faceI phiField =>
          if faceI < daIndex.nLocalInternalFaces then
            setInternal phiField faceI (arr (daIndex.indexOf (.phi faceI)))
          else
            setBoundary phiField (daIndex.bFacePatchI (faceI - daIndex.nLocalInternalFaces))
              (daIndex.bFaceFaceI (faceI - daIndex.nLocalInternalFaces))
              (arr (daIndex.indexOf (.phi faceI)))) b.phi := by
  simp only [vec2FieldsRead, DAIndex.indexOf]

theorem readPhi_internal {α : Type} (daIndex : DAIndex) (g : Nat → α)
    (phi : surfaceScalarField α) (n faceI : Nat) (h : faceI < n)
    (hint : faceI < daIndex.nLocalInternalFaces) :
    (forAll n (fun faceI phiField =>
        if faceI < daIndex.nLocalInternalFaces then setInternal phiField faceI (g faceI)
        else
          setBoundary phiField (daIndex.bFacePatchI (faceI - daIndex.nLocalInternalFaces))
            (daIndex.bFaceFaceI (faceI - daIndex.nLocalInternalFaces)) (g faceI))
      phi).primitiveField faceI = g faceI := by
  induction n with
  | zero => omega
  | succ n ih =>
    rw [forAll_succ]
    by_cases hn : faceI = n
    · subst hn
      simp [hint, setInternal]
    · have hlt : faceI < n := by omega
      split
      · simp only [setInternal]
        rw [Function.update_noteq hn]
        exact ih hlt
      · simp only [setBoundary]
        exact ih hlt

theorem readPhi_boundary {α : Type} (daIndex : DAIndex) (g : Nat → α) (G : Nat → Nat → α)
    (phi : surfaceScalarField α) (n : Nat)
    (hg : ∀ faceI, faceI < n → daIndex.nLocalInternalFaces ≤ faceI →
      g faceI = G (daIndex.bFacePatchI (faceI - daIndex.nLocalInternalFaces))
        (daIndex.bFaceFaceI (faceI - daIndex.nLocalInternalFaces)))
    (faceI : Nat) (h : faceI < n) (hb : daIndex.nLocalInternalFaces ≤ faceI) :
    (forAll n (fun faceI phiField =>
        if faceI < daIndex.nLocalInternalFaces then setInternal phiField faceI (g faceI)
        else
          setBoundary phiField (daIndex.bFacePatchI (faceI - daIndex.nLocalInternalFaces))
            (daIndex.bFaceFaceI (faceI - daIndex.nLocalInternalFaces)) (g faceI))
      phi).boundaryField (daIndex.bFacePatchI (faceI - daIndex.nLocalInternalFaces))
        (daIndex.bFaceFaceI (faceI - daIndex.nLocalInternalFaces))
      = G (daIndex.bFacePatchI (faceI - daIndex.nLocalInternalFaces))
        (daIndex.bFaceFaceI (faceI - daIndex.nLocalInternalFaces)) := by
  induction n with
  | zero => omega
  | succ n ih =>
    have ih' := ih (fun f hf hfb => hg f (by omega) hfb)
    rw [forAll_succ]
    by_cases hnint : n < daIndex.nLocalInternalFaces
    · rw [if_pos hnint]
      simp only [setInternal]
      exact ih' (by omega)
    · rw [if_neg hnint]
      simp only [setBoundary]
      by_cases hp : daIndex.bFacePatchI (faceI - daIndex.nLocalInternalFaces)
          = daIndex.bFacePatchI (n - daIndex.nLocalInternalFaces)
      · by_cases hf : daIndex.bFaceFaceI (faceI - daIndex.nLocalInternalFaces)
            = daIndex.bFaceFaceI (n - daIndex.nLocalInternalFaces)
        · rw [hp, hf]
          simp only [Function.update_same]
          exact hg n (by omega) (by omega)
        · rw [hp]
          simp only [Function.update_same]
          rw [Function.update_noteq hf, ← hp]
          by_cases hn : faceI = n
          · subst hn; exact absurd rfl hf
          · exact ih' (by omega)
      · rw [Function.update_noteq hp]
        by_cases hn : faceI = n
        · subst hn; exact absurd rfl hp
        · exact ih' (by omega)

/-! ## vec2Fields: round trip and errors -/

theorem exampleIndex_injectiveOn : exampleIndex.InjectiveOn 2 3 := by
  have hnd : ((stateKeys 2 3).map exampleIndex.indexOf).Nodup := by
    simp [stateKeys, DAIndex.indexOf, exampleIndex, List.range_succ]
  intro k₁ h₁ k₂ h₂ he
  exact List.inj_on_of_nodup_map hnd h₁ h₂ he

theorem fits_iff {α : Type} (daIndex : DAIndex) (mesh : fvMesh α) (size : Nat) :
    daIndex.fits mesh size = true
      ↔ ∀ key ∈ stateKeys mesh.nCells mesh.nFaces, daIndex.indexOf key < size := by
  simp [DAIndex.fits, List.all_eq_true]

theorem exampleIndex_fits (size : Nat) (h : 13 ≤ size) :
    exampleIndex.fits exampleMesh size = true := by
  rw [fits_iff]
  intro key hkey
  simp only [stateKeys, exampleMesh, List.mem_append, List.mem_flatMap, List.mem_map,
    List.mem_range] at hkey
  rcases hkey with ((⟨c, hc, hk⟩ | ⟨c, hc, hk⟩) | ⟨f, hf, hk⟩) | ⟨c, hc, hk⟩
  · simp only [List.mem_cons, List.mem_singleton, List.not_mem_nil, or_false] at hk
    rcases hk with hk | hk | hk <;> subst hk <;>
      simp [DAIndex.indexOf, exampleIndex] <;> omega
  · subst hk
    simp [DAIndex.indexOf, exampleIndex]
    omega
  · subst hk
    simp [DAIndex.indexOf, exampleIndex]
    omega
  · subst hk
    simp [DAIndex.indexOf, exampleIndex]
    omega

/-- C1: for every mesh, every index map that is injective on the tuples of the mesh, every
boundary table, every set of blocks and every vector that holds the layout (the flat index
of every tuple of the mesh is below its local length), `vec2Fields` in mode `field2Vec`
into the vector followed by `vec2Fields` in mode `vec2Field` from that vector into other
blocks returns normally both times and gives blocks equal to the originals at every cell,
every component of `U`, every internal face and the boundary slot of every boundary
face. -/
theorem vec2Fields_roundTrip {α : Type} (mesh : fvMesh α) (daIndex : DAIndex)
    (cVec : Vec α) (b other : Blocks α)
    (hinj : daIndex.InjectiveOn mesh.nCells mesh.nFaces)
    (hfits : daIndex.fits mesh cVec.size = true) :
    ∃ (v : Vec α) (b' : Blocks α),
      vec2Fields mesh daIndex "field2Vec" cVec b = .ok (v, b) ∧
      vec2Fields mesh daIndex "vec2Field" v other = .ok (v, b') ∧
      (∀ cellI comp, cellI < mesh.nCells → b'.U cellI comp = b.U cellI comp) ∧
      (∀ cellI, cellI < mesh.nCells → b'.p cellI = b.p cellI) ∧
      (∀ faceI, faceI < mesh.nFaces → faceI < daIndex.nLocalInternalFaces →
        b'.phi.primitiveField faceI = b.phi.primitiveField faceI) ∧
      (∀ faceI, faceI < mesh.nFaces → daIndex.nLocalInternalFaces ≤ faceI →
        b'.phi.boundaryField (daIndex.bFacePatchI (faceI - daIndex.nLocalInternalFaces))
            (daIndex.bFaceFaceI (faceI - daIndex.nLocalInternalFaces))
          = b.phi.boundaryField (daIndex.bFacePatchI (faceI - daIndex.nLocalInternalFaces))
            (daIndex.bFaceFaceI (faceI - daIndex.nLocalInternalFaces))) ∧
      (∀ cellI, cellI < mesh.nCells → b'.nuTilda cellI = b.nuTilda cellI) := by
  refine ⟨{ cVec with array := vec2FieldsWrite mesh daIndex cVec.array b },
    vec2FieldsRead mesh daIndex (vec2FieldsWrite mesh daIndex cVec.array b) other,
    by simp [vec2Fields, hfits], by simp [vec2Fields, hfits], ?_, ?_, ?_, ?_, ?_⟩
  · intro cellI comp h
    rw [vec2FieldsRead_U _ _ _ _ _ _ h,
      vec2FieldsWrite_at _ _ _ _ hinj _ (mem_stateKeys_U _ _ _ _ h)]
    rfl
  · intro cellI h
    rw [vec2FieldsRead_p _ _ _ _ _ h,
      vec2FieldsWrite_at _ _ _ _ hinj _ (mem_stateKeys_p _ _ _ h)]
    rfl
  · intro faceI h hint
    rw [vec2FieldsRead_phi_eq, readPhi_internal daIndex _ _ _ _ h hint,
      vec2FieldsWrite_at _ _ _ _ hinj _ (mem_stateKeys_phi _ _ _ h)]
    simp [Blocks.valueAt, hint]
  · intro faceI h hb
    rw [vec2FieldsRead_phi_eq]
    refine readPhi_boundary daIndex _ b.phi.boundaryField _ _ ?_ faceI h hb
    intro f hf hfb
    rw [vec2FieldsWrite_at _ _ _ _ hinj _ (mem_stateKeys_phi _ _ _ hf)]
    simp [Blocks.valueAt, Nat.not_lt.mpr hfb]
  · intro cellI h
    rw [vec2FieldsRead_nuTilda _ _ _ _ _ h,
      vec2FieldsWrite_at _ _ _ _ hinj _ (mem_stateKeys_nuTilda _ _ _ h)]
    rfl

/-- The round trip of C1 on `exampleMesh`, from `exampleBlocks` through a vector of
zeros into `zeroBlocks`. -/
theorem vec2Fields_roundTrip_witness :
    exampleIndex.InjectiveOn exampleMesh.nCells exampleMesh.nFaces ∧
    exampleIndex.fits exampleMesh exampleVec.size = true ∧
    ∃ (v : Vec ℚ) (b' : Blocks ℚ),
      vec2Fields exampleMesh exampleIndex "field2Vec" exampleVec exampleBlocks
        = .ok (v, exampleBlocks) ∧
      vec2Fields exampleMesh exampleIndex "vec2Field" v zeroBlocks = .ok (v, b') ∧
      (∀ cellI comp, cellI < exampleMesh.nCells → b'.U cellI comp = exampleBlocks.U cellI comp) ∧
      (∀ cellI, cellI < exampleMesh.nCells → b'.p cellI = exampleBlocks.p cellI) ∧
      (∀ faceI, faceI < exampleMesh.nFaces → faceI < exampleIndex.nLocalInternalFaces →
        b'.phi.primitiveField faceI = exampleBlocks.phi.primitiveField faceI) ∧
      (∀ faceI, faceI < exampleMesh.nFaces → exampleIndex.nLocalInternalFaces ≤ faceI →
        b'.phi.boundaryField
            (exampleIndex.bFacePatchI (faceI - exampleIndex.nLocalInternalFaces))
            (exampleIndex.bFaceFaceI (faceI - exampleIndex.nLocalInternalFaces))
          = exampleBlocks.phi.boundaryField
            (exampleIndex.bFacePatchI (faceI - exampleIndex.nLocalInternalFaces))
            (exampleIndex.bFaceFaceI (faceI - exampleIndex.nLocalInternalFaces))) ∧
      (∀ cellI, cellI < exampleMesh.nCells → b'.nuTilda cellI = exampleBlocks.nuTilda cellI) :=
  ⟨exampleIndex_injectiveOn, exampleIndex_fits 13 (le_refl 13),
    vec2Fields_roundTrip exampleMesh exampleIndex exampleVec exampleBlocks zeroBlocks
      exampleIndex_injectiveOn (exampleIndex_fits 13 (le_refl 13))⟩

/-- C2, as stated, fails: on `exampleMesh` the layout has 3*2 + 2 + 3 + 2 = 13 entries, the
vector has local length 20, and `vec2Fields` in mode `field2Vec` returns normally and has
written the vector (entry 0 was 0 and now holds `U[0][0] = 1`, entry 12 holds
`nuTilda[1] = 401`). -/
theorem vec2Fields_sizeMismatch_counterexample :
    exampleLongVec.size
        ≠ 3 * exampleMesh.nCells + exampleMesh.nCells + exampleMesh.nFaces + exampleMesh.nCells ∧
    ∃ v : Vec ℚ,
      vec2Fields exampleMesh exampleIndex "field2Vec" exampleLongVec exampleBlocks
        = .ok (v, exampleBlocks) ∧
      exampleLongVec.array 0 = 0 ∧ v.array 0 = 1 ∧ v.array 12 = 401 := by
  have hfits : exampleIndex.fits exampleMesh exampleLongVec.size = true :=
    exampleIndex_fits 20 (by decide)
  refine ⟨by decide, { exampleLongVec with
    array := vec2FieldsWrite exampleMesh exampleIndex exampleLongVec.array exampleBlocks },
    by simp [vec2Fields, hfits], rfl, ?_, ?_⟩
  · have h := vec2FieldsWrite_at exampleMesh exampleIndex exampleLongVec.array exampleBlocks
      exampleIndex_injectiveOn (.U 0 0) (mem_stateKeys_U _ _ _ _ (by decide))
    simpa [DAIndex.indexOf, exampleIndex, Blocks.valueAt, exampleBlocks] using h
  · have h := vec2FieldsWrite_at exampleMesh exampleIndex exampleLongVec.array exampleBlocks
      exampleIndex_injectiveOn (.nuTilda 1) (mem_stateKeys_nuTilda _ _ _ (by decide))
    simp only [DAIndex.indexOf, exampleIndex, Blocks.valueAt, exampleBlocks] at h
    norm_num at h
    exact h

/-- A vector shorter than the layout: `vec2Fields` would index the array of
`exampleShortVec` (local length 5) at the flat indices up to 12; the call ends outside the
array, not in the fatal error. -/
theorem vec2Fields_shortVector :
    vec2Fields exampleMesh exampleIndex "vec2Field" exampleShortVec exampleBlocks
      = .error .outOfBounds ∧
    vec2Fields exampleMesh exampleIndex "field2Vec" exampleShortVec exampleBlocks
      = .error .outOfBounds := by
  have h : exampleIndex.fits exampleMesh exampleShortVec.size = false := by
    rw [Bool.eq_false_iff]
    intro hf
    have h12 := (fits_iff exampleIndex exampleMesh exampleShortVec.size).mp hf (.nuTilda 1)
      (mem_stateKeys_nuTilda _ _ _ (by decide))
    simp [DAIndex.indexOf, exampleIndex, exampleShortVec] at h12
  simp [vec2Fields, h]

/-- C2, amended: `vec2Fields` ends in its fatal error exactly when the mode is neither
`vec2Field` nor `field2Vec`; it makes no check of a length. In the two modes it returns
normally, with the entries read or written at the indices of the index map, for every
vector whose local length is above the flat index of every tuple of the mesh and for all
blocks; for a vector with a flat index of the mesh at or past its local length the loops
leave the array, which is not the fatal error. -/
theorem vec2Fields_fatal_iff {α : Type} (mesh : fvMesh α) (daIndex : DAIndex)
    (mode : String) (cVec : Vec α) (b : Blocks α) :
    ((∃ msg, vec2Fields mesh daIndex mode cVec b = .error (.fatal msg))
        ↔ (mode ≠ "vec2Field" ∧ mode ≠ "field2Vec")) ∧
    ((∀ key ∈ stateKeys mesh.nCells mesh.nFaces, daIndex.indexOf key < cVec.size) →
      vec2Fields mesh daIndex "vec2Field" cVec b
        = .ok (cVec, vec2FieldsRead mesh daIndex cVec.array b) ∧
      vec2Fields mesh daIndex "field2Vec" cVec b
        = .ok ({ cVec with array := vec2FieldsWrite mesh daIndex cVec.array b }, b)) ∧
    ((∃ key ∈ stateKeys mesh.nCells mesh.nFaces, cVec.size ≤ daIndex.indexOf key) →
      vec2Fields mesh daIndex "vec2Field" cVec b = .error .outOfBounds ∧
      vec2Fields mesh daIndex "field2Vec" cVec b = .error .outOfBounds) := by
  refine ⟨?_, ?_, ?_⟩
  · unfold vec2Fields
    by_cases h1 : mode = "vec2Field"
    · by_cases hf : daIndex.fits mesh cVec.size = true <;> simp [h1, hf]
    · by_cases h2 : mode = "field2Vec"
      · by_cases hf : daIndex.fits mesh cVec.size = true <;> simp [h2, hf]
      · simp [h1, h2]
  · intro h
    have hf := (fits_iff daIndex mesh cVec.size).mpr h
    simp [vec2Fields, hf]
  · rintro ⟨key, hkey, hle⟩
    have hf : daIndex.fits mesh cVec.size = false := by
      rw [Bool.eq_false_iff]
      intro hf
      have := (fits_iff daIndex mesh cVec.size).mp hf key hkey
      omega
    simp [vec2Fields, hf]

/-! ## Norms -/

theorem forAll_add_eq_sum {α : Type} [AddCommMonoid α] (n : Nat) (f : Nat → α) (a : α) :
    forAll n (fun i acc => acc + f i) a = a + ∑ i in Finset.range n, f i := by
  induction n with
  | zero => simp [forAll_zero]
  | succ n ih => rw [forAll_succ, ih, Finset.sum_range_succ, add_assoc]

/-- C10: for every scalar field `v` over the cells and all cell volumes `V`, `L2norm(v)`
is the square root of the sum, over the cells of the mesh, of the squares of the value of
the cell divided by the volume of the cell. -/
theorem L2norm_eq_sqrt_sum {α : Type} [Field α] (sqrt : α → α) (mesh : fvMesh α)
    (v : volScalarField α) :
    L2norm sqrt mesh v
      = sqrt (∑ cellI in Finset.range mesh.nCells, (v cellI / mesh.V cellI) ^ 2) := by
  unfold L2norm
  simp only [forAll_add_eq_sum, zero_add, sqr, pow_two]

/-! ## runFPAdj: the choice of the scheme -/

theorem vec2Fields_vec2Field {α : Type} (mesh : fvMesh α) (daIndex : DAIndex)
    (cVec : Vec α) (b : Blocks α) (hfits : daIndex.fits mesh cVec.size = true) :
    vec2Fields mesh daIndex "vec2Field" cVec b
      = .ok (cVec, vec2FieldsRead mesh daIndex cVec.array b) := by
  simp [vec2Fields, hfits]

theorem vec2Fields_field2Vec {α : Type} (mesh : fvMesh α) (daIndex : DAIndex)
    (cVec : Vec α) (b : Blocks α) (hfits : daIndex.fits mesh cVec.size = true) :
    vec2Fields mesh daIndex "field2Vec" cVec b
      = .ok ({ cVec with array := vec2FieldsWrite mesh daIndex cVec.array b }, b) := by
  simp [vec2Fields, hfits]

theorem vec2Fields_vec2Field_outOfBounds {α : Type} (mesh : fvMesh α) (daIndex : DAIndex)
    (cVec : Vec α) (b : Blocks α) (hfits : daIndex.fits mesh cVec.size = false) :
    vec2Fields mesh daIndex "vec2Field" cVec b = .error .outOfBounds := by
  simp [vec2Fields, hfits]

theorem vec2Fields_field2Vec_outOfBounds {α : Type} (mesh : fvMesh α) (daIndex : DAIndex)
    (cVec : Vec α) (b : Blocks α) (hfits : daIndex.fits mesh cVec.size = false) :
    vec2Fields mesh daIndex "field2Vec" cVec b = .error .outOfBounds := by
  simp [vec2Fields, hfits]

/-- The loop of the branch `fixedPoint` of `runFPAdj` runs on the blocks read from a vector
`dFdW` that holds the layout. -/
theorem runFPAdj_loop {α : Type} [LinearOrderedField α] (s : Solver α)
    (dFdW psi : Vec α) (tape : Tape α) (h : s.daOption.adjEqnSolMethod = "fixedPoint")
    (hdFdW : s.daIndex.fits s.mesh dFdW.size = true) :
    (runFPAdj s dFdW psi tape).loop
      = some (fpLoop s (vec2FieldsRead s.mesh s.daIndex dFdW.array (zeroTimes s.state))
          (initialState s tape)) := by
  unfold runFPAdj
  simp only [h, if_true, vec2Fields_vec2Field _ _ _ _ hdFdW]
  by_cases hpsi : s.daIndex.fits s.mesh (VecZeroEntries psi).size = true
  · simp only [vec2Fields_field2Vec _ _ _ _ hpsi]
  · rw [Bool.not_eq_true] at hpsi
    simp only [vec2Fields_field2Vec_outOfBounds _ _ _ _ hpsi]

/-- The branch `fixedPoint` of `runFPAdj`, with the two calls of `vec2Fields` resolved, for
vectors `dFdW` and `psi` that hold the layout. -/
theorem runFPAdj_fixedPoint {α : Type} [LinearOrderedField α] (s : Solver α)
    (dFdW psi : Vec α) (tape : Tape α) (h : s.daOption.adjEqnSolMethod = "fixedPoint")
    (hdFdW : s.daIndex.fits s.mesh dFdW.size = true)
    (hpsi : s.daIndex.fits s.mesh psi.size = true) :
    runFPAdj s dFdW psi tape
      = { ret := .ok 0,
          psi := { VecZeroEntries psi with
            array := vec2FieldsWrite s.mesh s.daIndex (VecZeroEntries psi).array
              (fpLoop s (vec2FieldsRead s.mesh s.daIndex dFdW.array (zeroTimes s.state))
                (initialState s tape)).Psi },
          loop := some (fpLoop s
            (vec2FieldsRead s.mesh s.daIndex dFdW.array (zeroTimes s.state))
            (initialState s tape)) } := by
  have hpsi' : s.daIndex.fits s.mesh (VecZeroEntries psi).size = true := hpsi
  unfold runFPAdj
  simp only [h, if_true, vec2Fields_vec2Field _ _ _ _ hdFdW,
    vec2Fields_field2Vec _ _ _ _ hpsi']

/-- The branch `fixedPoint` of `runFPAdj` for a vector `dFdW` that does not hold the
layout: the first call of `vec2Fields` leaves the array, no pass through the loop is
made. -/
theorem runFPAdj_dFdW_outOfBounds {α : Type} [LinearOrderedField α] (s : Solver α)
    (dFdW psi : Vec α) (tape : Tape α) (h : s.daOption.adjEqnSolMethod = "fixedPoint")
    (hdFdW : s.daIndex.fits s.mesh dFdW.size = false) :
    runFPAdj s dFdW psi tape
      = { ret := .error .outOfBounds, psi := VecZeroEntries psi, loop := none } := by
  unfold runFPAdj
  simp only [h, if_true, vec2Fields_vec2Field_outOfBounds _ _ _ _ hdFdW]

/-- The branch `fixedPoint` of `runFPAdj` for a vector `psi` that does not hold the
layout: the loop runs, the last call of `vec2Fields` leaves the array. -/
theorem runFPAdj_psi_outOfBounds {α : Type} [LinearOrderedField α] (s : Solver α)
    (dFdW psi : Vec α) (tape : Tape α) (h : s.daOption.adjEqnSolMethod = "fixedPoint")
    (hdFdW : s.daIndex.fits s.mesh dFdW.size = true)
    (hpsi : s.daIndex.fits s.mesh psi.size = false) :
    runFPAdj s dFdW psi tape
      = { ret := .error .outOfBounds, psi := VecZeroEntries psi,
          loop := some (fpLoop s
            (vec2FieldsRead s.mesh s.daIndex dFdW.array (zeroTimes s.state))
            (initialState s tape)) } := by
  have hpsi' : s.daIndex.fits s.mesh (VecZeroEntries psi).size = false := hpsi
  unfold runFPAdj
  simp only [h, if_true, vec2Fields_vec2Field _ _ _ _ hdFdW,
    vec2Fields_field2Vec_outOfBounds _ _ _ _ hpsi']

/-- C3: `runFPAdj` zeroes `psi` first (whatever the scheme, the vector it ends with is the
zeroed one, with the `Psi` blocks written into it in the branch `fixedPoint` when the
vectors hold the layout, and as zeroed when one of them does not and a call of `vec2Fields`
leaves its array); it ends in a fatal error if and only if `adjEqnSolMethod` is neither
`fixedPoint` nor `fixedPointC`; with `fixedPointC` it makes no pass through the loop, calls
`calcAdjointResidual` never, returns 0 and leaves every entry of `psi` zero. -/
theorem runFPAdj_scheme {α : Type} [LinearOrderedField α] (s : Solver α)
    (dFdW psi : Vec α) (tape : Tape α) :
    ((∃ msg, (runFPAdj s dFdW psi tape).ret = .error (.fatal msg))
      ↔ (s.daOption.adjEqnSolMethod ≠ "fixedPoint"
          ∧ s.daOption.adjEqnSolMethod ≠ "fixedPointC")) ∧
    (s.daOption.adjEqnSolMethod ≠ "fixedPoint" →
      (runFPAdj s dFdW psi tape).psi = VecZeroEntries psi) ∧
    (s.daOption.adjEqnSolMethod = "fixedPoint" →
      s.daIndex.fits s.mesh dFdW.size = true → s.daIndex.fits s.mesh psi.size = true →
      ∃ st, (runFPAdj s dFdW psi tape).loop = some st ∧
        (runFPAdj s dFdW psi tape).psi
          = { VecZeroEntries psi with
              array := vec2FieldsWrite s.mesh s.daIndex (VecZeroEntries psi).array st.Psi }) ∧
    (s.daOption.adjEqnSolMethod = "fixedPoint" →
      (s.daIndex.fits s.mesh dFdW.size = false ∨ s.daIndex.fits s.mesh psi.size = false) →
      (runFPAdj s dFdW psi tape).ret = .error .outOfBounds ∧
      (runFPAdj s dFdW psi tape).psi = VecZeroEntries psi) ∧
    (s.daOption.adjEqnSolMethod = "fixedPointC" →
      (runFPAdj s dFdW psi tape).ret = .ok 0 ∧
      (runFPAdj s dFdW psi tape).sweeps = 0 ∧
      (runFPAdj s dFdW psi tape).calls = [] ∧
      (runFPAdj s dFdW psi tape).psi.size = psi.size ∧
      ∀ i, i < psi.size → (runFPAdj s dFdW psi tape).psi.array i = 0) := by
  by_cases h1 : s.daOption.adjEqnSolMethod = "fixedPoint"
  · have hne : ("fixedPoint" : String) ≠ "fixedPointC" := by decide
    have hcases : (∃ st, runFPAdj s dFdW psi tape
          = { ret := .ok 0,
              psi := { VecZeroEntries psi with
                array := vec2FieldsWrite s.mesh s.daIndex (VecZeroEntries psi).array st.Psi },
              loop := some st }
          ∧ s.daIndex.fits s.mesh dFdW.size = true ∧ s.daIndex.fits s.mesh psi.size = true)
        ∨ (∃ l, runFPAdj s dFdW psi tape
          = { ret := .error .outOfBounds, psi := VecZeroEntries psi, loop := l }
          ∧ (s.daIndex.fits s.mesh dFdW.size = false
              ∨ s.daIndex.fits s.mesh psi.size = false)) := by
      by_cases hd : s.daIndex.fits s.mesh dFdW.size = true
      · by_cases hp : s.daIndex.fits s.mesh psi.size = true
        · exact Or.inl ⟨_, runFPAdj_fixedPoint s dFdW psi tape h1 hd hp, hd, hp⟩
        · rw [Bool.not_eq_true] at hp
          exact Or.inr ⟨_, runFPAdj_psi_outOfBounds s dFdW psi tape h1 hd hp, Or.inr hp⟩
      · rw [Bool.not_eq_true] at hd
        exact Or.inr ⟨_, runFPAdj_dFdW_outOfBounds s dFdW psi tape h1 hd, Or.inl hd⟩
    refine ⟨?_, ?_, ?_, ?_, ?_⟩
    · rcases hcases with ⟨st, hr, -, -⟩ | ⟨l, hr, -⟩ <;> rw [hr] <;> simp [h1]
    · intro h; exact absurd h1 h
    · intro _ hd hp
      rw [runFPAdj_fixedPoint s dFdW psi tape h1 hd hp]
      exact ⟨_, rfl, rfl⟩
    · intro _ hnot
      rcases hcases with ⟨st, -, hd, hp⟩ | ⟨l, hr, -⟩
      · rcases hnot with h | h
        · rw [hd] at h; exact absurd h (by decide)
        · rw [hp] at h; exact absurd h (by decide)
      · rw [hr]
        exact ⟨rfl, rfl⟩
    · intro h; rw [h1] at h; exact absurd h hne
  · by_cases h2 : s.daOption.adjEqnSolMethod = "fixedPointC"
    · have hr : runFPAdj s dFdW psi tape
          = { ret := .ok 0, psi := VecZeroEntries psi, loop := none } := by
        unfold runFPAdj
        rw [if_neg h1, if_pos h2]
      rw [hr]
      refine ⟨?_, ?_, ?_, ?_, ?_⟩
      · simp [h2]
      · intro _; rfl
      · intro h; exact absurd h h1
      · intro h; exact absurd h h1
      · intro _
        refine ⟨rfl, rfl, rfl, rfl, ?_⟩
        intro i hi
        simp [VecZeroEntries, hi]
    · have hr : runFPAdj s dFdW psi tape
          = { ret := .error (.fatal "adjEqnSolMethod not valid"), psi := VecZeroEntries psi,
              loop := none } := by
        unfold runFPAdj
        rw [if_neg h1, if_neg h2]
      rw [hr]
      refine ⟨?_, ?_, ?_, ?_, ?_⟩
      · simp [h1, h2]
      · intro _; rfl
      · intro h; exact absurd h h1
      · intro h; exact absurd h h1
      · intro h; exact absurd h h2

/-! ## runFPAdj: the loop -/

theorem callAdjointResidual_cnt {α : Type} [Field α] (st : FPState α) (s : Solver α)
    (dFd : Blocks α) : (st.callAdjointResidual s dFd).cnt = st.cnt := rfl

theorem updateBlocks_cnt {α : Type} [Field α] (s : Solver α) (dFd : Blocks α)
    (st : FPState α) : (updateBlocks s dFd st).cnt = st.cnt := rfl

theorem updateBlocks_sweeps {α : Type} [Field α] (s : Solver α) (dFd : Blocks α)
    (st : FPState α) : (updateBlocks s dFd st).sweeps = st.sweeps := rfl

theorem updateBlocks_calls {α : Type} [Field α] (s : Solver α) (dFd : Blocks α)
    (st : FPState α) :
    (updateBlocks s dFd st).calls = st.calls ++ [st.cnt, st.cnt, st.cnt, st.cnt] := by
  show (((st.calls ++ [st.cnt]) ++ [st.cnt]) ++ [st.cnt]) ++ [st.cnt] = _
  simp

theorem convergenceCheck_fst {α : Type} [LinearOrderedField α] (s : Solver α)
    (st : FPState α) :
    (convergenceCheck s st).1.cnt = st.cnt ∧ (convergenceCheck s st).1.sweeps = st.sweeps
      ∧ (convergenceCheck s st).1.calls = st.calls
      ∧ (convergenceCheck s st).1.Psi = st.Psi
      ∧ (convergenceCheck s st).1.tape = st.tape := by
  unfold convergenceCheck captureBaselines
  split
  · dsimp only
    split <;> exact ⟨rfl, rfl, rfl, rfl, rfl⟩
  · exact ⟨rfl, rfl, rfl, rfl, rfl⟩

theorem sweep_cnt {α : Type} [LinearOrderedField α] (s : Solver α) (dFd : Blocks α)
    (st : FPState α) : (sweep s dFd st).1.cnt = st.cnt := by
  unfold sweep
  rw [(convergenceCheck_fst s _).1, updateBlocks_cnt]

theorem sweep_sweeps {α : Type} [LinearOrderedField α] (s : Solver α) (dFd : Blocks α)
    (st : FPState α) : (sweep s dFd st).1.sweeps = st.sweeps + 1 := by
  unfold sweep
  rw [(convergenceCheck_fst s _).2.1, updateBlocks_sweeps]

theorem sweep_calls {α : Type} [LinearOrderedField α] (s : Solver α) (dFd : Blocks α)
    (st : FPState α) :
    (sweep s dFd st).1.calls = st.calls ++ [st.cnt, st.cnt, st.cnt, st.cnt] := by
  unfold sweep
  rw [(convergenceCheck_fst s _).2.2.1, updateBlocks_calls]

/-- One unfolding of the loop `while (cnt < fpMaxIters)`. -/
theorem fpLoop_unfold {α : Type} [LinearOrderedField α] (s : Solver α) (dFd : Blocks α)
    (st : FPState α) :
    fpLoop s dFd st
      = if st.cnt < s.daOption.fpMaxIters then
          if (sweep s dFd st).2 then (sweep s dFd st).1
          else fpLoop s dFd { (sweep s dFd st).1 with cnt := (sweep s dFd st).1.cnt + 1 }
        else st := by
  rw [fpLoop]

/-- The counters at the end of the loop, for a loop entered in any state. -/
theorem fpLoop_counters {α : Type} [LinearOrderedField α] (s : Solver α) (dFd : Blocks α) :
    ∀ (k : Nat) (st : FPState α), s.daOption.fpMaxIters - st.cnt = k →
      st.cnt ≤ (fpLoop s dFd st).cnt ∧
      (st.cnt ≤ s.daOption.fpMaxIters → (fpLoop s dFd st).cnt ≤ s.daOption.fpMaxIters) ∧
      (fpLoop s dFd st).sweeps
        = st.sweeps + ((fpLoop s dFd st).cnt - st.cnt)
          + (if (fpLoop s dFd st).cnt < s.daOption.fpMaxIters then 1 else 0) ∧
      (∀ c ∈ (fpLoop s dFd st).calls,
        c ∈ st.calls ∨ (st.cnt ≤ c ∧ c < s.daOption.fpMaxIters)) := by
  intro k
  induction k with
  | zero =>
    intro st hk
    have hge : ¬ st.cnt < s.daOption.fpMaxIters := by omega
    rw [fpLoop_unfold, if_neg hge]
    refine ⟨le_refl _, fun h => h, ?_, fun c hc => Or.inl hc⟩
    simp [hge]
  | succ k ih =>
    intro st hk
    have hlt : st.cnt < s.daOption.fpMaxIters := by omega
    rw [fpLoop_unfold, if_pos hlt]
    by_cases hb : (sweep s dFd st).2 = true
    · rw [if_pos hb, sweep_cnt, sweep_sweeps, sweep_calls]
      refine ⟨le_refl _, fun h => h, ?_, ?_⟩
      · simp [hlt]
      · intro c hc
        simp only [List.mem_append, List.mem_cons, List.mem_singleton, List.not_mem_nil,
          or_false, or_self] at hc
        rcases hc with hc | hc
        · exact Or.inl hc
        · exact Or.inr ⟨by omega, by omega⟩
    · rw [if_neg hb]
      have key : ∀ st' : FPState α, st'.cnt = st.cnt + 1 → st'.sweeps = st.sweeps + 1 →
          st'.calls = st.calls ++ [st.cnt, st.cnt, st.cnt, st.cnt] →
          st.cnt ≤ (fpLoop s dFd st').cnt ∧
          (st.cnt ≤ s.daOption.fpMaxIters →
            (fpLoop s dFd st').cnt ≤ s.daOption.fpMaxIters) ∧
          (fpLoop s dFd st').sweeps
            = st.sweeps + ((fpLoop s dFd st').cnt - st.cnt)
              + (if (fpLoop s dFd st').cnt < s.daOption.fpMaxIters then 1 else 0) ∧
          (∀ c ∈ (fpLoop s dFd st').calls,
            c ∈ st.calls ∨ (st.cnt ≤ c ∧ c < s.daOption.fpMaxIters)) := by
        intro st' hc hs hl
        obtain ⟨h1, h2, h3, h4⟩ := ih st' (by omega)
        refine ⟨by omega, fun _ => h2 (by omega), ?_, ?_⟩
        · rw [h3, hs]
          omega
        · intro c hcm
          rcases h4 c hcm with hc' | hc'
          · rw [hl] at hc'
            simp only [List.mem_append, List.mem_cons, List.mem_singleton, List.not_mem_nil,
              or_false, or_self] at hc'
            rcases hc' with hc' | hc'
            · exact Or.inl hc'
            · exact Or.inr ⟨by omega, by omega⟩
          · exact Or.inr ⟨by omega, hc'.2⟩
      exact key _ (by show (sweep s dFd st).1.cnt + 1 = _; rw [sweep_cnt])
        (sweep_sweeps s dFd st) (sweep_calls s dFd st)

/-- C6: with the scheme `fixedPoint`, a budget `fpMaxIters = n >= 1` and vectors `dFdW` and
`psi` that hold the layout (the flat index of every tuple of the mesh is below their local
length), `runFPAdj` raises no error and returns 0; the loop makes at least one and at most `n` passes; every `cnt`
handed to `calcAdjointResidual` is below `n`; the loop ends with `cnt <= n`, and when it
ends with the budget used up (`cnt = n`) it has made exactly `n` passes; `psi` is the
zeroed vector with the `Psi` blocks of the end of the loop written into it by the loops of
`field2Vec`; with `n = 1` the loop makes exactly one pass. -/
theorem runFPAdj_budget {α : Type} [LinearOrderedField α] (s : Solver α)
    (dFdW psi : Vec α) (tape : Tape α)
    (hscheme : s.daOption.adjEqnSolMethod = "fixedPoint")
    (hbudget : 1 ≤ s.daOption.fpMaxIters)
    (hdFdW : s.daIndex.fits s.mesh dFdW.size = true)
    (hpsi : s.daIndex.fits s.mesh psi.size = true) :
    (runFPAdj s dFdW psi tape).ret = .ok 0 ∧
    1 ≤ (runFPAdj s dFdW psi tape).sweeps ∧
    (runFPAdj s dFdW psi tape).sweeps ≤ s.daOption.fpMaxIters ∧
    (∀ c ∈ (runFPAdj s dFdW psi tape).calls, c < s.daOption.fpMaxIters) ∧
    (∃ st, (runFPAdj s dFdW psi tape).loop = some st ∧
      st.cnt ≤ s.daOption.fpMaxIters ∧
      (st.cnt = s.daOption.fpMaxIters → st.sweeps = s.daOption.fpMaxIters) ∧
      vec2Fields s.mesh s.daIndex "field2Vec" (VecZeroEntries psi) st.Psi
        = .ok ((runFPAdj s dFdW psi tape).psi, st.Psi)) ∧
    (s.daOption.fpMaxIters = 1 → (runFPAdj s dFdW psi tape).sweeps = 1) := by
  rw [runFPAdj_fixedPoint s dFdW psi tape hscheme hdFdW hpsi]
  obtain ⟨_, h2, h3, h4⟩ := fpLoop_counters s
    (vec2FieldsRead s.mesh s.daIndex dFdW.array (zeroTimes s.state))
    (s.daOption.fpMaxIters - (initialState s tape).cnt) (initialState s tape) rfl
  have hc0 : (initialState s tape).cnt = 0 := rfl
  have hs0 : (initialState s tape).sweeps = 0 := rfl
  have hl0 : (initialState s tape).calls = [] := rfl
  rw [hc0, hs0] at h3
  rw [hc0] at h2
  have h2' := h2 (Nat.zero_le _)
  refine ⟨rfl, ?_⟩
  simp only [RunResult.sweeps, RunResult.calls]
  refine ⟨?_, ?_, ?_, ⟨_, rfl, h2', ?_, ?_⟩, ?_⟩
  · rw [h3]; split <;> omega
  · rw [h3]; split <;> omega
  · intro c hc
    rcases h4 c hc with h | h
    · rw [hl0] at h; simp at h
    · exact h.2
  · intro h; rw [h3, h]; simp
  · rw [vec2Fields_field2Vec _ _ _ _ (show s.daIndex.fits s.mesh (VecZeroEntries psi).size = true
      from hpsi)]
  · intro h; rw [h3]; split <;> omega

/-- The statement C6 on `exampleSolver`, whose budget is two sweeps. -/
theorem runFPAdj_budget_witness :
    exampleSolver.daOption.adjEqnSolMethod = "fixedPoint" ∧
    1 ≤ exampleSolver.daOption.fpMaxIters ∧
    exampleSolver.daIndex.fits exampleSolver.mesh exampleVec.size = true ∧
    (runFPAdj exampleSolver exampleVec exampleVec emptyTape).ret = .ok 0 ∧
    1 ≤ (runFPAdj exampleSolver exampleVec exampleVec emptyTape).sweeps ∧
    (runFPAdj exampleSolver exampleVec exampleVec emptyTape).sweeps
      ≤ exampleSolver.daOption.fpMaxIters ∧
    (∀ c ∈ (runFPAdj exampleSolver exampleVec exampleVec emptyTape).calls,
      c < exampleSolver.daOption.fpMaxIters) ∧
    (∃ st, (runFPAdj exampleSolver exampleVec exampleVec emptyTape).loop = some st ∧
      st.cnt ≤ exampleSolver.daOption.fpMaxIters ∧
      (st.cnt = exampleSolver.daOption.fpMaxIters →
        st.sweeps = exampleSolver.daOption.fpMaxIters) ∧
      vec2Fields exampleSolver.mesh exampleSolver.daIndex "field2Vec"
          (VecZeroEntries exampleVec) st.Psi
        = .ok ((runFPAdj exampleSolver exampleVec exampleVec emptyTape).psi, st.Psi)) ∧
    (exampleSolver.daOption.fpMaxIters = 1 →
      (runFPAdj exampleSolver exampleVec exampleVec emptyTape).sweeps = 1) :=
  ⟨rfl, by decide, exampleIndex_fits 13 (le_refl 13),
    runFPAdj_budget exampleSolver exampleVec exampleVec emptyTape rfl (by decide)
      (exampleIndex_fits 13 (le_refl 13)) (exampleIndex_fits 13 (le_refl 13))⟩

/-! ## Loops over fields: what they leave at every place -/

theorem forAll_induction {σ : Type} (P : σ → Prop) (n : Nat) (body : Nat → σ → σ) (s : σ)
    (h0 : P s) (hstep : ∀ i acc, i < n → P acc → P (body i acc)) : P (forAll n body s) := by
  induction n with
  | zero => simpa [forAll_zero] using h0
  | succ n ih =>
    rw [forAll_succ]
    exact hstep n _ (Nat.lt_succ_self n)
      (ih (fun i acc hi hp => hstep i acc (Nat.lt_succ_of_lt hi) hp))

/-- A loop that replaces entry `i` of a field by a function of `i` and of the entry. -/
theorem forAll_pointwise {β : Type} (n : Nat) (h : Nat → β → β) (a : Nat → β) :
    forAll n (fun i acc => Function.update acc i (h i (acc i))) a
      = fun i => if i < n then h i (a i) else a i := by
  induction n with
  | zero => simp [forAll_zero]
  | succ n ih =>
    rw [forAll_succ, ih]
    funext i
    by_cases hi : i = n
    · subst hi; simp
    · rw [Function.update_noteq hi]
      have : (i < n + 1) = (i < n) := by
        apply propext; omega
      simp [this]

theorem forAll_setInternal {α : Type} (n : Nat) (h : Nat → α → α)
    (F : surfaceScalarField α) :
    forAll n (fun faceI acc => setInternal acc faceI (h faceI (acc.primitiveField faceI))) F
      = { primitiveField := fun faceI =>
            if faceI < n then h faceI (F.primitiveField faceI) else F.primitiveField faceI,
          boundaryField := F.boundaryField } := by
  induction n with
  | zero => simp [forAll_zero]
  | succ n ih =>
    rw [forAll_succ, ih]
    simp only [setInternal]
    congr 1
    funext faceI
    by_cases hi : faceI = n
    · subst hi; simp
    · rw [Function.update_noteq hi]
      have : (faceI < n + 1) = (faceI < n) := by
        apply propext; omega
      simp [this]

theorem forAll_setBoundary {α : Type} (m patchI : Nat) (h : Nat → α → α)
    (F : surfaceScalarField α) :
    forAll m (fun faceI acc =>
        setBoundary acc patchI faceI (h faceI (acc.boundaryField patchI faceI))) F
      = { primitiveField := F.primitiveField,
          boundaryField := Function.update F.boundaryField patchI (fun faceI =>
            if faceI < m then h faceI (F.boundaryField patchI faceI)
            else F.boundaryField patchI faceI) } := by
  induction m with
  | zero =>
    simp only [forAll_zero, Nat.not_lt_zero, if_false]
    rw [Function.update_eq_self]
  | succ m ih =>
    rw [forAll_succ, ih]
    simp only [setBoundary, Function.update_same, Function.update_idem]
    have hrow : Function.update
          (fun faceI => if faceI < m then h faceI (F.boundaryField patchI faceI)
            else F.boundaryField patchI faceI) m
          (h m (if m < m then h m (F.boundaryField patchI m) else F.boundaryField patchI m))
        = fun faceI => if faceI < m + 1 then h faceI (F.boundaryField patchI faceI)
            else F.boundaryField patchI faceI := by
      funext faceI
      by_cases hi : faceI = m
      · subst hi; simp
      · rw [Function.update_noteq hi]
        have : (faceI < m + 1) = (faceI < m) := by
          apply propext; omega
        simp [this]
    rw [hrow]

theorem forAll_patches_setBoundary {α : Type} (nPatches : Nat) (patchSize : Nat → Nat)
    (h : Nat → Nat → α → α) (F : surfaceScalarField α) :
    forAll nPatches (fun patchI acc =>
        forAll (patchSize patchI) (fun faceI acc =>
          setBoundary acc patchI faceI (h patchI faceI (acc.boundaryField patchI faceI))) acc) F
      = { primitiveField := F.primitiveField,
          boundaryField := fun patchI faceI =>
            if patchI < nPatches ∧ faceI < patchSize patchI
            then h patchI faceI (F.boundaryField patchI faceI)
            else F.boundaryField patchI faceI } := by
  induction nPatches with
  | zero => simp [forAll_zero]
  | succ n ih =>
    rw [forAll_succ, ih, forAll_setBoundary]
    congr 1
    funext patchI faceI
    by_cases hi : patchI = n
    · subst hi; simp
    · rw [Function.update_noteq hi]
      have : (patchI < n + 1) = (patchI < n) := by
        apply propext; omega
      simp [this]

/-! ## calcAdjointResidual -/

theorem forAll_setComp_add {α : Type} [Add α] (n : Nat) (g : Nat → Fin 3 → α)
    (a : volVectorField α) :
    forAll n (fun cellI acc =>
        let acc := setComp acc cellI 0 (acc cellI 0 + g cellI 0)
        let acc := setComp acc cellI 1 (acc cellI 1 + g cellI 1)
        setComp acc cellI 2 (acc cellI 2 + g cellI 2)) a
      = fun cellI => if cellI < n then (fun comp => a cellI comp + g cellI comp) else a cellI := by
  have hbody : (fun cellI (acc : volVectorField α) =>
        let acc := setComp acc cellI 0 (acc cellI 0 + g cellI 0)
        let acc := setComp acc cellI 1 (acc cellI 1 + g cellI 1)
        setComp acc cellI 2 (acc cellI 2 + g cellI 2))
      = fun cellI acc =>
          Function.update acc cellI ((fun c row => fun comp => row comp + g c comp) cellI (acc cellI)) := by
    funext cellI acc c
    by_cases hc : c = cellI
    · subst hc
      funext comp
      fin_cases comp <;> simp [setComp, Function.update]
    · simp [setComp, Function.update_noteq hc]
  rw [hbody]
  exact forAll_pointwise n (fun c row => fun comp => row comp + g c comp) a

/-- What the loops after `tape.evaluate()` leave in the adjoint residual blocks: at every
slot of the mesh the gradient of the matching state component has been added. -/
theorem addGradients_component {α : Type} [Add α] (mesh : fvMesh α) (tape : Tape α)
    (adjRes : Blocks α) (slot : Slot) :
    (addGradients mesh tape adjRes).component slot
      = if mesh.hasSlot slot then adjRes.component slot + tape.getGradient (.state slot)
        else adjRes.component slot := by
  cases slot with
  | U cellI comp =>
    simp only [addGradients, Blocks.component, fvMesh.hasSlot, decide_eq_true_eq]
    rw [forAll_setComp_add mesh.nCells (fun cellI comp => tape.getGradient (.state (.U cellI comp)))]
    by_cases h : cellI < mesh.nCells <;> simp [h]
  | p cellI =>
    simp only [addGradients, Blocks.component, fvMesh.hasSlot, decide_eq_true_eq]
    rw [forAll_pointwise mesh.nCells (fun cellI x => x + tape.getGradient (.state (.p cellI)))]
  | phi faceI =>
    simp only [addGradients, Blocks.component, fvMesh.hasSlot, decide_eq_true_eq]
    rw [forAll_setInternal mesh.nInternalFaces
      (fun faceI x => x + tape.getGradient (.state (.phi faceI))),
      forAll_patches_setBoundary mesh.nPatches mesh.patchSize
        (fun patchI faceI x => x + tape.getGradient (.state (.phiBoundary patchI faceI)))]
  | phiBoundary patchI faceI =>
    simp only [addGradients, Blocks.component, fvMesh.hasSlot, Bool.and_eq_true,
      decide_eq_true_eq]
    rw [forAll_setInternal mesh.nInternalFaces
      (fun faceI x => x + tape.getGradient (.state (.phi faceI))),
      forAll_patches_setBoundary mesh.nPatches mesh.patchSize
        (fun patchI faceI x => x + tape.getGradient (.state (.phiBoundary patchI faceI)))]
  | nuTilda cellI =>
    simp only [addGradients, Blocks.component, fvMesh.hasSlot, decide_eq_true_eq]
    rw [forAll_pointwise mesh.nCells
      (fun cellI x => x + tape.getGradient (.state (.nuTilda cellI)))]
theorem forAll_tape_adjoints {α : Type} (n : Nat) (F : Nat → (Var → α) → (Var → α))
    (t : Tape α) :
    forAll n (fun i (t : Tape α) => { t with adjoints := F i t.adjoints }) t
      = { t with adjoints := forAll n F t.adjoints } := by
  induction n with
  | zero => simp [forAll_zero]
  | succ n ih => rw [forAll_succ, ih, forAll_succ]

theorem seedLoop_p {α : Type} (n : Nat) (v : Nat → α) (a : Var → α) :
    forAll n (fun i acc => Function.update acc (Var.residual (Slot.p i)) (v i)) a
      = fun x => match x with
        | .residual (.p i) => if i < n then v i else a (.residual (.p i))
        | y => a y := by
  induction n with
  | zero =>
    rw [forAll_zero]
    funext x
    rcases x with ⟨slot⟩ | ⟨slot⟩ | m <;> try rfl
    cases slot <;> simp
  | succ n ih =>
    rw [forAll_succ, ih]
    funext x
    rcases x with ⟨slot⟩ | ⟨slot⟩ | m <;> try simp [Function.update_apply]
    cases slot <;> simp [Function.update_apply]
    rename_i i
    by_cases hi : i = n
    · simp [hi]
    · have : (i < n + 1) = (i < n) := by
        apply propext; omega
      simp [hi, this]

theorem seedLoop_phi {α : Type} (n : Nat) (v : Nat → α) (a : Var → α) :
    forAll n (fun i acc => Function.update acc (Var.residual (Slot.phi i)) (v i)) a
      = fun x => match x with
        | .residual (.phi i) => if i < n then v i else a (.residual (.phi i))
        | y => a y := by
  induction n with
  | zero =>
    rw [forAll_zero]
    funext x
    rcases x with ⟨slot⟩ | ⟨slot⟩ | m <;> try rfl
    cases slot <;> simp
  | succ n ih =>
    rw [forAll_succ, ih]
    funext x
    rcases x with ⟨slot⟩ | ⟨slot⟩ | m <;> try simp [Function.update_apply]
    cases slot <;> simp [Function.update_apply]
    rename_i i
    by_cases hi : i = n
    · simp [hi]
    · have : (i < n + 1) = (i < n) := by
        apply propext; omega
      simp [hi, this]

theorem seedLoop_nuTilda {α : Type} (n : Nat) (v : Nat → α) (a : Var → α) :
    forAll n (fun i acc => Function.update acc (Var.residual (Slot.nuTilda i)) (v i)) a
      = fun x => match x with
        | .residual (.nuTilda i) => if i < n then v i else a (.residual (.nuTilda i))
        | y => a y := by
  induction n with
  | zero =>
    rw [forAll_zero]
    funext x
    rcases x with ⟨slot⟩ | ⟨slot⟩ | m <;> try rfl
    cases slot <;> simp
  | succ n ih =>
    rw [forAll_succ, ih]
    funext x
    rcases x with ⟨slot⟩ | ⟨slot⟩ | m <;> try simp [Function.update_apply]
    cases slot <;> simp [Function.update_apply]
    rename_i i
    by_cases hi : i = n
    · simp [hi]
    · have : (i < n + 1) = (i < n) := by
        apply propext; omega
      simp [hi, this]

theorem seedLoop_U {α : Type} (n : Nat) (v : Nat → Fin 3 → α) (a : Var → α) :
    forAll n (fun i acc =>
        Function.update
          (Function.update
            (Function.update acc (Var.residual (Slot.U i 0)) (v i 0))
            (Var.residual (Slot.U i 1)) (v i 1))
          (Var.residual (Slot.U i 2)) (v i 2)) a
      = fun x => match x with
        | .residual (.U i comp) => if i < n then v i comp else a (.residual (.U i comp))
        | y => a y := by
  induction n with
  | zero =>
    rw [forAll_zero]
    funext x
    rcases x with ⟨slot⟩ | ⟨slot⟩ | m <;> try rfl
    cases slot <;> simp
  | succ n ih =>
    rw [forAll_succ, ih]
    funext x
    rcases x with ⟨slot⟩ | ⟨slot⟩ | m <;> try simp [Function.update_apply]
    cases slot <;> simp [Function.update_apply]
    rename_i i comp
    by_cases hi : i = n
    · subst hi
      fin_cases comp <;> simp
    · have : (i < n + 1) = (i < n) := by
        apply propext; omega
      simp [hi, this]

theorem seedLoop_faces {α : Type} (m patchI : Nat) (v : Nat → α) (a : Var → α) :
    forAll m (fun faceI acc =>
        Function.update acc (Var.residual (Slot.phiBoundary patchI faceI)) (v faceI)) a
      = fun x => match x with
        | .residual (.phiBoundary pa fa) =>
            if pa = patchI ∧ fa < m then v fa else a (.residual (.phiBoundary pa fa))
        | y => a y := by
  induction m with
  | zero =>
    rw [forAll_zero]
    funext x
    rcases x with ⟨slot⟩ | ⟨slot⟩ | m <;> try rfl
    cases slot <;> simp
  | succ m ih =>
    rw [forAll_succ, ih]
    funext x
    rcases x with ⟨slot⟩ | ⟨slot⟩ | k <;> try simp [Function.update_apply]
    cases slot <;> simp [Function.update_apply]
    rename_i pa fa
    by_cases hp : pa = patchI
    · by_cases hf : fa = m
      · simp [hp, hf]
      · have : (fa < m + 1) = (fa < m) := by
          apply propext; omega
        simp [hp, hf, this]
    · simp [hp]

theorem seedLoop_patches {α : Type} (nPatches : Nat) (patchSize : Nat → Nat)
    (v : Nat → Nat → α) (a : Var → α) :
    forAll nPatches (fun patchI acc =>
        forAll (patchSize patchI) (fun faceI acc =>
          Function.update acc (Var.residual (Slot.phiBoundary patchI faceI)) (v patchI faceI))
          acc) a
      = fun x => match x with
        | .residual (.phiBoundary pa fa) =>
            if pa < nPatches ∧ fa < patchSize pa then v pa fa
            else a (.residual (.phiBoundary pa fa))
        | y => a y := by
  induction nPatches with
  | zero =>
    rw [forAll_zero]
    funext x
    rcases x with ⟨slot⟩ | ⟨slot⟩ | m <;> try rfl
    cases slot <;> simp
  | succ n ih =>
    rw [forAll_succ, ih, seedLoop_faces]
    funext x
    rcases x with ⟨slot⟩ | ⟨slot⟩ | k <;> try rfl
    cases slot <;> try rfl
    rename_i pa fa
    by_cases hp : pa = n
    · subst hp
      by_cases hf : fa < patchSize pa <;> simp [hf]
    · have : (pa < n + 1) = (pa < n) := by
        apply propext; omega
      simp [hp, this]

/-- The seeding loops change nothing of the tape but the adjoints, which afterwards hold
the components of the `Psi` blocks at the residual components of the mesh. -/
theorem seedResiduals_eq {α : Type} (mesh : fvMesh α) (Psi : Blocks α) (tape : Tape α) :
    seedResiduals mesh Psi tape
      = { tape with adjoints := seedAdjoints mesh Psi tape.adjoints } := by
  have h1 := forAll_tape_adjoints mesh.nCells (fun cellI acc =>
    Function.update (Function.update (Function.update acc
      (Var.residual (Slot.U cellI 0)) (Psi.U cellI 0))
      (Var.residual (Slot.U cellI 1)) (Psi.U cellI 1))
      (Var.residual (Slot.U cellI 2)) (Psi.U cellI 2))
  have h2 := forAll_tape_adjoints mesh.nCells (fun cellI acc =>
    Function.update acc (Var.residual (Slot.p cellI)) (Psi.p cellI))
  have h3 := forAll_tape_adjoints mesh.nInternalFaces (fun faceI acc =>
    Function.update acc (Var.residual (Slot.phi faceI)) (Psi.phi.primitiveField faceI))
  have h4in : ∀ patchI, _ := fun patchI =>
    forAll_tape_adjoints (mesh.patchSize patchI) (fun faceI acc =>
      Function.update acc (Var.residual (Slot.phiBoundary patchI faceI))
        (Psi.phi.boundaryField patchI faceI))
  have h4 := forAll_tape_adjoints mesh.nPatches (fun patchI acc =>
    forAll (mesh.patchSize patchI) (fun faceI acc =>
      Function.update acc (Var.residual (Slot.phiBoundary patchI faceI))
        (Psi.phi.boundaryField patchI faceI)) acc)
  have h5 := forAll_tape_adjoints mesh.nCells (fun cellI acc =>
    Function.update acc (Var.residual (Slot.nuTilda cellI)) (Psi.nuTilda cellI))
  unfold seedResiduals
  simp only [Tape.setGradient] at *
  simp only [h4in] at *
  rw [h1, h2, h3, h4, h5]
  simp only [seedLoop_U, seedLoop_p, seedLoop_phi, seedLoop_patches, seedLoop_nuTilda]
  congr 1
  funext x
  rcases x with ⟨slot⟩ | ⟨slot⟩ | k <;> try rfl
  cases slot <;> simp [seedAdjoints, fvMesh.hasSlot, Blocks.component]

theorem forAll_adjoints {α : Type} (n : Nat) (body : Nat → Tape α → Tape α) (t : Tape α)
    (h : ∀ i t, (body i t).adjoints = t.adjoints) : (forAll n body t).adjoints = t.adjoints :=
  forAll_induction (fun t' => t'.adjoints = t.adjoints) n body t rfl
    (fun i acc _ hacc => (h i acc).trans hacc)

theorem push_adjoints {α : Type} (t : Tape α) (program : List (Statement α)) :
    (t.push program).adjoints = t.adjoints := by
  unfold Tape.push
  split <;> rfl

theorem forAll_adjoints_zero {α : Type} [Zero α] (n : Nat) (body : Nat → Tape α → Tape α)
    (t : Tape α) (h : ∀ i t, (body i t).adjoints = t.adjoints)
    (ht : t.adjoints = fun _ => 0) : (forAll n body t).adjoints = fun _ => 0 :=
  (forAll_adjoints n body t h).trans ht

/-- The tape that the branch `cnt == 0` leaves has all adjoints zero. -/
theorem recordResiduals_adjoints {α : Type} [Field α] (s : Solver α) (Res : Blocks α)
    (tape : Tape α) : (recordResiduals s Res tape).2.adjoints = fun _ => 0 := by
  unfold recordResiduals
  simp only [Tape.setPassive]
  refine forAll_adjoints_zero _ _ _ (fun _ _ => rfl) ?_
  refine forAll_adjoints_zero _ _ _
    (fun _ _ => forAll_adjoints _ _ _ (fun _ _ => rfl)) ?_
  refine forAll_adjoints_zero _ _ _ (fun _ _ => rfl) ?_
  refine forAll_adjoints_zero _ _ _ (fun _ _ => rfl) ?_
  refine forAll_adjoints_zero _ _ _ (fun _ _ => rfl) ?_
  rw [push_adjoints, push_adjoints]
  refine forAll_adjoints_zero _ _ _ (fun _ _ => rfl) ?_
  refine forAll_adjoints_zero _ _ _
    (fun _ _ => forAll_adjoints _ _ _ (fun _ _ => rfl)) ?_
  refine forAll_adjoints_zero _ _ _ (fun _ _ => rfl) ?_
  refine forAll_adjoints_zero _ _ _ (fun _ _ => rfl) ?_
  refine forAll_adjoints_zero _ _ _ (fun _ _ => rfl) ?_
  rfl

/-- Seeding, evaluating and clearing gives back a tape whose adjoints were all zero. -/
theorem seed_evaluate_clear {α : Type} [Field α] (mesh : fvMesh α) (Psi : Blocks α)
    (tape : Tape α) (h : tape.adjoints = fun _ => 0) :
    (seedResiduals mesh Psi tape).evaluate.clearAdjoints = tape := by
  rw [seedResiduals_eq]
  simp only [Tape.evaluate, Tape.clearAdjoints]
  rw [← h]

/-- C4: after every call of `calcAdjointResidual`, whatever `cnt` and whatever the adjoint
residual blocks held on entry, every component of the adjoint residual blocks on the mesh
(cells and components of `adjURes`, cells of `adjpRes` and `adjnuTildaRes`, internal and
boundary faces of `adjphiRes`) is the negated matching component of the objective gradient
plus the gradient that `tape.evaluate()` leaves at the matching state component; the tape
evaluated is the recorded one with the adjoint of every residual component of the mesh
set to the matching component of the `Psi` blocks, its statements and its other adjoints
unchanged by the seeding; the content of the adjoint residual blocks on entry has no
influence on the result. -/
theorem calcAdjointResidual_adjRes {α : Type} [Field α] (s : Solver α)
    (Res dfd Psi adjRes : Blocks α) (tape : Tape α) (cnt : Nat) :
    (∀ slot, s.mesh.hasSlot slot = true →
      (calcAdjointResidual s Res dfd Psi adjRes tape cnt).adjRes.component slot
        = - dfd.component slot
          + (seedResiduals s.mesh Psi (tapeForCall s Res tape cnt).2).evaluate.getGradient
              (.state slot)) ∧
    (∀ slot, s.mesh.hasSlot slot = true →
      (seedResiduals s.mesh Psi (tapeForCall s Res tape cnt).2).getGradient (.residual slot)
        = Psi.component slot) ∧
    (∀ slot, (seedResiduals s.mesh Psi (tapeForCall s Res tape cnt).2).getGradient (.state slot)
        = (tapeForCall s Res tape cnt).2.getGradient (.state slot)) ∧
    (∀ n, (seedResiduals s.mesh Psi (tapeForCall s Res tape cnt).2).getGradient (.intermediate n)
        = (tapeForCall s Res tape cnt).2.getGradient (.intermediate n)) ∧
    (seedResiduals s.mesh Psi (tapeForCall s Res tape cnt).2).statements
      = (tapeForCall s Res tape cnt).2.statements ∧
    (∀ adjRes', calcAdjointResidual s Res dfd Psi adjRes' tape cnt
      = calcAdjointResidual s Res dfd Psi adjRes tape cnt) := by
  refine ⟨?_, ?_, ?_, ?_, ?_, fun _ => rfl⟩
  · intro slot hslot
    show (addGradients s.mesh _ (negBlocks dfd)).component slot = _
    rw [addGradients_component, if_pos hslot]
    cases slot <;> rfl
  · intro slot hslot
    rw [seedResiduals_eq]
    simp [Tape.getGradient, seedAdjoints, hslot]
  · intro slot
    rw [seedResiduals_eq]
    rfl
  · intro n
    rw [seedResiduals_eq]
    rfl
  · rw [seedResiduals_eq]

/-- C5: a call of `calcAdjointResidual` with `cnt == 0` followed by a call with
`cnt == 1`, with the same `Psi` blocks and the same objective gradient, gives the same
adjoint residual blocks both times; the first call leaves the adjoints of the tape all
zero and the second call leaves the tape and the residual blocks as the first did. -/
theorem calcAdjointResidual_replay {α : Type} [Field α] (s : Solver α)
    (Res dfd Psi adjRes : Blocks α) (tape : Tape α) :
    (calcAdjointResidual s (calcAdjointResidual s Res dfd Psi adjRes tape 0).Res dfd Psi
        (calcAdjointResidual s Res dfd Psi adjRes tape 0).adjRes
        (calcAdjointResidual s Res dfd Psi adjRes tape 0).tape 1).adjRes
      = (calcAdjointResidual s Res dfd Psi adjRes tape 0).adjRes ∧
    (calcAdjointResidual s Res dfd Psi adjRes tape 0).tape.adjoints = (fun _ => 0) ∧
    (calcAdjointResidual s (calcAdjointResidual s Res dfd Psi adjRes tape 0).Res dfd Psi
        (calcAdjointResidual s Res dfd Psi adjRes tape 0).adjRes
        (calcAdjointResidual s Res dfd Psi adjRes tape 0).tape 1).tape
      = (calcAdjointResidual s Res dfd Psi adjRes tape 0).tape ∧
    (calcAdjointResidual s (calcAdjointResidual s Res dfd Psi adjRes tape 0).Res dfd Psi
        (calcAdjointResidual s Res dfd Psi adjRes tape 0).adjRes
        (calcAdjointResidual s Res dfd Psi adjRes tape 0).tape 1).Res
      = (calcAdjointResidual s Res dfd Psi adjRes tape 0).Res := by
  have htape : (calcAdjointResidual s Res dfd Psi adjRes tape 0).tape
      = (recordResiduals s Res tape).2 :=
    seed_evaluate_clear s.mesh Psi _ (recordResiduals_adjoints s Res tape)
  have hcall : ∀ (R A : Blocks α),
      calcAdjointResidual s R dfd Psi A (recordResiduals s Res tape).2 1
        = { Res := R,
            adjRes := (calcAdjointResidual s Res dfd Psi adjRes tape 0).adjRes,
            tape := (calcAdjointResidual s Res dfd Psi adjRes tape 0).tape,
            cnt := 1 } := fun _ _ => rfl
  have hsecond : calcAdjointResidual s (calcAdjointResidual s Res dfd Psi adjRes tape 0).Res
        dfd Psi (calcAdjointResidual s Res dfd Psi adjRes tape 0).adjRes
        (calcAdjointResidual s Res dfd Psi adjRes tape 0).tape 1
      = { Res := (calcAdjointResidual s Res dfd Psi adjRes tape 0).Res,
          adjRes := (calcAdjointResidual s Res dfd Psi adjRes tape 0).adjRes,
          tape := (calcAdjointResidual s Res dfd Psi adjRes tape 0).tape,
          cnt := 1 } := by
    rw [htape]
    exact (hcall _ _).trans (by rw [htape])
  rw [hsecond]
  refine ⟨rfl, ?_, rfl, rfl⟩
  rw [htape]
  exact recordResiduals_adjoints s Res tape

/-! ## The inverse transpose products -/

theorem forAll_boundaryCoeffs {α τ : Type} (n : Nat)
    (body : Nat → fvMatrix α τ → fvMatrix α τ) (eqn : fvMatrix α τ)
    (h : ∀ i e, (body i e).boundaryCoeffs = e.boundaryCoeffs) :
    (forAll n body eqn).boundaryCoeffs = eqn.boundaryCoeffs :=
  forAll_induction (fun e => e.boundaryCoeffs = eqn.boundaryCoeffs) n body eqn rfl
    (fun i acc _ hacc => (h i acc).trans hacc)

theorem subtractBoundarySource_boundaryCoeffs {α τ : Type} [Sub τ] (mesh : fvMesh α)
    (eqn : fvMatrix α τ) :
    (subtractBoundarySource mesh eqn).boundaryCoeffs = eqn.boundaryCoeffs := by
  unfold subtractBoundarySource
  exact forAll_boundaryCoeffs _ _ _
    (fun _ _ => forAll_boundaryCoeffs _ _ _ (fun _ _ => rfl))

/-- The loop over the boundary faces keeps a source that is zero in every cell zero when
the boundary coefficients of the patch faces are zero. -/
theorem subtractBoundarySource_source {α τ : Type} [AddGroup τ] (mesh : fvMesh α)
    (eqn : fvMatrix α τ) (hsrc : ∀ i, i < mesh.nCells → eqn.source i = 0)
    (hb : ∀ patchI faceI, patchI < mesh.nPatches → faceI < mesh.patchSize patchI →
      eqn.boundaryCoeffs patchI faceI = 0) :
    ∀ i, i < mesh.nCells → (subtractBoundarySource mesh eqn).source i = 0 := by
  unfold subtractBoundarySource
  have key := forAll_induction
    (fun e : fvMatrix α τ => e.boundaryCoeffs = eqn.boundaryCoeffs
      ∧ ∀ i, i < mesh.nCells → e.source i = 0) mesh.nPatches
    (fun patchI eqn =>
      forAll (mesh.patchSize patchI) (fun faceI eqn =>
        let cellI := mesh.faceCells patchI faceI
        { eqn with
          source := Function.update eqn.source cellI
            (eqn.source cellI - eqn.boundaryCoeffs patchI faceI) }) eqn) eqn ⟨rfl, hsrc⟩ ?_
  · exact key.2
  · intro patchI acc hp hacc
    refine forAll_induction
      (fun e : fvMatrix α τ => e.boundaryCoeffs = eqn.boundaryCoeffs
        ∧ ∀ i, i < mesh.nCells → e.source i = 0) (mesh.patchSize patchI)
      (fun faceI eqn =>
        let cellI := mesh.faceCells patchI faceI
        { eqn with
          source := Function.update eqn.source cellI
            (eqn.source cellI - eqn.boundaryCoeffs patchI faceI) }) acc hacc ?_
    intro faceI e hf he
    refine ⟨he.1, ?_⟩
    intro i hi
    dsimp only
    by_cases hc : i = mesh.faceCells patchI faceI
    · subst hc
      rw [Function.update_same, he.1, hb patchI faceI hp hf, he.2 _ hi, sub_zero]
    · rw [Function.update_noteq hc]
      exact he.2 i hi

theorem forAll_setComp_zero {α : Type} [Zero α] (n : Nat) (a : volVectorField α) :
    forAll n (fun cellI acc =>
        let acc := setComp acc cellI 0 0
        let acc := setComp acc cellI 1 0
        setComp acc cellI 2 0) a
      = fun cellI => if cellI < n then 0 else a cellI := by
  have hbody : (fun cellI (acc : volVectorField α) =>
        let acc := setComp acc cellI 0 0
        let acc := setComp acc cellI 1 0
        setComp acc cellI 2 0)
      = fun cellI acc =>
          Function.update acc cellI ((fun _ _ => (0 : vector α)) cellI (acc cellI)) := by
    funext cellI acc c
    by_cases hc : c = cellI
    · subst hc
      funext comp
      fin_cases comp <;> simp [setComp, Function.update]
    · simp [setComp, Function.update_noteq hc]
  rw [hbody]
  exact forAll_pointwise n (fun _ _ => (0 : vector α)) a

/-- C9: for `invTranProdUEqn` and for `invTranProdPEqn`, when `mySource` is zero in every
cell and the boundary coefficients of the operator are zero on every patch face, the
source of the matrix handed to `solve()` is zero in every cell and its field `psi` (the
initial guess) is zero in every cell, whatever the pseudo field held on entry; the
returned field is then zero in every cell, given that the solve of the linear-system
backend returns zero in every cell for a matrix with such a source, initial guess and
boundary coefficients (and, for the pressure, that `setReference(0, 0.0)` leaves a source
that is zero in every cell zero). -/
theorem invTranProd_zeroSource {α : Type} [Field α] (s : Solver α)
    (mySourceU pseudoU : volVectorField α) (mySourceP pseudoP : volScalarField α)
    (hSourceU : zeroInCells s.mesh mySourceU)
    (hBoundaryU : zeroBoundaryCoeffs s.mesh (invTranProdUEqnSystem s mySourceU pseudoU))
    (hSolveU : solveKeepsZero s.mesh s.fv.solveVector)
    (hSourceP : zeroInCells s.mesh mySourceP)
    (hBoundaryP : zeroBoundaryCoeffs s.mesh (invTranProdPEqnSystem s mySourceP pseudoP))
    (hReference : referenceKeepsZero s.mesh s.fv.setReference)
    (hSolveP : solveKeepsZero s.mesh s.fv.solveScalar) :
    (zeroInCells s.mesh (invTranProdUEqnSystem s mySourceU pseudoU).source ∧
      zeroInCells s.mesh (invTranProdUEqnSystem s mySourceU pseudoU).psi ∧
      zeroInCells s.mesh (invTranProdUEqn s mySourceU pseudoU)) ∧
    (zeroInCells s.mesh (invTranProdPEqnSystem s mySourceP pseudoP).source ∧
      zeroInCells s.mesh (invTranProdPEqnSystem s mySourceP pseudoP).psi ∧
      zeroInCells s.mesh (invTranProdPEqn s mySourceP pseudoP)) := by
  have hU1 : zeroInCells s.mesh (invTranProdUEqnSystem s mySourceU pseudoU).source := by
    refine subtractBoundarySource_source s.mesh _ hSourceU ?_
    intro patchI faceI hp hf
    have h := hBoundaryU patchI faceI hp hf
    simp only [invTranProdUEqnSystem, subtractBoundarySource_boundaryCoeffs] at h
    exact h
  have hU2 : zeroInCells s.mesh (invTranProdUEqnSystem s mySourceU pseudoU).psi := by
    intro i hi
    simp only [invTranProdUEqnSystem]
    rw [forAll_setComp_zero]
    simp [hi]
  have hP1 : zeroInCells s.mesh (invTranProdPEqnSystem s mySourceP pseudoP).source := by
    refine subtractBoundarySource_source s.mesh _ (hReference _ hSourceP) ?_
    intro patchI faceI hp hf
    have h := hBoundaryP patchI faceI hp hf
    simp only [invTranProdPEqnSystem, subtractBoundarySource_boundaryCoeffs] at h
    exact h
  have hP2 : zeroInCells s.mesh (invTranProdPEqnSystem s mySourceP pseudoP).psi := by
    intro i hi
    simp only [invTranProdPEqnSystem]
    rw [forAll_update]
    simp [hi]
  exact ⟨⟨hU1, hU2, hSolveU _ hU1 hU2 hBoundaryU⟩, ⟨hP1, hP2, hSolveP _ hP1 hP2 hBoundaryP⟩⟩

theorem exampleFv_solveVector_keepsZero : solveKeepsZero exampleMesh exampleFv.solveVector := by
  intro eqn hs hp _ i hi
  funext comp
  simp [exampleFv, hs i hi, hp i hi]

theorem exampleFv_solveScalar_keepsZero : solveKeepsZero exampleMesh exampleFv.solveScalar := by
  intro eqn hs hp _ i hi
  simp [exampleFv, hs i hi, hp i hi]

theorem exampleFv_referenceKeepsZero : referenceKeepsZero exampleMesh exampleFv.setReference := by
  intro eqn hs i hi
  by_cases h0 : i = 0
  · subst h0
    simp [exampleFv, hs 0 hi]
  · simp [exampleFv, Function.update_noteq h0, hs i hi]

/-- The statement C9 on `exampleSolver`, with pseudo fields that are not zero on entry. -/
theorem invTranProd_zeroSource_witness :
    zeroInCells exampleSolver.mesh zeroBlocks.U ∧
    zeroBoundaryCoeffs exampleSolver.mesh
      (invTranProdUEqnSystem exampleSolver zeroBlocks.U exampleBlocks.U) ∧
    solveKeepsZero exampleSolver.mesh exampleSolver.fv.solveVector ∧
    zeroInCells exampleSolver.mesh zeroBlocks.p ∧
    zeroBoundaryCoeffs exampleSolver.mesh
      (invTranProdPEqnSystem exampleSolver zeroBlocks.p exampleBlocks.p) ∧
    referenceKeepsZero exampleSolver.mesh exampleSolver.fv.setReference ∧
    solveKeepsZero exampleSolver.mesh exampleSolver.fv.solveScalar ∧
    (zeroInCells exampleSolver.mesh
        (invTranProdUEqnSystem exampleSolver zeroBlocks.U exampleBlocks.U).source ∧
      zeroInCells exampleSolver.mesh
        (invTranProdUEqnSystem exampleSolver zeroBlocks.U exampleBlocks.U).psi ∧
      zeroInCells exampleSolver.mesh
        (invTranProdUEqn exampleSolver zeroBlocks.U exampleBlocks.U)) ∧
    (zeroInCells exampleSolver.mesh
        (invTranProdPEqnSystem exampleSolver zeroBlocks.p exampleBlocks.p).source ∧
      zeroInCells exampleSolver.mesh
        (invTranProdPEqnSystem exampleSolver zeroBlocks.p exampleBlocks.p).psi ∧
      zeroInCells exampleSolver.mesh
        (invTranProdPEqn exampleSolver zeroBlocks.p exampleBlocks.p)) := by
  have hSU : zeroInCells exampleSolver.mesh zeroBlocks.U := fun _ _ => rfl
  have hSP : zeroInCells exampleSolver.mesh zeroBlocks.p := fun _ _ => rfl
  have hBU : zeroBoundaryCoeffs exampleSolver.mesh
      (invTranProdUEqnSystem exampleSolver zeroBlocks.U exampleBlocks.U) := by
    intro patchI faceI _ _
    simp only [invTranProdUEqnSystem, subtractBoundarySource_boundaryCoeffs]
    rfl
  have hBP : zeroBoundaryCoeffs exampleSolver.mesh
      (invTranProdPEqnSystem exampleSolver zeroBlocks.p exampleBlocks.p) := by
    intro patchI faceI _ _
    simp only [invTranProdPEqnSystem, subtractBoundarySource_boundaryCoeffs]
    rfl
  exact ⟨hSU, hBU, exampleFv_solveVector_keepsZero, hSP, hBP, exampleFv_referenceKeepsZero,
    exampleFv_solveScalar_keepsZero,
    invTranProd_zeroSource exampleSolver zeroBlocks.U exampleBlocks.U zeroBlocks.p
      exampleBlocks.p hSU hBU exampleFv_solveVector_keepsZero hSP hBP
      exampleFv_referenceKeepsZero exampleFv_solveScalar_keepsZero⟩

/-- The reference members are not read by `invTranProdPEqn`: the call
`setReference(0, 0.0)` has a literal cell and a literal value. -/
theorem invTranProdPEqn_reference_literal {α : Type} [Field α] (s : Solver α)
    (mySource pseudoP : volScalarField α) (cell : Nat) (value : α) :
    invTranProdPEqn { s with pRefCell_ := cell, pRefValue_ := value } mySource pseudoP
      = invTranProdPEqn s mySource pseudoP := rfl

/-- C8 on `exampleSolver`, whose pressure reference is cell 1 with value 5: the field that
`invTranProdPEqn` returns holds 101/2 in cell 1, not 5, and is the same for every
reference cell and value of the solver. -/
theorem invTranProdPEqn_reference_failing :
    exampleSolver.pRefCell_ = 1 ∧ exampleSolver.pRefValue_ = 5 ∧
    invTranProdPEqn exampleSolver exampleBlocks.p exampleBlocks.p exampleSolver.pRefCell_
      = 101 / 2 ∧
    invTranProdPEqn exampleSolver exampleBlocks.p exampleBlocks.p exampleSolver.pRefCell_
      ≠ exampleSolver.pRefValue_ ∧
    (∀ (cell : Nat) (value : ℚ),
      invTranProdPEqn { exampleSolver with pRefCell_ := cell, pRefValue_ := value }
          exampleBlocks.p exampleBlocks.p
        = invTranProdPEqn exampleSolver exampleBlocks.p exampleBlocks.p) := by
  have h : invTranProdPEqn exampleSolver exampleBlocks.p exampleBlocks.p 1 = 101 / 2 := by
    simp [invTranProdPEqn, invTranProdPEqnSystem, subtractBoundarySource, swapUpperLower,
      forAll, List.range_succ, exampleSolver, exampleFv, exampleMesh, exampleTurbulence,
      exampleBlocks, Function.update_apply]
    norm_num
  refine ⟨rfl, rfl, h, ?_, fun _ _ => rfl⟩
  show invTranProdPEqn exampleSolver exampleBlocks.p exampleBlocks.p 1 ≠ 5
  rw [h]
  norm_num

theorem forAll_recording {α : Type} (n : Nat) (body : Nat → Tape α → Tape α) (t : Tape α)
    (h : ∀ i t, (body i t).statements = t.statements ∧ (body i t).active = t.active) :
    (forAll n body t).statements = t.statements ∧ (forAll n body t).active = t.active :=
  forAll_induction (fun t' => t'.statements = t.statements ∧ t'.active = t.active) n body t
    ⟨rfl, rfl⟩ (fun i acc _ hacc => ⟨(h i acc).1.trans hacc.1, (h i acc).2.trans hacc.2⟩)

theorem forAll_recording_of {α : Type} (n : Nat) (body : Nat → Tape α → Tape α) (t : Tape α)
    (h : ∀ i t, (body i t).statements = t.statements ∧ (body i t).active = t.active)
    (l : List (Statement α)) (b : Bool) (ht : t.statements = l ∧ t.active = b) :
    (forAll n body t).statements = l ∧ (forAll n body t).active = b :=
  ⟨(forAll_recording n body t h).1.trans ht.1, (forAll_recording n body t h).2.trans ht.2⟩

theorem push_recording_of {α : Type} (t : Tape α) (program l : List (Statement α))
    (ht : t.statements = l ∧ t.active = true) :
    (t.push program).statements = l ++ program ∧ (t.push program).active = true := by
  unfold Tape.push
  rw [if_pos ht.2]
  exact ⟨by rw [← ht.1], ht.2⟩

/-- The tape that the branch `cnt == 0` leaves holds the statements of the boundary
correction and of the residual evaluation, and nothing else. -/
theorem recordResiduals_statements {α : Type} [Field α] (s : Solver α) (Res : Blocks α)
    (tape : Tape α) :
    (recordResiduals s Res tape).2.statements = s.linkProgram ++ s.residualProgram := by
  unfold recordResiduals
  simp only [Tape.setPassive]
  suffices h : ∀ (X : Tape α), (X.statements = [] ∧ X.active = true) →
      (forAll s.mesh.nCells (fun cellI tape =>
          tape.registerOutput (.residual (.nuTilda cellI)))
        (forAll s.mesh.nPatches (fun patchI tape =>
          forAll (s.mesh.patchSize patchI) (fun faceI tape =>
            tape.registerOutput (.residual (.phiBoundary patchI faceI))) tape)
          (forAll s.mesh.nInternalFaces (fun faceI tape =>
            tape.registerOutput (.residual (.phi faceI)))
            (forAll s.mesh.nCells (fun cellI tape =>
              tape.registerOutput (.residual (.p cellI)))
              (forAll s.mesh.nCells (fun cellI tape =>
                let tape := tape.registerOutput (.residual (.U cellI 0))
                let tape := tape.registerOutput (.residual (.U cellI 1))
                tape.registerOutput (.residual (.U cellI 2)))
                ((X.push s.linkProgram).push s.residualProgram)))))).statements
        = s.linkProgram ++ s.residualProgram ∧
      (forAll s.mesh.nCells (fun cellI tape =>
          tape.registerOutput (.residual (.nuTilda cellI)))
        (forAll s.mesh.nPatches (fun patchI tape =>
          forAll (s.mesh.patchSize patchI) (fun faceI tape =>
            tape.registerOutput (.residual (.phiBoundary patchI faceI))) tape)
          (forAll s.mesh.nInternalFaces (fun faceI tape =>
            tape.registerOutput (.residual (.phi faceI)))
            (forAll s.mesh.nCells (fun cellI tape =>
              tape.registerOutput (.residual (.p cellI)))
              (forAll s.mesh.nCells (fun cellI tape =>
                let tape := tape.registerOutput (.residual (.U cellI 0))
                let tape := tape.registerOutput (.residual (.U cellI 1))
                tape.registerOutput (.residual (.U cellI 2)))
                ((X.push s.linkProgram).push s.residualProgram)))))).active = true by
    refine (h _ ?_).1
    refine forAll_recording_of _ _ _ ?_ _ _ ?_
    · intro _ _; exact ⟨rfl, rfl⟩
    refine forAll_recording_of _ _ _ ?_ _ _ ?_
    · intro _ _
      refine forAll_recording _ _ _ ?_
      intro _ _; exact ⟨rfl, rfl⟩
    refine forAll_recording_of _ _ _ ?_ _ _ ?_
    · intro _ _; exact ⟨rfl, rfl⟩
    refine forAll_recording_of _ _ _ ?_ _ _ ?_
    · intro _ _; exact ⟨rfl, rfl⟩
    refine forAll_recording_of _ _ _ ?_ _ _ ?_
    · intro _ _; exact ⟨rfl, rfl⟩
    exact ⟨rfl, rfl⟩
  intro X hX
  have h1 := push_recording_of X s.linkProgram [] hX
  have h2 := push_recording_of _ s.residualProgram _ h1
  rw [List.nil_append] at h2
  refine forAll_recording_of _ _ _ ?_ _ _ ?_
  · intro _ _; exact ⟨rfl, rfl⟩
  refine forAll_recording_of _ _ _ ?_ _ _ ?_
  · intro _ _
    refine forAll_recording _ _ _ ?_
    intro _ _; exact ⟨rfl, rfl⟩
  refine forAll_recording_of _ _ _ ?_ _ _ ?_
  · intro _ _; exact ⟨rfl, rfl⟩
  refine forAll_recording_of _ _ _ ?_ _ _ ?_
  · intro _ _; exact ⟨rfl, rfl⟩
  refine forAll_recording_of _ _ _ ?_ _ _ ?_
  · intro _ _; exact ⟨rfl, rfl⟩
  exact h2

/-- The values of C4 on `exampleSolver`, for the first call (`cnt == 0`) with the `Psi`
blocks and the objective gradient both equal to `exampleBlocks`: the recorded residual
of `p` is `(2 p0 - p1, 3 p1)`, so the gradients of `p` are `2*100 = 200` and
`-100 + 3*101 = 203`, and the adjoint residual of `p` is `(-100 + 200, -101 + 203)`. -/
theorem calcAdjointResidual_adjRes_witness :
    (calcAdjointResidual exampleSolver zeroBlocks exampleBlocks exampleBlocks zeroBlocks
        emptyTape 0).adjRes.p 0 = 100 ∧
    (calcAdjointResidual exampleSolver zeroBlocks exampleBlocks exampleBlocks zeroBlocks
        emptyTape 0).adjRes.p 1 = 102 := by
  have h := (calcAdjointResidual_adjRes exampleSolver zeroBlocks exampleBlocks exampleBlocks
    zeroBlocks emptyTape 0).1
  have h0 := h (.p 0) (by decide)
  have h1 := h (.p 1) (by decide)
  have hst : (tapeForCall exampleSolver zeroBlocks emptyTape 0).2.statements
      = exampleProgram := recordResiduals_statements exampleSolver zeroBlocks emptyTape
  have had : (tapeForCall exampleSolver zeroBlocks emptyTape 0).2.adjoints = fun _ => 0 :=
    recordResiduals_adjoints exampleSolver zeroBlocks emptyTape
  simp only [Blocks.component, seedResiduals_eq, Tape.evaluate, Tape.getGradient, hst, had]
    at h0 h1
  constructor
  · rw [h0]
    simp [exampleProgram, Statement.propagate, seedAdjoints, fvMesh.hasSlot, exampleSolver,
      exampleMesh, exampleBlocks, Blocks.component, Function.update_apply]
    norm_num
  · rw [h1]
    simp [exampleProgram, Statement.propagate, seedAdjoints, fvMesh.hasSlot, exampleSolver,
      exampleMesh, exampleBlocks, Blocks.component, Function.update_apply]
    norm_num

/-! ## The norm of a vector field, component by component -/

/-- A loop whose body depends on the index only below the bound gives the same result for
two bodies that agree there. -/
theorem forAll_congr {σ : Type} (n : Nat) (body₁ body₂ : Nat → σ → σ) (s : σ)
    (h : ∀ i acc, i < n → body₁ i acc = body₂ i acc) : forAll n body₁ s = forAll n body₂ s := by
  induction n with
  | zero => simp [forAll_zero]
  | succ n ih =>
    rw [forAll_succ, forAll_succ, ih (fun i acc hi => h i acc (Nat.lt_succ_of_lt hi)),
      h n _ (Nat.lt_succ_self n)]

theorem L2normVector_accumulate {α : Type} [Field α] (mesh : fvMesh α) (U : volVectorField α)
    (n : Nat) (comp : Fin 3) :
    forAll n (fun cellI (L2norm_U : vector α) =>
        let L2norm_U := Function.update L2norm_U 0 (L2norm_U 0 + sqr (U cellI 0 / mesh.V cellI))
        let L2norm_U := Function.update L2norm_U 1 (L2norm_U 1 + sqr (U cellI 1 / mesh.V cellI))
        Function.update L2norm_U 2 (L2norm_U 2 + sqr (U cellI 2 / mesh.V cellI)))
      (fun _ => 0) comp
      = forAll n (fun cellI L2norm_v => L2norm_v + sqr (U cellI comp / mesh.V cellI)) 0 := by
  induction n with
  | zero => simp [forAll_zero]
  | succ n ih =>
    rw [forAll_succ, forAll_succ, ← ih]
    fin_cases comp <;> simp [Function.update]

/-- Component `comp` of the norm of a vector field, as the scalar loop over that
component. -/
theorem L2normVector_apply {α : Type} [Field α] (sqrt : α → α) (mesh : fvMesh α)
    (U : volVectorField α) (comp : Fin 3) :
    L2normVector sqrt mesh U comp = L2norm sqrt mesh (fun cellI => U cellI comp) := by
  unfold L2normVector L2norm
  simp only
  rw [← L2normVector_accumulate mesh U mesh.nCells comp]
  fin_cases comp <;> simp [Function.update]

/-- The scalar norm reads the field in the cells of the mesh only. -/
theorem L2norm_congr {α : Type} [Field α] (sqrt : α → α) (mesh : fvMesh α)
    (v v' : volScalarField α) (h : ∀ cellI, cellI < mesh.nCells → v' cellI = v cellI) :
    L2norm sqrt mesh v' = L2norm sqrt mesh v := by
  unfold L2norm
  simp only
  exact congrArg sqrt (forAll_congr mesh.nCells
    (fun cellI L2norm_v => L2norm_v + sqr (v' cellI / mesh.V cellI))
    (fun cellI L2norm_v => L2norm_v + sqr (v cellI / mesh.V cellI)) 0
    (fun i acc hi => by simp only [h i hi]))

/-- C11: for every vector field `U` over the cells and every component `k`, component `k`
of `L2norm(U)` is the scalar `L2norm` of the scalar field that holds component `k` of `U`
in every cell, on the same mesh with the same volumes; it depends on no other component
of `U`: two vector fields that agree in component `k` in every cell of the mesh have the
same component `k` of the norm. -/
theorem L2normVector_component {α : Type} [Field α] (sqrt : α → α) (mesh : fvMesh α)
    (U : volVectorField α) (comp : Fin 3) :
    L2normVector sqrt mesh U comp = L2norm sqrt mesh (fun cellI => U cellI comp) ∧
    (∀ U' : volVectorField α, (∀ cellI, cellI < mesh.nCells → U' cellI comp = U cellI comp) →
      L2normVector sqrt mesh U' comp = L2normVector sqrt mesh U comp) := by
  refine ⟨L2normVector_apply sqrt mesh U comp, ?_⟩
  intro U' h
  rw [L2normVector_apply, L2normVector_apply]
  exact L2norm_congr sqrt mesh _ _ h

/-! ## The tape over the calls of a run -/

theorem forAll_resets {α : Type} (n : Nat) (body : Nat → Tape α → Tape α) (t : Tape α)
    (h : ∀ i t, (body i t).resets = t.resets) : (forAll n body t).resets = t.resets :=
  forAll_induction (fun t' => t'.resets = t.resets) n body t rfl
    (fun i acc _ hacc => (h i acc).trans hacc)

theorem push_resets {α : Type} (t : Tape α) (program : List (Statement α)) :
    (t.push program).resets = t.resets := by
  unfold Tape.push
  split <;> rfl

/-- The branch `cnt == 0` calls `tape.reset()` once. -/
theorem recordResiduals_resets {α : Type} [Field α] (s : Solver α) (Res : Blocks α)
    (tape : Tape α) : (recordResiduals s Res tape).2.resets = tape.resets + 1 := by
  unfold recordResiduals
  simp only [Tape.setPassive]
  rw [forAll_resets]
  rw [forAll_resets]
  rw [forAll_resets]
  rw [forAll_resets]
  rw [forAll_resets]
  rw [push_resets, push_resets]
  rw [forAll_resets]
  rw [forAll_resets]
  rw [forAll_resets]
  rw [forAll_resets]
  rw [forAll_resets]
  · rfl
  all_goals first
    | (intro _ _; rfl)
    | (intro _ _; exact forAll_resets _ _ _ (fun _ _ => rfl))

/-- The tape after a call of `calcAdjointResidual`: the tape that was seeded, with the
adjoints cleared. -/
theorem calcAdjointResidual_tape {α : Type} [Field α] (s : Solver α)
    (Res dfd Psi adjRes : Blocks α) (tape : Tape α) (cnt : Nat) :
    (calcAdjointResidual s Res dfd Psi adjRes tape cnt).tape
      = { (tapeForCall s Res tape cnt).2 with adjoints := fun _ => 0 } := by
  show (seedResiduals s.mesh Psi (tapeForCall s Res tape cnt).2).evaluate.clearAdjoints = _
  rw [seedResiduals_eq]
  rfl

/-- What a call of `calcAdjointResidual` does to the tape: with `cnt == 0` the tape is reset
once and holds the newly recorded statements, with any other `cnt` the count of resets
and the statements stay as they are; the adjoints end cleared. -/
theorem calcAdjointResidual_tape_facts {α : Type} [Field α] (s : Solver α)
    (Res dfd Psi adjRes : Blocks α) (tape : Tape α) (cnt : Nat) :
    (calcAdjointResidual s Res dfd Psi adjRes tape cnt).tape.resets
      = tape.resets + (if cnt = 0 then 1 else 0) ∧
    (calcAdjointResidual s Res dfd Psi adjRes tape cnt).tape.statements
      = (if cnt = 0 then s.linkProgram ++ s.residualProgram else tape.statements) ∧
    (calcAdjointResidual s Res dfd Psi adjRes tape cnt).tape.adjoints = (fun _ => 0) := by
  rw [calcAdjointResidual_tape]
  unfold tapeForCall
  by_cases h : cnt = 0
  · rw [if_pos h, if_pos h, if_pos h]
    exact ⟨recordResiduals_resets s Res tape, recordResiduals_statements s Res tape, rfl⟩
  · rw [if_neg h, if_neg h, if_neg h]
    exact ⟨rfl, rfl, rfl⟩

theorem updateUPsi_tape {α : Type} [Field α] (s : Solver α) (dFd : Blocks α)
    (st : FPState α) :
    (updateUPsi s dFd st).tape
      = (calcAdjointResidual s st.Res dFd st.Psi st.adjRes st.tape st.cnt).tape ∧
    (updateUPsi s dFd st).cnt = st.cnt := ⟨rfl, rfl⟩

theorem updatepPsi_tape {α : Type} [Field α] (s : Solver α) (dFd : Blocks α)
    (st : FPState α) :
    (updatepPsi s dFd st).tape
      = (calcAdjointResidual s st.Res dFd st.Psi st.adjRes st.tape st.cnt).tape ∧
    (updatepPsi s dFd st).cnt = st.cnt := ⟨rfl, rfl⟩

theorem updatephiPsi_tape {α : Type} [Field α] (s : Solver α) (dFd : Blocks α)
    (st : FPState α) :
    (updatephiPsi s dFd st).tape
      = (calcAdjointResidual s st.Res dFd st.Psi st.adjRes st.tape st.cnt).tape ∧
    (updatephiPsi s dFd st).cnt = st.cnt := ⟨rfl, rfl⟩

theorem updatenuTildaPsi_tape {α : Type} [Field α] (s : Solver α) (dFd : Blocks α)
    (st : FPState α) :
    (updatenuTildaPsi s dFd st).tape
      = (calcAdjointResidual s st.Res dFd st.Psi st.adjRes st.tape st.cnt).tape ∧
    (updatenuTildaPsi s dFd st).cnt = st.cnt := ⟨rfl, rfl⟩

/-- The tape after the four block updates of a sweep: four resets and the newly recorded
statements when the sweep is entered with `cnt == 0`, no reset and the statements as they
were otherwise. -/
theorem updateBlocks_tape {α : Type} [Field α] (s : Solver α) (dFd : Blocks α)
    (st : FPState α) :
    (updateBlocks s dFd st).tape.resets = st.tape.resets + (if st.cnt = 0 then 4 else 0) ∧
    (updateBlocks s dFd st).tape.statements
      = (if st.cnt = 0 then s.linkProgram ++ s.residualProgram else st.tape.statements) ∧
    (updateBlocks s dFd st).tape.adjoints = (fun _ => 0) := by
  obtain ⟨st1, h1⟩ : ∃ x, x = updateUPsi s dFd st := ⟨_, rfl⟩
  obtain ⟨st2, h2⟩ : ∃ x, x = updatepPsi s dFd st1 := ⟨_, rfl⟩
  obtain ⟨st3, h3⟩ : ∃ x, x = updatephiPsi s dFd st2 := ⟨_, rfl⟩
  have e : updateBlocks s dFd st = updatenuTildaPsi s dFd st3 := by
    rw [h3, h2, h1]; rfl
  have t1 := updateUPsi_tape s dFd st
  have t2 := updatepPsi_tape s dFd st1
  have t3 := updatephiPsi_tape s dFd st2
  have t4 := updatenuTildaPsi_tape s dFd st3
  rw [← h1] at t1
  rw [← h2] at t2
  rw [← h3] at t3
  have c1 : st1.cnt = st.cnt := t1.2
  have c2 : st2.cnt = st.cnt := t2.2.trans c1
  have c3 : st3.cnt = st.cnt := t3.2.trans c2
  have f1 := calcAdjointResidual_tape_facts s st.Res dFd st.Psi st.adjRes st.tape st.cnt
  have f2 := calcAdjointResidual_tape_facts s st1.Res dFd st1.Psi st1.adjRes st1.tape st1.cnt
  have f3 := calcAdjointResidual_tape_facts s st2.Res dFd st2.Psi st2.adjRes st2.tape st2.cnt
  have f4 := calcAdjointResidual_tape_facts s st3.Res dFd st3.Psi st3.adjRes st3.tape st3.cnt
  rw [← t1.1] at f1
  rw [← t2.1, c1] at f2
  rw [← t3.1, c2] at f3
  rw [← t4.1, c3] at f4
  rw [e]
  by_cases hc : st.cnt = 0
  · rw [if_pos hc] at f1 f2 f3 f4
    rw [if_pos hc] at f1 f2 f3 f4
    rw [if_pos hc, if_pos hc]
    exact ⟨by omega, f4.2.1, f4.2.2⟩
  · rw [if_neg hc] at f1 f2 f3 f4
    rw [if_neg hc] at f1 f2 f3 f4
    rw [if_neg hc, if_neg hc]
    refine ⟨by omega, ?_, f4.2.2⟩
    rw [f4.2.1, f3.2.1, f2.2.1, f1.2.1]

theorem sweep_tape {α : Type} [LinearOrderedField α] (s : Solver α) (dFd : Blocks α)
    (st : FPState α) :
    (sweep s dFd st).1.tape.resets = st.tape.resets + (if st.cnt = 0 then 4 else 0) ∧
    (sweep s dFd st).1.tape.statements
      = (if st.cnt = 0 then s.linkProgram ++ s.residualProgram else st.tape.statements) ∧
    (sweep s dFd st).1.tape.adjoints = (fun _ => 0) := by
  have h : (sweep s dFd st).1.tape
      = (updateBlocks s dFd { st with sweeps := st.sweeps + 1 }).tape := by
    unfold sweep
    exact (convergenceCheck_fst s _).2.2.2.2
  rw [h]
  exact updateBlocks_tape s dFd { st with sweeps := st.sweeps + 1 }

/-- In the sweep entered with `cnt == 0` the statement `break` is not reached. -/
theorem sweep_first_no_break {α : Type} [LinearOrderedField α] (s : Solver α)
    (dFd : Blocks α) (st : FPState α) (h0 : st.cnt = 0) : (sweep s dFd st).2 = false := by
  have hc : ¬ (updateBlocks s dFd { st with sweeps := st.sweeps + 1 }).cnt ≥ 1 := by
    show ¬ st.cnt ≥ 1
    omega
  unfold sweep convergenceCheck
  rw [if_neg hc]

/-- From a sweep with `cnt >= 1` on, the loop never resets the tape and keeps its
statements. -/
theorem fpLoop_tape_later {α : Type} [LinearOrderedField α] (s : Solver α) (dFd : Blocks α) :
    ∀ (k : Nat) (st : FPState α), s.daOption.fpMaxIters - st.cnt = k → 1 ≤ st.cnt →
      (fpLoop s dFd st).tape.resets = st.tape.resets ∧
      (fpLoop s dFd st).tape.statements = st.tape.statements := by
  intro k
  induction k with
  | zero =>
    intro st hk _
    have hge : ¬ st.cnt < s.daOption.fpMaxIters := by omega
    rw [fpLoop_unfold, if_neg hge]
    exact ⟨rfl, rfl⟩
  | succ k ih =>
    intro st hk h1
    have hlt : st.cnt < s.daOption.fpMaxIters := by omega
    have hne : ¬ st.cnt = 0 := by omega
    have ht := sweep_tape s dFd st
    rw [if_neg hne, if_neg hne] at ht
    rw [fpLoop_unfold, if_pos hlt]
    by_cases hb : (sweep s dFd st).2 = true
    · rw [if_pos hb]
      exact ⟨by rw [ht.1]; rfl, ht.2.1⟩
    · rw [if_neg hb]
      have key : ∀ st' : FPState α, st'.cnt = st.cnt + 1 → st'.tape = (sweep s dFd st).1.tape →
          (fpLoop s dFd st').tape.resets = st.tape.resets ∧
          (fpLoop s dFd st').tape.statements = st.tape.statements := by
        intro st' hc htape
        obtain ⟨r1, r2⟩ := ih st' (by omega) (by omega)
        rw [r1, r2, htape]
        exact ⟨by rw [ht.1]; rfl, ht.2.1⟩
      exact key _ (by show (sweep s dFd st).1.cnt + 1 = _; rw [sweep_cnt]) rfl

/-- A loop entered with `cnt == 0` and a budget of at least one sweep resets the tape four
times, in the four calls of its first sweep, and ends with the statements recorded
there. -/
theorem fpLoop_tape_first {α : Type} [LinearOrderedField α] (s : Solver α) (dFd : Blocks α)
    (st : FPState α) (h0 : st.cnt = 0) (hn : 1 ≤ s.daOption.fpMaxIters) :
    (fpLoop s dFd st).tape.resets = st.tape.resets + 4 ∧
    (fpLoop s dFd st).tape.statements = s.linkProgram ++ s.residualProgram := by
  have hlt : st.cnt < s.daOption.fpMaxIters := by omega
  have ht := sweep_tape s dFd st
  rw [if_pos h0, if_pos h0] at ht
  rw [fpLoop_unfold, if_pos hlt, sweep_first_no_break s dFd st h0]
  simp only [Bool.false_eq_true, if_false]
  have key : ∀ st' : FPState α, st'.cnt = 1 → st'.tape = (sweep s dFd st).1.tape →
      (fpLoop s dFd st').tape.resets = st.tape.resets + 4 ∧
      (fpLoop s dFd st').tape.statements = s.linkProgram ++ s.residualProgram := by
    intro st' hc htape
    obtain ⟨r1, r2⟩ := fpLoop_tape_later s dFd _ st' rfl (by omega)
    rw [r1, r2, htape]
    exact ⟨ht.1, ht.2.1⟩
  exact key _ (by show (sweep s dFd st).1.cnt + 1 = _; rw [sweep_cnt, h0]) rfl

/-- The loop only appends to the record of the calls, and what it appends are values of
`cnt` from the one it is entered with upwards. -/
theorem fpLoop_calls_append {α : Type} [LinearOrderedField α] (s : Solver α)
    (dFd : Blocks α) :
    ∀ (k : Nat) (st : FPState α), s.daOption.fpMaxIters - st.cnt = k →
      ∃ rest, (fpLoop s dFd st).calls = st.calls ++ rest ∧ ∀ c ∈ rest, st.cnt ≤ c := by
  intro k
  induction k with
  | zero =>
    intro st hk
    have hge : ¬ st.cnt < s.daOption.fpMaxIters := by omega
    rw [fpLoop_unfold, if_neg hge]
    exact ⟨[], by simp, by simp⟩
  | succ k ih =>
    intro st hk
    have hlt : st.cnt < s.daOption.fpMaxIters := by omega
    rw [fpLoop_unfold, if_pos hlt]
    by_cases hb : (sweep s dFd st).2 = true
    · rw [if_pos hb, sweep_calls]
      exact ⟨[st.cnt, st.cnt, st.cnt, st.cnt], rfl, by simp⟩
    · rw [if_neg hb]
      have key : ∀ st' : FPState α, st'.cnt = st.cnt + 1 →
          st'.calls = st.calls ++ [st.cnt, st.cnt, st.cnt, st.cnt] →
          ∃ rest, (fpLoop s dFd st').calls = st.calls ++ rest ∧ ∀ c ∈ rest, st.cnt ≤ c := by
        intro st' hc hl
        obtain ⟨rest, hr, hrest⟩ := ih st' (by omega)
        refine ⟨[st.cnt, st.cnt, st.cnt, st.cnt] ++ rest, ?_, ?_⟩
        · rw [hr, hl, List.append_assoc]
        · intro c hcm
          rcases List.mem_append.mp hcm with h | h
          · simp only [List.mem_cons, List.mem_singleton, List.not_mem_nil, or_false,
              or_self] at h
            omega
          · have := hrest c h
            omega
      exact key _ (by show (sweep s dFd st).1.cnt + 1 = _; rw [sweep_cnt])
        (sweep_calls s dFd st)

/-- C13, as stated, fails: in the run of `exampleSolver` (scheme `fixedPoint`, a budget of
two sweeps) on a tape that was never reset, the tape has been reset four times at the end
of the run, not once. -/
theorem runFPAdj_recording_counterexample :
    exampleSolver.daOption.adjEqnSolMethod = "fixedPoint" ∧
    1 ≤ exampleSolver.daOption.fpMaxIters ∧
    emptyTape.resets = 0 ∧
    ∃ st, (runFPAdj exampleSolver exampleVec exampleVec emptyTape).loop = some st ∧
      st.tape.resets = 4 := by
  refine ⟨rfl, by decide, rfl, ?_⟩
  rw [runFPAdj_loop exampleSolver exampleVec exampleVec emptyTape rfl
    (exampleIndex_fits 13 (le_refl 13))]
  refine ⟨_, rfl, ?_⟩
  have h := (fpLoop_tape_first exampleSolver
    (vec2FieldsRead exampleSolver.mesh exampleSolver.daIndex exampleVec.array
      (zeroTimes exampleSolver.state))
    (initialState exampleSolver emptyTape) rfl (by decide)).1
  rw [h]
  rfl

/-- C13, amended: in a run of `runFPAdj` with the scheme `fixedPoint`, a budget of at
least one sweep and a vector `dFdW` that holds the layout, the tape is reset and recorded in each of the four calls of
`calcAdjointResidual` of the first sweep, the calls that receive `cnt == 0`: the run
resets the tape four times, its first four calls receive `cnt == 0` and all later calls a
`cnt >= 1`, and the tape ends with the statements recorded in the first sweep. Every call
with `cnt == 0` resets the tape once and records the statements anew; every call with
`cnt >= 1` leaves the tape as it was but for the adjoints, which it clears: it seeds,
evaluates and clears, and neither resets nor records. -/
theorem runFPAdj_recording {α : Type} [LinearOrderedField α] (s : Solver α)
    (dFdW psi : Vec α) (tape : Tape α)
    (hscheme : s.daOption.adjEqnSolMethod = "fixedPoint")
    (hbudget : 1 ≤ s.daOption.fpMaxIters)
    (hdFdW : s.daIndex.fits s.mesh dFdW.size = true) :
    (∃ st rest, (runFPAdj s dFdW psi tape).loop = some st ∧
      st.tape.resets = tape.resets + 4 ∧
      st.tape.statements = s.linkProgram ++ s.residualProgram ∧
      st.calls = [0, 0, 0, 0] ++ rest ∧ ∀ c ∈ rest, 1 ≤ c) ∧
    (∀ (Res dfd Psi adjRes : Blocks α) (t : Tape α),
      (calcAdjointResidual s Res dfd Psi adjRes t 0).tape.resets = t.resets + 1 ∧
      (calcAdjointResidual s Res dfd Psi adjRes t 0).tape.statements
        = s.linkProgram ++ s.residualProgram) ∧
    (∀ (Res dfd Psi adjRes : Blocks α) (t : Tape α) (cnt : Nat), 1 ≤ cnt →
      (calcAdjointResidual s Res dfd Psi adjRes t cnt).tape
        = { t with adjoints := fun _ => 0 }) := by
  refine ⟨?_, ?_, ?_⟩
  · rw [runFPAdj_loop s dFdW psi tape hscheme hdFdW]
    obtain ⟨hr, hs⟩ := fpLoop_tape_first s
      (vec2FieldsRead s.mesh s.daIndex dFdW.array (zeroTimes s.state))
      (initialState s tape) rfl hbudget
    have hlt : (initialState s tape).cnt < s.daOption.fpMaxIters := by
      show 0 < _
      omega
    have hcalls : ∃ rest,
        (fpLoop s (vec2FieldsRead s.mesh s.daIndex dFdW.array (zeroTimes s.state))
          (initialState s tape)).calls = [0, 0, 0, 0] ++ rest ∧ ∀ c ∈ rest, 1 ≤ c := by
      rw [fpLoop_unfold, if_pos hlt, sweep_first_no_break s _ _ rfl]
      simp only [Bool.false_eq_true, if_false]
      have key : ∀ st' : FPState α, st'.cnt = 1 → st'.calls = [0, 0, 0, 0] →
          ∃ rest, (fpLoop s
              (vec2FieldsRead s.mesh s.daIndex dFdW.array (zeroTimes s.state)) st').calls
            = [0, 0, 0, 0] ++ rest ∧ ∀ c ∈ rest, 1 ≤ c := by
        intro st' hc hl
        obtain ⟨rest, h1, h2⟩ := fpLoop_calls_append s
          (vec2FieldsRead s.mesh s.daIndex dFdW.array (zeroTimes s.state)) _ st' rfl
        exact ⟨rest, by rw [h1, hl], fun c hcm => by have := h2 c hcm; omega⟩
      exact key _ (by show (sweep s _ (initialState s tape)).1.cnt + 1 = _; rw [sweep_cnt]; rfl)
        (by show (sweep s _ (initialState s tape)).1.calls = _; rw [sweep_calls]; rfl)
    obtain ⟨rest, hc1, hc2⟩ := hcalls
    refine ⟨_, rest, rfl, ?_, hs, hc1, hc2⟩
    rw [hr]
    show (tape.push s.residualProgram).resets + 4 = _
    rw [push_resets]
  · intro Res dfd Psi adjRes t
    have h := calcAdjointResidual_tape_facts s Res dfd Psi adjRes t 0
    simp only [if_true] at h
    exact ⟨h.1, h.2.1⟩
  · intro Res dfd Psi adjRes t cnt hc
    rw [calcAdjointResidual_tape]
    have hne : ¬ cnt = 0 := by omega
    unfold tapeForCall
    rw [if_neg hne]

/-- The statement of C13 as amended, on `exampleSolver`. -/
theorem runFPAdj_recording_witness :
    exampleSolver.daOption.adjEqnSolMethod = "fixedPoint" ∧
    1 ≤ exampleSolver.daOption.fpMaxIters ∧
    exampleSolver.daIndex.fits exampleSolver.mesh exampleVec.size = true ∧
    (∃ st rest, (runFPAdj exampleSolver exampleVec exampleVec emptyTape).loop = some st ∧
      st.tape.resets = emptyTape.resets + 4 ∧
      st.tape.statements = exampleSolver.linkProgram ++ exampleSolver.residualProgram ∧
      st.calls = [0, 0, 0, 0] ++ rest ∧ ∀ c ∈ rest, 1 ≤ c) ∧
    (∀ (Res dfd Psi adjRes : Blocks ℚ) (t : Tape ℚ),
      (calcAdjointResidual exampleSolver Res dfd Psi adjRes t 0).tape.resets = t.resets + 1 ∧
      (calcAdjointResidual exampleSolver Res dfd Psi adjRes t 0).tape.statements
        = exampleSolver.linkProgram ++ exampleSolver.residualProgram) ∧
    (∀ (Res dfd Psi adjRes : Blocks ℚ) (t : Tape ℚ) (cnt : Nat), 1 ≤ cnt →
      (calcAdjointResidual exampleSolver Res dfd Psi adjRes t cnt).tape
        = { t with adjoints := fun _ => 0 }) :=
  ⟨rfl, by decide, exampleIndex_fits 13 (le_refl 13),
    runFPAdj_recording exampleSolver exampleVec exampleVec emptyTape rfl (by decide)
      (exampleIndex_fits 13 (le_refl 13))⟩

/-! ## The convergence check -/

theorem normalizeNorms_U {α : Type} [LinearOrderedField α] (st : FPState α)
    (n : AdjointNorms α) (comp : Fin 3) :
    (normalizeNorms st n).norm_adjURes comp
      = divide (n.norm_adjURes comp) (st.initNorm_adjURes comp) := rfl

/-- The division of two scalars of the source when the divisor is not zero. -/
theorem divide_of_ne_zero {α : Type} [LinearOrderedField α] (x y : α) (hy : y ≠ 0) :
    divide x y = .finite (x / y) := by
  unfold divide
  rw [if_neg hy]

/-- What it takes for the result of a division to be below a scalar: a divisor that is not
zero and a quotient below the scalar, or a zero divisor and a negative dividend. -/
theorem divide_below_iff {α : Type} [LinearOrderedField α] (x y tol : α) :
    (divide x y).below tol = true ↔ (y ≠ 0 ∧ x / y < tol) ∨ (y = 0 ∧ x < 0) := by
  unfold divide
  by_cases hy : y = 0
  · rw [if_pos hy]
    by_cases hx : 0 < x
    · rw [if_pos hx]
      simp [DivResult.below, hy, not_lt.mpr hx.le]
    · rw [if_neg hx]
      by_cases hx' : x < 0
      · rw [if_pos hx']
        simp [DivResult.below, hy, hx']
      · rw [if_neg hx']
        simp [DivResult.below, hy, hx']
  · rw [if_neg hy]
    simp [DivResult.below, hy]

/-- A norm that is not negative, divided by a baseline that is zero, is not below any
tolerance. -/
theorem divide_zero_not_below {α : Type} [LinearOrderedField α] (x tol : α) (hx : 0 ≤ x) :
    (divide x 0).below tol = false := by
  rw [Bool.eq_false_iff]
  intro h
  rcases (divide_below_iff x 0 tol).mp h with ⟨h0, -⟩ | ⟨-, hneg⟩
  · exact h0 rfl
  · exact absurd hneg (not_lt.mpr hx)

/-- The condition of `break`, component by component. -/
theorem toleranceMet_iff {α : Type} [LinearOrderedField α] (fpRelTol : α)
    (n : NormalizedNorms α) :
    toleranceMet fpRelTol n = true
      ↔ ((n.norm_adjURes 0).below fpRelTol = true ∧ (n.norm_adjURes 1).below fpRelTol = true
        ∧ (n.norm_adjURes 2).below fpRelTol = true ∧ n.norm_adjpRes.below fpRelTol = true
        ∧ n.norm_adjphiRes.below fpRelTol = true
        ∧ n.norm_adjnuTildaRes.below fpRelTol = true) := by
  unfold toleranceMet
  simp only [Bool.and_eq_true, and_assoc]

/-- The surface norm reads the field on the internal faces and on the faces of the patches
of the mesh only. -/
theorem L2normSurface_congr {α : Type} [Field α] (sqrt : α → α) (mesh : fvMesh α)
    (Phi Phi' : surfaceScalarField α)
    (hi : ∀ faceI, faceI < mesh.nInternalFaces →
      Phi'.primitiveField faceI = Phi.primitiveField faceI)
    (hb : ∀ patchI faceI, patchI < mesh.nPatches → faceI < mesh.patchSize patchI →
      Phi'.boundaryField patchI faceI = Phi.boundaryField patchI faceI) :
    L2normSurface sqrt mesh Phi' = L2normSurface sqrt mesh Phi := by
  unfold L2normSurface
  simp only
  have h1 := forAll_congr mesh.nInternalFaces
    (fun cellI L2norm_Phi => L2norm_Phi + sqr (Phi'.primitiveField cellI))
    (fun cellI L2norm_Phi => L2norm_Phi + sqr (Phi.primitiveField cellI)) 0
    (fun i acc h => by simp only [hi i h])
  rw [h1]
  exact congrArg sqrt (forAll_congr mesh.nPatches
    (fun patchI L2norm_Phi =>
      forAll (mesh.patchSize patchI) (fun faceI L2norm_Phi =>
        L2norm_Phi + sqr (Phi'.boundaryField patchI faceI)) L2norm_Phi)
    (fun patchI L2norm_Phi =>
      forAll (mesh.patchSize patchI) (fun faceI L2norm_Phi =>
        L2norm_Phi + sqr (Phi.boundaryField patchI faceI)) L2norm_Phi) _
    (fun patchI acc hp => forAll_congr (mesh.patchSize patchI) _ _ acc
      (fun faceI acc' hf => by simp only [hb patchI faceI hp hf])))

/-- C14, amended: in the sweep entered with `cnt == 1` the six norms of the adjoint
residuals are captured as the baselines and then divided by them, each norm by itself; in
a sweep entered with `cnt >= 2` the baselines stay as they are and the norms are divided by
them; so the division is performed in every sweep with `cnt >= 1`, and in each of them the
statement `break` is reached exactly when the six quotients are below `fpRelTol`. -/
theorem sweep_normalization {α : Type} [LinearOrderedField α] (s : Solver α)
    (dFd : Blocks α) (st : FPState α) :
    (st.cnt = 1 →
      (sweep s dFd st).1.initNorm_adjURes
          = (currentNorms s
              (updateBlocks s dFd { st with sweeps := st.sweeps + 1 })).norm_adjURes ∧
      (sweep s dFd st).1.initNorm_adjpRes
          = (currentNorms s
              (updateBlocks s dFd { st with sweeps := st.sweeps + 1 })).norm_adjpRes ∧
      (sweep s dFd st).1.initNorm_adjphiRes
          = (currentNorms s
              (updateBlocks s dFd { st with sweeps := st.sweeps + 1 })).norm_adjphiRes ∧
      (sweep s dFd st).1.initNorm_adjnuTildaRes
          = (currentNorms s
              (updateBlocks s dFd { st with sweeps := st.sweeps + 1 })).norm_adjnuTildaRes ∧
      (∀ comp,
        (normalizedNorms s
            (updateBlocks s dFd { st with sweeps := st.sweeps + 1 })).norm_adjURes comp
          = divide
            ((currentNorms s
              (updateBlocks s dFd { st with sweeps := st.sweeps + 1 })).norm_adjURes comp)
            ((currentNorms s
              (updateBlocks s dFd { st with sweeps := st.sweeps + 1 })).norm_adjURes comp)) ∧
      (normalizedNorms s
            (updateBlocks s dFd { st with sweeps := st.sweeps + 1 })).norm_adjpRes
          = divide
            ((currentNorms s
              (updateBlocks s dFd { st with sweeps := st.sweeps + 1 })).norm_adjpRes)
            ((currentNorms s
              (updateBlocks s dFd { st with sweeps := st.sweeps + 1 })).norm_adjpRes) ∧
      (normalizedNorms s
            (updateBlocks s dFd { st with sweeps := st.sweeps + 1 })).norm_adjphiRes
          = divide
            ((currentNorms s
              (updateBlocks s dFd { st with sweeps := st.sweeps + 1 })).norm_adjphiRes)
            ((currentNorms s
              (updateBlocks s dFd { st with sweeps := st.sweeps + 1 })).norm_adjphiRes) ∧
      (normalizedNorms s
            (updateBlocks s dFd { st with sweeps := st.sweeps + 1 })).norm_adjnuTildaRes
          = divide
            ((currentNorms s
              (updateBlocks s dFd { st with sweeps := st.sweeps + 1 })).norm_adjnuTildaRes)
            ((currentNorms s
              (updateBlocks s dFd { st with sweeps := st.sweeps + 1 })).norm_adjnuTildaRes)) ∧
    (2 ≤ st.cnt →
      (sweep s dFd st).1.initNorm_adjURes = st.initNorm_adjURes ∧
      (sweep s dFd st).1.initNorm_adjpRes = st.initNorm_adjpRes ∧
      (sweep s dFd st).1.initNorm_adjphiRes = st.initNorm_adjphiRes ∧
      (sweep s dFd st).1.initNorm_adjnuTildaRes = st.initNorm_adjnuTildaRes ∧
      (∀ comp,
        (normalizedNorms s
            (updateBlocks s dFd { st with sweeps := st.sweeps + 1 })).norm_adjURes comp
          = divide
            ((currentNorms s
              (updateBlocks s dFd { st with sweeps := st.sweeps + 1 })).norm_adjURes comp)
            (st.initNorm_adjURes comp)) ∧
      (normalizedNorms s
            (updateBlocks s dFd { st with sweeps := st.sweeps + 1 })).norm_adjpRes
          = divide
            ((currentNorms s
              (updateBlocks s dFd { st with sweeps := st.sweeps + 1 })).norm_adjpRes)
            st.initNorm_adjpRes ∧
      (normalizedNorms s
            (updateBlocks s dFd { st with sweeps := st.sweeps + 1 })).norm_adjphiRes
          = divide
            ((currentNorms s
              (updateBlocks s dFd { st with sweeps := st.sweeps + 1 })).norm_adjphiRes)
            st.initNorm_adjphiRes ∧
      (normalizedNorms s
            (updateBlocks s dFd { st with sweeps := st.sweeps + 1 })).norm_adjnuTildaRes
          = divide
            ((currentNorms s
              (updateBlocks s dFd { st with sweeps := st.sweeps + 1 })).norm_adjnuTildaRes)
            st.initNorm_adjnuTildaRes) ∧
    (1 ≤ st.cnt →
      (sweep s dFd st).2
        = toleranceMet s.daOption.fpRelTol
            (normalizedNorms s (updateBlocks s dFd { st with sweeps := st.sweeps + 1 }))) := by
  refine ⟨?_, ?_, ?_⟩
  · intro h1
    have hc : (updateBlocks s dFd { st with sweeps := st.sweeps + 1 }).cnt ≥ 1 := by
      show st.cnt ≥ 1
      omega
    have hc1 : (updateBlocks s dFd { st with sweeps := st.sweeps + 1 }).cnt = 1 := h1
    unfold sweep convergenceCheck normalizedNorms
    rw [if_pos hc]
    simp only [normalizeNorms_U]
    unfold captureBaselines
    rw [if_pos hc1]
    exact ⟨rfl, rfl, rfl, rfl, fun _ => rfl, rfl, rfl, rfl⟩
  · intro h2
    have hc : (updateBlocks s dFd { st with sweeps := st.sweeps + 1 }).cnt ≥ 1 := by
      show st.cnt ≥ 1
      omega
    have hc1 : ¬ (updateBlocks s dFd { st with sweeps := st.sweeps + 1 }).cnt = 1 := by
      show ¬ st.cnt = 1
      omega
    unfold sweep convergenceCheck normalizedNorms
    rw [if_pos hc]
    simp only [normalizeNorms_U]
    unfold captureBaselines
    rw [if_neg hc1]
    exact ⟨rfl, rfl, rfl, rfl, fun _ => rfl, rfl, rfl, rfl⟩
  · intro h1
    have hc : (updateBlocks s dFd { st with sweeps := st.sweeps + 1 }).cnt ≥ 1 := h1
    unfold sweep convergenceCheck normalizedNorms
    rw [if_pos hc]

/-! ## A run whose tape holds no statement -/

/-- A call on a tape that holds no statement and whose adjoints are zero when it is seeded:
the gradients are zero and the adjoint residual is the negated objective gradient. -/
theorem calcAdjointResidual_adjRes_of_nil {α : Type} [Field α] (s : Solver α)
    (Res dfd Psi adjRes : Blocks α) (tape : Tape α) (cnt : Nat)
    (hst : (tapeForCall s Res tape cnt).2.statements = [])
    (had : (tapeForCall s Res tape cnt).2.adjoints = fun _ => 0) :
    ∀ slot, s.mesh.hasSlot slot = true →
      (calcAdjointResidual s Res dfd Psi adjRes tape cnt).adjRes.component slot
        = - dfd.component slot := by
  intro slot hslot
  show (addGradients s.mesh _ (negBlocks dfd)).component slot = _
  rw [addGradients_component, if_pos hslot, seedResiduals_eq]
  simp only [Tape.evaluate, Tape.getGradient, hst, List.foldr_nil, seedAdjoints, had, add_zero]
  cases slot <;> rfl

theorem tapeForCall_of_nil {α : Type} [Field α] (s : Solver α) (Res : Blocks α)
    (tape : Tape α) (cnt : Nat) (hl : s.linkProgram = []) (hr : s.residualProgram = [])
    (ht : cnt ≠ 0 → tape.statements = [] ∧ tape.adjoints = fun _ => 0) :
    (tapeForCall s Res tape cnt).2.statements = [] ∧
    (tapeForCall s Res tape cnt).2.adjoints = (fun _ => 0) := by
  unfold tapeForCall
  by_cases h : cnt = 0
  · rw [if_pos h]
    refine ⟨?_, recordResiduals_adjoints s Res tape⟩
    rw [recordResiduals_statements, hl, hr]
    rfl
  · rw [if_neg h]
    exact ht h

/-- The adjoint residual after the four block updates of a sweep, for a solver whose
residual evaluation stores no statement, on a tape without statements (or in the first
sweep, which records): the negated objective gradient at every slot of the mesh. -/
theorem updateBlocks_adjRes_of_nil {α : Type} [Field α] (s : Solver α) (dFd : Blocks α)
    (st : FPState α) (hl : s.linkProgram = []) (hr : s.residualProgram = [])
    (ht : st.cnt ≠ 0 → st.tape.statements = []) :
    ∀ slot, s.mesh.hasSlot slot = true →
      (updateBlocks s dFd st).adjRes.component slot = - dFd.component slot := by
  obtain ⟨st1, h1⟩ : ∃ x, x = updateUPsi s dFd st := ⟨_, rfl⟩
  obtain ⟨st2, h2⟩ : ∃ x, x = updatepPsi s dFd st1 := ⟨_, rfl⟩
  obtain ⟨st3, h3⟩ : ∃ x, x = updatephiPsi s dFd st2 := ⟨_, rfl⟩
  have e : (updateBlocks s dFd st).adjRes
      = (calcAdjointResidual s st3.Res dFd st3.Psi st3.adjRes st3.tape st3.cnt).adjRes := by
    rw [h3, h2, h1]; rfl
  have t1 := updateUPsi_tape s dFd st
  have t2 := updatepPsi_tape s dFd st1
  have t3 := updatephiPsi_tape s dFd st2
  rw [← h1] at t1
  rw [← h2] at t2
  rw [← h3] at t3
  have c1 : st1.cnt = st.cnt := t1.2
  have c2 : st2.cnt = st.cnt := t2.2.trans c1
  have c3 : st3.cnt = st.cnt := t3.2.trans c2
  have f1 := calcAdjointResidual_tape_facts s st.Res dFd st.Psi st.adjRes st.tape st.cnt
  have f2 := calcAdjointResidual_tape_facts s st1.Res dFd st1.Psi st1.adjRes st1.tape st1.cnt
  have f3 := calcAdjointResidual_tape_facts s st2.Res dFd st2.Psi st2.adjRes st2.tape st2.cnt
  rw [← t1.1] at f1
  rw [← t2.1, c1] at f2
  rw [← t3.1, c2] at f3
  rw [e]
  have hT := tapeForCall_of_nil s st3.Res st3.tape st3.cnt hl hr (by
    intro hne
    rw [c3] at hne
    refine ⟨?_, f3.2.2⟩
    rw [f3.2.1, if_neg hne, f2.2.1, if_neg hne, f1.2.1, if_neg hne]
    exact ht hne)
  exact calcAdjointResidual_adjRes_of_nil s st3.Res dFd st3.Psi st3.adjRes st3.tape st3.cnt
    hT.1 hT.2

theorem exampleGradient_component :
    (∀ comp, exampleGradient.U 0 comp = -3) ∧ (∀ comp, exampleGradient.U 1 comp = -4) ∧
    exampleGradient.p 0 = -3 ∧ exampleGradient.p 1 = -4 ∧
    exampleGradient.phi.primitiveField 0 = -3 ∧
    exampleGradient.phi.boundaryField 0 0 = -4 ∧ exampleGradient.phi.boundaryField 0 1 = 0 ∧
    exampleGradient.nuTilda 0 = -3 ∧ exampleGradient.nuTilda 1 = -4 := by
  have hU := vec2FieldsRead_U exampleMesh exampleIndex exampleGradientVec.array
    (zeroTimes exampleBlocks)
  have hp := vec2FieldsRead_p exampleMesh exampleIndex exampleGradientVec.array
    (zeroTimes exampleBlocks)
  have hn := vec2FieldsRead_nuTilda exampleMesh exampleIndex exampleGradientVec.array
    (zeroTimes exampleBlocks)
  have hphi := vec2FieldsRead_phi_eq exampleMesh exampleIndex exampleGradientVec.array
    (zeroTimes exampleBlocks)
  refine ⟨?_, ?_, ?_, ?_, ?_, ?_, ?_, ?_, ?_⟩
  · intro comp
    rw [exampleGradient, hU 0 comp (by decide)]
    fin_cases comp <;> simp [DAIndex.indexOf, exampleIndex, exampleGradientVec]
  · intro comp
    rw [exampleGradient, hU 1 comp (by decide)]
    fin_cases comp <;> simp [DAIndex.indexOf, exampleIndex, exampleGradientVec]
  · rw [exampleGradient, hp 0 (by decide)]
    simp [DAIndex.indexOf, exampleIndex, exampleGradientVec]
  · rw [exampleGradient, hp 1 (by decide)]
    simp [DAIndex.indexOf, exampleIndex, exampleGradientVec]
  · rw [exampleGradient, hphi]
    simp [forAll, List.range_succ, exampleMesh, exampleIndex, DAIndex.indexOf, setInternal,
      setBoundary, exampleGradientVec, Function.update_apply]
  · rw [exampleGradient, hphi]
    simp [forAll, List.range_succ, exampleMesh, exampleIndex, DAIndex.indexOf, setInternal,
      setBoundary, exampleGradientVec, Function.update_apply]
  · rw [exampleGradient, hphi]
    simp [forAll, List.range_succ, exampleMesh, exampleIndex, DAIndex.indexOf, setInternal,
      setBoundary, exampleGradientVec, Function.update_apply]
  · rw [exampleGradient, hn 0 (by decide)]
    simp [DAIndex.indexOf, exampleIndex, exampleGradientVec]
  · rw [exampleGradient, hn 1 (by decide)]
    simp [DAIndex.indexOf, exampleIndex, exampleGradientVec]

theorem sqrt_twentyFive : Rat.sqrt 25 = 5 := by
  rw [show (25 : ℚ) = 5 * 5 by norm_num, Rat.sqrt_eq]
  norm_num

theorem L2norm_three_four (v : volScalarField ℚ) (h0 : v 0 = 3) (h1 : v 1 = 4) :
    L2norm Rat.sqrt exampleMesh v = 5 := by
  unfold L2norm
  simp only [forAll, List.range_succ, exampleMesh, sqr, h0, h1, List.range_zero, List.nil_append,
    List.foldl_cons, List.foldl_nil, List.singleton_append]
  norm_num [sqrt_twentyFive]

theorem L2normSurface_three_four (Phi : surfaceScalarField ℚ) (h0 : Phi.primitiveField 0 = 3)
    (hb0 : Phi.boundaryField 0 0 = 4) (hb1 : Phi.boundaryField 0 1 = 0) :
    L2normSurface Rat.sqrt exampleMesh Phi = 5 := by
  unfold L2normSurface
  simp only [forAll, List.range_succ, exampleMesh, sqr, h0, hb0, hb1, List.range_zero,
    List.nil_append, List.foldl_cons, List.foldl_nil, List.singleton_append]
  norm_num [sqrt_twentyFive]

/-! ## A run that leaves the loop in the sweep with `cnt == 1` -/

/-- The sweep entered with `cnt == 1`, spelled out: what it compares with the tolerance and
what it leaves in the baselines. -/
theorem sweep_at_one {α : Type} [LinearOrderedField α] (s : Solver α) (dFd : Blocks α)
    (st : FPState α) (h1 : st.cnt = 1) :
    (sweep s dFd st).2
        = toleranceMet s.daOption.fpRelTol
            (normalizeNorms
              { updateBlocks s dFd { st with sweeps := st.sweeps + 1 } with
                initNorm_adjURes := (currentNorms s
                  (updateBlocks s dFd { st with sweeps := st.sweeps + 1 })).norm_adjURes,
                initNorm_adjpRes := (currentNorms s
                  (updateBlocks s dFd { st with sweeps := st.sweeps + 1 })).norm_adjpRes,
                initNorm_adjphiRes := (currentNorms s
                  (updateBlocks s dFd { st with sweeps := st.sweeps + 1 })).norm_adjphiRes,
                initNorm_adjnuTildaRes := (currentNorms s
                  (updateBlocks s dFd { st with sweeps := st.sweeps + 1 })).norm_adjnuTildaRes }
              (currentNorms s (updateBlocks s dFd { st with sweeps := st.sweeps + 1 }))) ∧
    (sweep s dFd st).1.adjRes
        = (updateBlocks s dFd { st with sweeps := st.sweeps + 1 }).adjRes ∧
    (sweep s dFd st).1.initNorm_adjURes
        = (currentNorms s (updateBlocks s dFd { st with sweeps := st.sweeps + 1 })).norm_adjURes ∧
    (sweep s dFd st).1.initNorm_adjpRes
        = (currentNorms s (updateBlocks s dFd { st with sweeps := st.sweeps + 1 })).norm_adjpRes ∧
    (sweep s dFd st).1.initNorm_adjphiRes
        = (currentNorms s
            (updateBlocks s dFd { st with sweeps := st.sweeps + 1 })).norm_adjphiRes ∧
    (sweep s dFd st).1.initNorm_adjnuTildaRes
        = (currentNorms s
            (updateBlocks s dFd { st with sweeps := st.sweeps + 1 })).norm_adjnuTildaRes := by
  have hc : (updateBlocks s dFd { st with sweeps := st.sweeps + 1 }).cnt ≥ 1 := by
    show st.cnt ≥ 1
    omega
  have hc1 : (updateBlocks s dFd { st with sweeps := st.sweeps + 1 }).cnt = 1 := h1
  unfold sweep convergenceCheck
  rw [if_pos hc]
  dsimp only
  unfold captureBaselines
  rw [if_pos hc1]
  exact ⟨rfl, rfl, rfl, rfl, rfl, rfl⟩

/-- On `exampleLooseSolver` with the gradient `exampleGradient`, after the block updates of
a sweep with `cnt >= 1` on a tape without statements every norm of the adjoint residuals
is 5. -/
theorem exampleLoose_norms (st : FPState ℚ) (ht : st.tape.statements = []) :
    (∀ comp, (currentNorms exampleLooseSolver
        (updateBlocks exampleLooseSolver exampleGradient st)).norm_adjURes comp = 5) ∧
    (currentNorms exampleLooseSolver
        (updateBlocks exampleLooseSolver exampleGradient st)).norm_adjpRes = 5 ∧
    (currentNorms exampleLooseSolver
        (updateBlocks exampleLooseSolver exampleGradient st)).norm_adjphiRes = 5 ∧
    (currentNorms exampleLooseSolver
        (updateBlocks exampleLooseSolver exampleGradient st)).norm_adjnuTildaRes = 5 := by
  have hadj := updateBlocks_adjRes_of_nil exampleLooseSolver exampleGradient st rfl rfl
    (fun _ => ht)
  obtain ⟨gU0, gU1, gp0, gp1, gphi, gb0, gb1, gn0, gn1⟩ := exampleGradient_component
  obtain ⟨st', hst'⟩ : ∃ x, x = updateBlocks exampleLooseSolver exampleGradient st := ⟨_, rfl⟩
  rw [← hst'] at hadj ⊢
  have aU0 : ∀ comp, st'.adjRes.U 0 comp = 3 := fun comp => by
    have h := hadj (Slot.U 0 comp) rfl
    simp only [Blocks.component, gU0 comp, neg_neg] at h
    exact h
  have aU1 : ∀ comp, st'.adjRes.U 1 comp = 4 := fun comp => by
    have h := hadj (Slot.U 1 comp) rfl
    simp only [Blocks.component, gU1 comp, neg_neg] at h
    exact h
  have ap0 : st'.adjRes.p 0 = 3 := by
    have h := hadj (Slot.p 0) (by decide)
    simp only [Blocks.component, gp0, neg_neg] at h
    exact h
  have ap1 : st'.adjRes.p 1 = 4 := by
    have h := hadj (Slot.p 1) (by decide)
    simp only [Blocks.component, gp1, neg_neg] at h
    exact h
  have aphi : st'.adjRes.phi.primitiveField 0 = 3 := by
    have h := hadj (Slot.phi 0) (by decide)
    simp only [Blocks.component, gphi, neg_neg] at h
    exact h
  have ab0 : st'.adjRes.phi.boundaryField 0 0 = 4 := by
    have h := hadj (Slot.phiBoundary 0 0) (by decide)
    simp only [Blocks.component, gb0, neg_neg] at h
    exact h
  have ab1 : st'.adjRes.phi.boundaryField 0 1 = 0 := by
    have h := hadj (Slot.phiBoundary 0 1) (by decide)
    simp only [Blocks.component, gb1, neg_zero] at h
    exact h
  have an0 : st'.adjRes.nuTilda 0 = 3 := by
    have h := hadj (Slot.nuTilda 0) (by decide)
    simp only [Blocks.component, gn0, neg_neg] at h
    exact h
  have an1 : st'.adjRes.nuTilda 1 = 4 := by
    have h := hadj (Slot.nuTilda 1) (by decide)
    simp only [Blocks.component, gn1, neg_neg] at h
    exact h
  refine ⟨fun comp => ?_, ?_, ?_, ?_⟩
  · show L2normVector Rat.sqrt exampleMesh st'.adjRes.U comp = 5
    rw [L2normVector_apply]
    exact L2norm_three_four _ (aU0 comp) (aU1 comp)
  · exact L2norm_three_four _ ap0 ap1
  · exact L2normSurface_three_four _ aphi ab0 ab1
  · exact L2norm_three_four _ an0 an1

/-- On `exampleLooseSolver` with the gradient `exampleGradient`, the sweep entered with
`cnt == 1` on a tape without statements reaches `break`, with every norm equal to 5. -/
theorem exampleLoose_sweep_one (st : FPState ℚ) (h1 : st.cnt = 1)
    (ht : st.tape.statements = []) :
    (sweep exampleLooseSolver exampleGradient st).2 = true ∧
    (∀ comp, (currentNorms exampleLooseSolver
        (sweep exampleLooseSolver exampleGradient st).1).norm_adjURes comp = 5) ∧
    (currentNorms exampleLooseSolver
        (sweep exampleLooseSolver exampleGradient st).1).norm_adjpRes = 5 ∧
    (currentNorms exampleLooseSolver
        (sweep exampleLooseSolver exampleGradient st).1).norm_adjphiRes = 5 ∧
    (currentNorms exampleLooseSolver
        (sweep exampleLooseSolver exampleGradient st).1).norm_adjnuTildaRes = 5 := by
  obtain ⟨hb, hadj, -, -, -, -⟩ := sweep_at_one exampleLooseSolver exampleGradient st h1
  obtain ⟨nU, np, nphi, nn⟩ := exampleLoose_norms { st with sweeps := st.sweeps + 1 } ht
  have e : currentNorms exampleLooseSolver (sweep exampleLooseSolver exampleGradient st).1
      = currentNorms exampleLooseSolver
          (updateBlocks exampleLooseSolver exampleGradient { st with sweeps := st.sweeps + 1 }) := by
    unfold currentNorms
    rw [hadj]
  refine ⟨?_, ?_, ?_, ?_, ?_⟩
  · have h5 : (divide (5 : ℚ) 5).below 2 = true := by
      rw [divide_below_iff]
      exact Or.inl ⟨by norm_num, by norm_num⟩
    rw [hb, toleranceMet_iff]
    simp only [normalizeNorms_U]
    unfold normalizeNorms
    simp only [nU, np, nphi, nn]
    exact ⟨h5, h5, h5, h5, h5, h5⟩
  all_goals rw [e]
  · exact nU
  · exact np
  · exact nphi
  · exact nn

/-- The loop of `exampleLooseSolver` on `exampleGradient` ends in its second sweep. -/
theorem exampleLoose_loop :
    fpLoop exampleLooseSolver exampleGradient (initialState exampleLooseSolver emptyTape)
      = (sweep exampleLooseSolver exampleGradient
          { (sweep exampleLooseSolver exampleGradient
              (initialState exampleLooseSolver emptyTape)).1 with
            cnt := (sweep exampleLooseSolver exampleGradient
              (initialState exampleLooseSolver emptyTape)).1.cnt + 1 }).1 := by
  have hb0 := sweep_first_no_break exampleLooseSolver exampleGradient
    (initialState exampleLooseSolver emptyTape) rfl
  have hc0 := sweep_cnt exampleLooseSolver exampleGradient
    (initialState exampleLooseSolver emptyTape)
  have ht0 := (sweep_tape exampleLooseSolver exampleGradient
    (initialState exampleLooseSolver emptyTape)).2.1
  obtain ⟨S1, hS1⟩ : ∃ x, x = ({ (sweep exampleLooseSolver exampleGradient
      (initialState exampleLooseSolver emptyTape)).1 with
    cnt := (sweep exampleLooseSolver exampleGradient
      (initialState exampleLooseSolver emptyTape)).1.cnt + 1 } : FPState ℚ) := ⟨_, rfl⟩
  have c1 : S1.cnt = 1 := by
    rw [hS1]
    show (sweep exampleLooseSolver exampleGradient
      (initialState exampleLooseSolver emptyTape)).1.cnt + 1 = 1
    rw [hc0]
    rfl
  have t1 : S1.tape.statements = [] := by
    rw [hS1]
    show (sweep exampleLooseSolver exampleGradient
      (initialState exampleLooseSolver emptyTape)).1.tape.statements = []
    rw [ht0]
    rfl
  have hb1 := (exampleLoose_sweep_one S1 c1 t1).1
  have l0 : (initialState exampleLooseSolver emptyTape).cnt
      < exampleLooseSolver.daOption.fpMaxIters := by
    show (0 : ℕ) < 5
    decide
  have l1 : S1.cnt < exampleLooseSolver.daOption.fpMaxIters := by
    rw [c1]
    show (1 : ℕ) < 5
    decide
  rw [fpLoop_unfold, if_pos l0, hb0, if_neg (by decide), ← hS1,
    fpLoop_unfold, if_pos l1, hb1, if_pos rfl]

/-- C14, as stated, fails: the run of `exampleLooseSolver` (tolerance `fpRelTol = 2`, a
budget of five sweeps) on `exampleGradientVec` leaves the loop through `break` in the sweep
with `cnt == 1`, its second sweep, although each of the six norms of the adjoint residuals
is 5 there, not below the tolerance: what the sweep with `cnt == 1` compares with the
tolerance is each norm divided by the baseline just captured, which is 1. -/
theorem runFPAdj_normalization_counterexample :
    exampleLooseSolver.daOption.fpRelTol = 2 ∧
    ∃ st, (runFPAdj exampleLooseSolver exampleGradientVec exampleVec emptyTape).loop = some st ∧
      st.cnt = 1 ∧ st.sweeps = 2 ∧ st.cnt < exampleLooseSolver.daOption.fpMaxIters ∧
      (∀ comp, (currentNorms exampleLooseSolver st).norm_adjURes comp = 5) ∧
      (currentNorms exampleLooseSolver st).norm_adjpRes = 5 ∧
      (currentNorms exampleLooseSolver st).norm_adjphiRes = 5 ∧
      (currentNorms exampleLooseSolver st).norm_adjnuTildaRes = 5 := by
  refine ⟨rfl, ?_⟩
  rw [runFPAdj_loop exampleLooseSolver exampleGradientVec exampleVec emptyTape rfl
    (exampleIndex_fits 13 (le_refl 13))]
  refine ⟨_, rfl, ?_⟩
  have hloop : fpLoop exampleLooseSolver
      (vec2FieldsRead exampleLooseSolver.mesh exampleLooseSolver.daIndex
        exampleGradientVec.array (zeroTimes exampleLooseSolver.state))
      (initialState exampleLooseSolver emptyTape)
      = (sweep exampleLooseSolver exampleGradient
          { (sweep exampleLooseSolver exampleGradient
              (initialState exampleLooseSolver emptyTape)).1 with
            cnt := (sweep exampleLooseSolver exampleGradient
              (initialState exampleLooseSolver emptyTape)).1.cnt + 1 }).1 := exampleLoose_loop
  rw [hloop]
  have hc0 := sweep_cnt exampleLooseSolver exampleGradient
    (initialState exampleLooseSolver emptyTape)
  have hs0 := sweep_sweeps exampleLooseSolver exampleGradient
    (initialState exampleLooseSolver emptyTape)
  have ht0 := (sweep_tape exampleLooseSolver exampleGradient
    (initialState exampleLooseSolver emptyTape)).2.1
  obtain ⟨S1, hS1⟩ : ∃ x, x = ({ (sweep exampleLooseSolver exampleGradient
      (initialState exampleLooseSolver emptyTape)).1 with
    cnt := (sweep exampleLooseSolver exampleGradient
      (initialState exampleLooseSolver emptyTape)).1.cnt + 1 } : FPState ℚ) := ⟨_, rfl⟩
  have c1 : S1.cnt = 1 := by
    rw [hS1]
    show (sweep exampleLooseSolver exampleGradient
      (initialState exampleLooseSolver emptyTape)).1.cnt + 1 = 1
    rw [hc0]
    rfl
  have s1 : S1.sweeps = 1 := by
    rw [hS1]
    show (sweep exampleLooseSolver exampleGradient
      (initialState exampleLooseSolver emptyTape)).1.sweeps = 1
    rw [hs0]
    rfl
  have t1 : S1.tape.statements = [] := by
    rw [hS1]
    show (sweep exampleLooseSolver exampleGradient
      (initialState exampleLooseSolver emptyTape)).1.tape.statements = []
    rw [ht0]
    rfl
  rw [← hS1]
  obtain ⟨-, nU, np, nphi, nn⟩ := exampleLoose_sweep_one S1 c1 t1
  have c2 : (sweep exampleLooseSolver exampleGradient S1).1.cnt = 1 := by
    rw [sweep_cnt, c1]
  have s2 : (sweep exampleLooseSolver exampleGradient S1).1.sweeps = 2 := by
    rw [sweep_sweeps, s1]
  refine ⟨c2, s2, ?_, nU, np, nphi, nn⟩
  rw [c2]
  show (1 : ℕ) < 5
  decide

/-! ## The baselines of the convergence check -/

theorem completedSweep_cnt {α : Type} [LinearOrderedField α] (s : Solver α) (dFd : Blocks α)
    (st : FPState α) : (completedSweep s dFd st).cnt = st.cnt + 1 := by
  show (sweep s dFd st).1.cnt + 1 = st.cnt + 1
  rw [sweep_cnt]

theorem sweepHead_cnt {α : Type} [LinearOrderedField α] (s : Solver α) (dFd : Blocks α)
    (tape : Tape α) (k : Nat) : (sweepHead s dFd tape k).cnt = k := by
  induction k with
  | zero => rfl
  | succ k ih =>
    show (completedSweep s dFd (sweepHead s dFd tape k)).cnt = k + 1
    rw [completedSweep_cnt, ih]

/-- The loop of `runFPAdj`, unfolded once in terms of `completedSweep`. -/
theorem fpLoop_step {α : Type} [LinearOrderedField α] (s : Solver α) (dFd : Blocks α)
    (st : FPState α) :
    fpLoop s dFd st
      = if st.cnt < s.daOption.fpMaxIters then
          if (sweep s dFd st).2 then (sweep s dFd st).1
          else fpLoop s dFd (completedSweep s dFd st)
        else st := fpLoop_unfold s dFd st

/-- The loop started at the head of sweep `j` ends either at a sweep `k` that reaches
`break`, no sweep from `j` to `k` reaching it before, or at the head of the sweep
`fpMaxIters`. -/
theorem fpLoop_from {α : Type} [LinearOrderedField α] (s : Solver α) (dFd : Blocks α)
    (tape : Tape α) :
    ∀ n j, s.daOption.fpMaxIters - j = n → j ≤ s.daOption.fpMaxIters →
      ∃ k, j ≤ k ∧ k ≤ s.daOption.fpMaxIters ∧
        (∀ i, j ≤ i → i < k → (sweep s dFd (sweepHead s dFd tape i)).2 = false) ∧
        ((k < s.daOption.fpMaxIters ∧ (sweep s dFd (sweepHead s dFd tape k)).2 = true ∧
            fpLoop s dFd (sweepHead s dFd tape j) = (sweep s dFd (sweepHead s dFd tape k)).1) ∨
          (k = s.daOption.fpMaxIters ∧
            fpLoop s dFd (sweepHead s dFd tape j) = sweepHead s dFd tape k)) := by
  intro n
  induction n with
  | zero =>
    intro j hn hj
    have hjm : j = s.daOption.fpMaxIters := by omega
    refine ⟨j, le_refl j, hj, fun i h1 h2 => absurd h2 (by omega), Or.inr ⟨hjm, ?_⟩⟩
    rw [fpLoop_step, if_neg]
    rw [sweepHead_cnt]
    omega
  | succ n ih =>
    intro j hn hj
    have hlt : j < s.daOption.fpMaxIters := by omega
    have hc : (sweepHead s dFd tape j).cnt < s.daOption.fpMaxIters := by
      rw [sweepHead_cnt]
      exact hlt
    by_cases hb : (sweep s dFd (sweepHead s dFd tape j)).2 = true
    · refine ⟨j, le_refl j, hj, fun i h1 h2 => absurd h2 (by omega), Or.inl ⟨hlt, hb, ?_⟩⟩
      rw [fpLoop_step, if_pos hc, if_pos hb]
    · have hb' : (sweep s dFd (sweepHead s dFd tape j)).2 = false := by
        simpa using hb
      obtain ⟨k, hjk, hk, hno, hend⟩ := ih (j + 1) (by omega) (by omega)
      have hstep : fpLoop s dFd (sweepHead s dFd tape j)
          = fpLoop s dFd (sweepHead s dFd tape (j + 1)) := by
        rw [fpLoop_step s dFd (sweepHead s dFd tape j), if_pos hc, if_neg hb]
        rfl
      refine ⟨k, by omega, hk, ?_, ?_⟩
      · intro i h1 h2
        by_cases hij : i = j
        · rw [hij]
          exact hb'
        · exact hno i (by omega) h2
      · rw [hstep]
        exact hend

/-- The loop of a run ends either at a sweep `k` that reaches `break`, no sweep reaching
it before, or at the head of the sweep `fpMaxIters`. -/
theorem fpLoop_trace {α : Type} [LinearOrderedField α] (s : Solver α) (dFd : Blocks α)
    (tape : Tape α) :
    ∃ k, k ≤ s.daOption.fpMaxIters ∧
      (∀ i, i < k → (sweep s dFd (sweepHead s dFd tape i)).2 = false) ∧
      ((k < s.daOption.fpMaxIters ∧ (sweep s dFd (sweepHead s dFd tape k)).2 = true ∧
          fpLoop s dFd (initialState s tape) = (sweep s dFd (sweepHead s dFd tape k)).1) ∨
        (k = s.daOption.fpMaxIters ∧
          fpLoop s dFd (initialState s tape) = sweepHead s dFd tape k)) := by
  obtain ⟨k, -, hk, hno, hend⟩ :=
    fpLoop_from s dFd tape (s.daOption.fpMaxIters - 0) 0 rfl (Nat.zero_le _)
  exact ⟨k, hk, fun i hi => hno i (Nat.zero_le _) hi, hend⟩

/-- In a sweep entered with `cnt >= 1` the state after the convergence check is the state
after the block updates with its baselines captured (captured only when `cnt == 1`). -/
theorem sweep_fst_of_pos {α : Type} [LinearOrderedField α] (s : Solver α) (dFd : Blocks α)
    (st : FPState α) (h : 1 ≤ st.cnt) :
    (sweep s dFd st).1
        = captureBaselines (updateBlocks s dFd { st with sweeps := st.sweeps + 1 })
            (currentNorms s (updateBlocks s dFd { st with sweeps := st.sweeps + 1 })) ∧
    (sweep s dFd st).2
        = toleranceMet s.daOption.fpRelTol
            (normalizedNorms s (updateBlocks s dFd { st with sweeps := st.sweeps + 1 })) := by
  have hc : (updateBlocks s dFd { st with sweeps := st.sweeps + 1 }).cnt ≥ 1 := h
  unfold sweep convergenceCheck normalizedNorms
  rw [if_pos hc]
  exact ⟨rfl, rfl⟩

/-- In a sweep entered with `cnt >= 2` the baselines stay as they are. -/
theorem sweep_baselines_later {α : Type} [LinearOrderedField α] (s : Solver α)
    (dFd : Blocks α) (st : FPState α) (h : 2 ≤ st.cnt) :
    (sweep s dFd st).1.initNorm_adjURes = st.initNorm_adjURes ∧
    (sweep s dFd st).1.initNorm_adjpRes = st.initNorm_adjpRes ∧
    (sweep s dFd st).1.initNorm_adjphiRes = st.initNorm_adjphiRes ∧
    (sweep s dFd st).1.initNorm_adjnuTildaRes = st.initNorm_adjnuTildaRes := by
  have hc1 : ¬ (updateBlocks s dFd { st with sweeps := st.sweeps + 1 }).cnt = 1 := by
    show ¬ st.cnt = 1
    omega
  rw [(sweep_fst_of_pos s dFd st (by omega)).1]
  unfold captureBaselines
  rw [if_neg hc1]
  exact ⟨rfl, rfl, rfl, rfl⟩

/-- After the convergence check of every sweep that follows at least one completed sweep,
the baselines are the norms captured in the sweep with `cnt == 1`. -/
theorem sweepHead_baselines {α : Type} [LinearOrderedField α] (s : Solver α)
    (dFd : Blocks α) (tape : Tape α) (k : Nat) (hk : 1 ≤ k) :
    (sweep s dFd (sweepHead s dFd tape k)).1.initNorm_adjURes
        = (currentNorms s (beforeCheck s dFd tape 1)).norm_adjURes ∧
    (sweep s dFd (sweepHead s dFd tape k)).1.initNorm_adjpRes
        = (currentNorms s (beforeCheck s dFd tape 1)).norm_adjpRes ∧
    (sweep s dFd (sweepHead s dFd tape k)).1.initNorm_adjphiRes
        = (currentNorms s (beforeCheck s dFd tape 1)).norm_adjphiRes ∧
    (sweep s dFd (sweepHead s dFd tape k)).1.initNorm_adjnuTildaRes
        = (currentNorms s (beforeCheck s dFd tape 1)).norm_adjnuTildaRes := by
  induction k with
  | zero => omega
  | succ k ih =>
    by_cases hk0 : k = 0
    · subst hk0
      obtain ⟨-, -, hU, hp, hphi, hn⟩ :=
        sweep_at_one s dFd (sweepHead s dFd tape (0 + 1)) (sweepHead_cnt s dFd tape (0 + 1))
      exact ⟨hU, hp, hphi, hn⟩
    · obtain ⟨iU, ip, iphi, inu⟩ := ih (by omega)
      obtain ⟨hU, hp, hphi, hn⟩ := sweep_baselines_later s dFd (sweepHead s dFd tape (k + 1))
        (by rw [sweepHead_cnt]; omega)
      rw [hU, hp, hphi, hn]
      exact ⟨iU, ip, iphi, inu⟩

/-- The quotients that the convergence check compares with the tolerance are the current
norms over the baselines that the check leaves in the state. -/
theorem normalizedNorms_eq {α : Type} [LinearOrderedField α] (s : Solver α) (dFd : Blocks α)
    (st : FPState α) (h : 1 ≤ st.cnt) :
    (∀ comp,
      (normalizedNorms s (updateBlocks s dFd { st with sweeps := st.sweeps + 1 })).norm_adjURes comp
        = divide ((currentNorms s (updateBlocks s dFd { st with sweeps := st.sweeps + 1 })).norm_adjURes comp)
            ((sweep s dFd st).1.initNorm_adjURes comp)) ∧
    (normalizedNorms s (updateBlocks s dFd { st with sweeps := st.sweeps + 1 })).norm_adjpRes
        = divide (currentNorms s (updateBlocks s dFd { st with sweeps := st.sweeps + 1 })).norm_adjpRes
            (sweep s dFd st).1.initNorm_adjpRes ∧
    (normalizedNorms s (updateBlocks s dFd { st with sweeps := st.sweeps + 1 })).norm_adjphiRes
        = divide (currentNorms s (updateBlocks s dFd { st with sweeps := st.sweeps + 1 })).norm_adjphiRes
            (sweep s dFd st).1.initNorm_adjphiRes ∧
    (normalizedNorms s (updateBlocks s dFd { st with sweeps := st.sweeps + 1 })).norm_adjnuTildaRes
        = divide (currentNorms s (updateBlocks s dFd { st with sweeps := st.sweeps + 1 })).norm_adjnuTildaRes
            (sweep s dFd st).1.initNorm_adjnuTildaRes := by
  rw [(sweep_fst_of_pos s dFd st h).1]
  exact ⟨fun _ => rfl, rfl, rfl, rfl⟩

/-- C17: in a run of `runFPAdj` with the scheme `fixedPoint` on a vector `dFdW` that holds
the layout, `cnt` starts at 0, is left as it is by `calcAdjointResidual`, and is `k` at the
head of the loop after `k` completed sweeps (one more per completed sweep); in every sweep
that follows at least one completed sweep (the sweeps with `cnt >= 1`, the ones whose
convergence check divides) the baselines that the check leaves behind are the norms
captured in the sweep with `cnt == 1`, each of the six quotients is the division of the
current norm by the norm captured in the sweep with `cnt == 1`, and `break` is decided on
these quotients; and the run ends in one of these sweeps `k` (no earlier sweep having
reached `break`) or at the head of the loop after `fpMaxIters` completed sweeps. -/
theorem runFPAdj_baselines {α : Type} [LinearOrderedField α] (s : Solver α)
    (dFdW psi : Vec α) (tape : Tape α)
    (hscheme : s.daOption.adjEqnSolMethod = "fixedPoint")
    (hdFdW : s.daIndex.fits s.mesh dFdW.size = true) :
    (initialState s tape).cnt = 0 ∧
    (∀ (Res dfd Psi adjRes : Blocks α) (t : Tape α) (cnt : Nat),
      (calcAdjointResidual s Res dfd Psi adjRes t cnt).cnt = cnt) ∧
    (∀ st, (completedSweep s (vec2FieldsRead s.mesh s.daIndex dFdW.array (zeroTimes s.state))
      st).cnt = st.cnt + 1) ∧
    (∀ k, (sweepHead s
            (vec2FieldsRead s.mesh s.daIndex dFdW.array (zeroTimes s.state)) tape k).cnt = k) ∧
    (∀ k, 1 ≤ k →
      (sweep s (vec2FieldsRead s.mesh s.daIndex dFdW.array (zeroTimes s.state))
          (sweepHead s
            (vec2FieldsRead s.mesh s.daIndex dFdW.array (zeroTimes s.state)) tape k)).1.initNorm_adjURes
        = (currentNorms s (beforeCheck s
            (vec2FieldsRead s.mesh s.daIndex dFdW.array (zeroTimes s.state)) tape 1)).norm_adjURes ∧
      (sweep s (vec2FieldsRead s.mesh s.daIndex dFdW.array (zeroTimes s.state))
          (sweepHead s
            (vec2FieldsRead s.mesh s.daIndex dFdW.array (zeroTimes s.state)) tape k)).1.initNorm_adjpRes
        = (currentNorms s (beforeCheck s
            (vec2FieldsRead s.mesh s.daIndex dFdW.array (zeroTimes s.state)) tape 1)).norm_adjpRes ∧
      (sweep s (vec2FieldsRead s.mesh s.daIndex dFdW.array (zeroTimes s.state))
          (sweepHead s
            (vec2FieldsRead s.mesh s.daIndex dFdW.array (zeroTimes s.state)) tape k)).1.initNorm_adjphiRes
        = (currentNorms s (beforeCheck s
            (vec2FieldsRead s.mesh s.daIndex dFdW.array (zeroTimes s.state)) tape 1)).norm_adjphiRes ∧
      (sweep s (vec2FieldsRead s.mesh s.daIndex dFdW.array (zeroTimes s.state))
          (sweepHead s
            (vec2FieldsRead s.mesh s.daIndex dFdW.array (zeroTimes s.state)) tape k)).1.initNorm_adjnuTildaRes
        = (currentNorms s (beforeCheck s
            (vec2FieldsRead s.mesh s.daIndex dFdW.array (zeroTimes s.state)) tape 1)).norm_adjnuTildaRes ∧
      (∀ comp,
        (normalizedNorms s (beforeCheck s
            (vec2FieldsRead s.mesh s.daIndex dFdW.array (zeroTimes s.state)) tape k)).norm_adjURes comp
          = divide
            ((currentNorms s (beforeCheck s
            (vec2FieldsRead s.mesh s.daIndex dFdW.array (zeroTimes s.state)) tape k)).norm_adjURes comp)
            ((currentNorms s (beforeCheck s
            (vec2FieldsRead s.mesh s.daIndex dFdW.array (zeroTimes s.state)) tape 1)).norm_adjURes comp)) ∧
      (normalizedNorms s (beforeCheck s
            (vec2FieldsRead s.mesh s.daIndex dFdW.array (zeroTimes s.state)) tape k)).norm_adjpRes
        = divide
            (currentNorms s (beforeCheck s
            (vec2FieldsRead s.mesh s.daIndex dFdW.array (zeroTimes s.state)) tape k)).norm_adjpRes
            (currentNorms s (beforeCheck s
            (vec2FieldsRead s.mesh s.daIndex dFdW.array (zeroTimes s.state)) tape 1)).norm_adjpRes ∧
      (normalizedNorms s (beforeCheck s
            (vec2FieldsRead s.mesh s.daIndex dFdW.array (zeroTimes s.state)) tape k)).norm_adjphiRes
        = divide
            (currentNorms s (beforeCheck s
            (vec2FieldsRead s.mesh s.daIndex dFdW.array (zeroTimes s.state)) tape k)).norm_adjphiRes
            (currentNorms s (beforeCheck s
            (vec2FieldsRead s.mesh s.daIndex dFdW.array (zeroTimes s.state)) tape 1)).norm_adjphiRes ∧
      (normalizedNorms s (beforeCheck s
            (vec2FieldsRead s.mesh s.daIndex dFdW.array (zeroTimes s.state)) tape k)).norm_adjnuTildaRes
        = divide
            (currentNorms s (beforeCheck s
            (vec2FieldsRead s.mesh s.daIndex dFdW.array (zeroTimes s.state)) tape k)).norm_adjnuTildaRes
            (currentNorms s (beforeCheck s
            (vec2FieldsRead s.mesh s.daIndex dFdW.array (zeroTimes s.state)) tape 1)).norm_adjnuTildaRes ∧
      (sweep s (vec2FieldsRead s.mesh s.daIndex dFdW.array (zeroTimes s.state))
          (sweepHead s
            (vec2FieldsRead s.mesh s.daIndex dFdW.array (zeroTimes s.state)) tape k)).2
        = toleranceMet s.daOption.fpRelTol
            (normalizedNorms s (beforeCheck s
            (vec2FieldsRead s.mesh s.daIndex dFdW.array (zeroTimes s.state)) tape k))) ∧
    (∃ k, k ≤ s.daOption.fpMaxIters ∧
      (∀ i, i < k →
        (sweep s (vec2FieldsRead s.mesh s.daIndex dFdW.array (zeroTimes s.state))
          (sweepHead s
            (vec2FieldsRead s.mesh s.daIndex dFdW.array (zeroTimes s.state)) tape i)).2 = false) ∧
      ((k < s.daOption.fpMaxIters ∧
          (sweep s (vec2FieldsRead s.mesh s.daIndex dFdW.array (zeroTimes s.state))
          (sweepHead s
            (vec2FieldsRead s.mesh s.daIndex dFdW.array (zeroTimes s.state)) tape k)).2 = true ∧
          (runFPAdj s dFdW psi tape).loop
            = some (sweep s (vec2FieldsRead s.mesh s.daIndex dFdW.array (zeroTimes s.state))
          (sweepHead s
            (vec2FieldsRead s.mesh s.daIndex dFdW.array (zeroTimes s.state)) tape k)).1) ∨
        (k = s.daOption.fpMaxIters ∧
          (runFPAdj s dFdW psi tape).loop
            = some (sweepHead s
            (vec2FieldsRead s.mesh s.daIndex dFdW.array (zeroTimes s.state)) tape k)))) := by
  obtain ⟨dFd, hdFd⟩ : ∃ x, x = vec2FieldsRead s.mesh s.daIndex dFdW.array (zeroTimes s.state) :=
    ⟨_, rfl⟩
  rw [runFPAdj_loop s dFdW psi tape hscheme hdFdW, ← hdFd]
  refine ⟨rfl, fun _ _ _ _ _ _ => rfl, completedSweep_cnt s dFd, sweepHead_cnt s dFd tape,
    ?_, ?_⟩
  · intro k hk
    have hc : 1 ≤ (sweepHead s dFd tape k).cnt := by
      rw [sweepHead_cnt]
      exact hk
    obtain ⟨bU, bp, bphi, bn⟩ := sweepHead_baselines s dFd tape k hk
    obtain ⟨qU, qp, qphi, qn⟩ := normalizedNorms_eq s dFd (sweepHead s dFd tape k) hc
    rw [bp] at qp
    rw [bphi] at qphi
    rw [bn] at qn
    refine ⟨bU, bp, bphi, bn, fun comp => ?_, qp, qphi, qn,
      (sweep_fst_of_pos s dFd (sweepHead s dFd tape k) hc).2⟩
    have h := qU comp
    rw [bU] at h
    exact h
  · obtain ⟨k, hk, hno, hend⟩ := fpLoop_trace s dFd tape
    refine ⟨k, hk, hno, ?_⟩
    rcases hend with ⟨h1, h2, h3⟩ | ⟨h1, h2⟩
    · exact Or.inl ⟨h1, h2, by rw [h3]⟩
    · exact Or.inr ⟨h1, by rw [h2]⟩

/-! ## The four block updates of a sweep -/

/-- The block `U`: the residuals are recomputed from the current `Psi`, the block `U` of
`Psi` is corrected in the cells of the mesh, the other blocks are left as they are. -/
theorem updateUPsi_Psi {α : Type} [Field α] (s : Solver α) (dFd : Blocks α)
    (st : FPState α) :
    (updateUPsi s dFd st).Psi.U
        = (fun cellI => if cellI < s.mesh.nCells then
            fun comp => st.Psi.U cellI comp - s.daOption.relaxU *
              invTranProdUEqn s
                (calcAdjointResidual s st.Res dFd st.Psi st.adjRes st.tape st.cnt).adjRes.U
                st.pseudo_U cellI comp
          else st.Psi.U cellI) ∧
    (updateUPsi s dFd st).Psi.p = st.Psi.p ∧
    (updateUPsi s dFd st).Psi.phi = st.Psi.phi ∧
    (updateUPsi s dFd st).Psi.nuTilda = st.Psi.nuTilda ∧
    (updateUPsi s dFd st).pseudo_p = st.pseudo_p ∧
    (updateUPsi s dFd st).pseudo_nuTilda = st.pseudo_nuTilda := by
  refine ⟨?_, rfl, rfl, rfl, rfl, rfl⟩
  exact forAll_pointwise s.mesh.nCells
    (fun cellI (v : vector α) => fun comp => v comp - s.daOption.relaxU *
      invTranProdUEqn s
        (calcAdjointResidual s st.Res dFd st.Psi st.adjRes st.tape st.cnt).adjRes.U
        st.pseudo_U cellI comp) st.Psi.U

/-- The block `p`. -/
theorem updatepPsi_Psi {α : Type} [Field α] (s : Solver α) (dFd : Blocks α)
    (st : FPState α) :
    (updatepPsi s dFd st).Psi.p
        = (fun cellI => if cellI < s.mesh.nCells then
            st.Psi.p cellI - s.daOption.relaxP *
              invTranProdPEqn s
                (calcAdjointResidual s st.Res dFd st.Psi st.adjRes st.tape st.cnt).adjRes.p
                st.pseudo_p cellI
          else st.Psi.p cellI) ∧
    (updatepPsi s dFd st).Psi.U = st.Psi.U ∧
    (updatepPsi s dFd st).Psi.phi = st.Psi.phi ∧
    (updatepPsi s dFd st).Psi.nuTilda = st.Psi.nuTilda ∧
    (updatepPsi s dFd st).pseudo_nuTilda = st.pseudo_nuTilda := by
  refine ⟨?_, rfl, rfl, rfl, rfl⟩
  exact forAll_pointwise s.mesh.nCells
    (fun cellI v => v - s.daOption.relaxP *
      invTranProdPEqn s
        (calcAdjointResidual s st.Res dFd st.Psi st.adjRes st.tape st.cnt).adjRes.p
        st.pseudo_p cellI) st.Psi.p

/-- The block `phi`: no linear solve, the residual itself is added, on the internal faces
and on the faces of the patches. -/
theorem updatephiPsi_Psi {α : Type} [Field α] (s : Solver α) (dFd : Blocks α)
    (st : FPState α) :
    (updatephiPsi s dFd st).Psi.phi
        = { primitiveField := fun faceI =>
              if faceI < s.mesh.nInternalFaces then
                st.Psi.phi.primitiveField faceI + s.daOption.relaxPhi *
                  (calcAdjointResidual s st.Res dFd st.Psi st.adjRes st.tape
                    st.cnt).adjRes.phi.primitiveField faceI
              else st.Psi.phi.primitiveField faceI,
            boundaryField := fun patchI faceI =>
              if patchI < s.mesh.nPatches ∧ faceI < s.mesh.patchSize patchI then
                st.Psi.phi.boundaryField patchI faceI + s.daOption.relaxPhi *
                  (calcAdjointResidual s st.Res dFd st.Psi st.adjRes st.tape
                    st.cnt).adjRes.phi.boundaryField patchI faceI
              else st.Psi.phi.boundaryField patchI faceI } ∧
    (updatephiPsi s dFd st).Psi.U = st.Psi.U ∧
    (updatephiPsi s dFd st).Psi.p = st.Psi.p ∧
    (updatephiPsi s dFd st).Psi.nuTilda = st.Psi.nuTilda ∧
    (updatephiPsi s dFd st).pseudo_nuTilda = st.pseudo_nuTilda := by
  refine ⟨?_, rfl, rfl, rfl, rfl⟩
  have h1 := forAll_setInternal s.mesh.nInternalFaces
    (fun faceI v => v + s.daOption.relaxPhi *
      (calcAdjointResidual s st.Res dFd st.Psi st.adjRes st.tape
        st.cnt).adjRes.phi.primitiveField faceI) st.Psi.phi
  have h2 := forAll_patches_setBoundary s.mesh.nPatches s.mesh.patchSize
    (fun patchI faceI v => v + s.daOption.relaxPhi *
      (calcAdjointResidual s st.Res dFd st.Psi st.adjRes st.tape
        st.cnt).adjRes.phi.boundaryField patchI faceI)
    (forAll s.mesh.nInternalFaces (fun faceI phiPsi =>
      setInternal phiPsi faceI
        (phiPsi.primitiveField faceI + s.daOption.relaxPhi *
          (calcAdjointResidual s st.Res dFd st.Psi st.adjRes st.tape
            st.cnt).adjRes.phi.primitiveField faceI)) st.Psi.phi)
  refine h2.trans ?_
  rw [h1]

/-- The block `nuTilda`. -/
theorem updatenuTildaPsi_Psi {α : Type} [Field α] (s : Solver α) (dFd : Blocks α)
    (st : FPState α) :
    (updatenuTildaPsi s dFd st).Psi.nuTilda
        = (fun cellI => if cellI < s.mesh.nCells then
            st.Psi.nuTilda cellI - s.daOption.relaxNuTilda *
              s.daTurbulenceModel.invTranProdNuTildaEqn
                (calcAdjointResidual s st.Res dFd st.Psi st.adjRes st.tape
                  st.cnt).adjRes.nuTilda
                st.pseudo_nuTilda cellI
          else st.Psi.nuTilda cellI) ∧
    (updatenuTildaPsi s dFd st).Psi.U = st.Psi.U ∧
    (updatenuTildaPsi s dFd st).Psi.p = st.Psi.p ∧
    (updatenuTildaPsi s dFd st).Psi.phi = st.Psi.phi := by
  refine ⟨?_, rfl, rfl, rfl⟩
  exact forAll_pointwise s.mesh.nCells
    (fun cellI v => v - s.daOption.relaxNuTilda *
      s.daTurbulenceModel.invTranProdNuTildaEqn
        (calcAdjointResidual s st.Res dFd st.Psi st.adjRes st.tape st.cnt).adjRes.nuTilda
        st.pseudo_nuTilda cellI) st.Psi.nuTilda

/-- C12: the four block updates of one sweep run in the order `U`, `p`, `phi`, `nuTilda`,
and each of them calls `calcAdjointResidual` on the `Psi` blocks as the updates before it
in the same sweep left them: `UPsi` is corrected in every cell by `relaxU` times the
solution of the transposed momentum system for `adjURes` of the old blocks; `pPsi` by
`relaxP` times the solution of the transposed pressure system for `adjpRes` of the blocks
with the new `UPsi`; `phiPsi` gets `relaxPhi` times `adjphiRes` of the blocks with the new
`UPsi` and `pPsi` added on every internal face and every face of a patch; `nuTildaPsi` is
corrected by `relaxNuTilda` times the turbulence model's transposed solve for
`adjnuTildaRes` of the blocks with the new `UPsi`, `pPsi` and `phiPsi`; a block is not
touched again after its update. -/
theorem updateBlocks_gaussSeidel {α : Type} [Field α] (s : Solver α) (dFd : Blocks α)
    (st : FPState α) :
    updateBlocks s dFd st
      = updatenuTildaPsi s dFd (updatephiPsi s dFd (updatepPsi s dFd (updateUPsi s dFd st))) ∧
    (∀ cellI, cellI < s.mesh.nCells → ∀ comp,
      (updateUPsi s dFd st).Psi.U cellI comp
        = st.Psi.U cellI comp - s.daOption.relaxU *
            invTranProdUEqn s
              (calcAdjointResidual s st.Res dFd st.Psi st.adjRes st.tape st.cnt).adjRes.U
              st.pseudo_U cellI comp) ∧
    (∀ cellI, cellI < s.mesh.nCells →
      (updatepPsi s dFd (updateUPsi s dFd st)).Psi.p cellI
        = st.Psi.p cellI - s.daOption.relaxP *
            invTranProdPEqn s
              (calcAdjointResidual s (updateUPsi s dFd st).Res dFd
                { U := (updateUPsi s dFd st).Psi.U, p := st.Psi.p, phi := st.Psi.phi,
                  nuTilda := st.Psi.nuTilda }
                (updateUPsi s dFd st).adjRes (updateUPsi s dFd st).tape st.cnt).adjRes.p
              st.pseudo_p cellI) ∧
    (∀ faceI, faceI < s.mesh.nInternalFaces →
      (updatephiPsi s dFd (updatepPsi s dFd (updateUPsi s dFd st))).Psi.phi.primitiveField faceI
        = st.Psi.phi.primitiveField faceI + s.daOption.relaxPhi *
            (calcAdjointResidual s (updatepPsi s dFd (updateUPsi s dFd st)).Res dFd
              { U := (updateUPsi s dFd st).Psi.U,
                p := (updatepPsi s dFd (updateUPsi s dFd st)).Psi.p,
                phi := st.Psi.phi, nuTilda := st.Psi.nuTilda }
              (updatepPsi s dFd (updateUPsi s dFd st)).adjRes
              (updatepPsi s dFd (updateUPsi s dFd st)).tape
              st.cnt).adjRes.phi.primitiveField faceI) ∧
    (∀ patchI, patchI < s.mesh.nPatches → ∀ faceI, faceI < s.mesh.patchSize patchI →
      (updatephiPsi s dFd
          (updatepPsi s dFd (updateUPsi s dFd st))).Psi.phi.boundaryField patchI faceI
        = st.Psi.phi.boundaryField patchI faceI + s.daOption.relaxPhi *
            (calcAdjointResidual s (updatepPsi s dFd (updateUPsi s dFd st)).Res dFd
              { U := (updateUPsi s dFd st).Psi.U,
                p := (updatepPsi s dFd (updateUPsi s dFd st)).Psi.p,
                phi := st.Psi.phi, nuTilda := st.Psi.nuTilda }
              (updatepPsi s dFd (updateUPsi s dFd st)).adjRes
              (updatepPsi s dFd (updateUPsi s dFd st)).tape
              st.cnt).adjRes.phi.boundaryField patchI faceI) ∧
    (∀ cellI, cellI < s.mesh.nCells →
      (updateBlocks s dFd st).Psi.nuTilda cellI
        = st.Psi.nuTilda cellI - s.daOption.relaxNuTilda *
            s.daTurbulenceModel.invTranProdNuTildaEqn
              (calcAdjointResidual s
                (updatephiPsi s dFd (updatepPsi s dFd (updateUPsi s dFd st))).Res dFd
                { U := (updateUPsi s dFd st).Psi.U,
                  p := (updatepPsi s dFd (updateUPsi s dFd st)).Psi.p,
                  phi := (updatephiPsi s dFd (updatepPsi s dFd (updateUPsi s dFd st))).Psi.phi,
                  nuTilda := st.Psi.nuTilda }
                (updatephiPsi s dFd (updatepPsi s dFd (updateUPsi s dFd st))).adjRes
                (updatephiPsi s dFd (updatepPsi s dFd (updateUPsi s dFd st))).tape
                st.cnt).adjRes.nuTilda
              st.pseudo_nuTilda cellI) ∧
    (updateBlocks s dFd st).Psi.U = (updateUPsi s dFd st).Psi.U ∧
    (updateBlocks s dFd st).Psi.p = (updatepPsi s dFd (updateUPsi s dFd st)).Psi.p ∧
    (updateBlocks s dFd st).Psi.phi
      = (updatephiPsi s dFd (updatepPsi s dFd (updateUPsi s dFd st))).Psi.phi := by
  obtain ⟨aU, ap, aphi, an, app, apn⟩ := updateUPsi_Psi s dFd st
  have ac : (updateUPsi s dFd st).cnt = st.cnt := rfl
  obtain ⟨A, hA⟩ : ∃ x, x = updateUPsi s dFd st := ⟨_, rfl⟩
  rw [← hA] at aU ap aphi an app apn ac ⊢
  obtain ⟨bp, bU, bphi, bn, bpn⟩ := updatepPsi_Psi s dFd A
  have bc : (updatepPsi s dFd A).cnt = A.cnt := rfl
  obtain ⟨B, hB⟩ : ∃ x, x = updatepPsi s dFd A := ⟨_, rfl⟩
  rw [← hB] at bp bU bphi bn bpn bc ⊢
  obtain ⟨cphi, cU, cp, cn, cpn⟩ := updatephiPsi_Psi s dFd B
  have cc : (updatephiPsi s dFd B).cnt = B.cnt := rfl
  obtain ⟨C, hC⟩ : ∃ x, x = updatephiPsi s dFd B := ⟨_, rfl⟩
  rw [← hC] at cphi cU cp cn cpn cc ⊢
  obtain ⟨dn, dU, dp, dphi⟩ := updatenuTildaPsi_Psi s dFd C
  have hD : updateBlocks s dFd st = updatenuTildaPsi s dFd C := by
    rw [hC, hB, hA]
    rfl
  have eA : ({ U := A.Psi.U, p := st.Psi.p, phi := st.Psi.phi, nuTilda := st.Psi.nuTilda }
      : Blocks α) = A.Psi := by
    rw [← ap, ← aphi, ← an]
  have eB : ({ U := A.Psi.U, p := B.Psi.p, phi := st.Psi.phi, nuTilda := st.Psi.nuTilda }
      : Blocks α) = B.Psi := by
    rw [← bU, ← aphi, ← an, ← bphi, ← bn]
  have eC : ({ U := A.Psi.U, p := B.Psi.p, phi := C.Psi.phi, nuTilda := st.Psi.nuTilda }
      : Blocks α) = C.Psi := by
    rw [← bU, ← cU, ← cp, ← an, ← bn, ← cn]
  rw [ac] at bp
  rw [bc, ac] at cphi
  rw [cc, bc, ac] at dn
  rw [eA, eB, eC, hD]
  refine ⟨rfl, ?_, ?_, ?_, ?_, ?_, ?_, ?_, ?_⟩
  · intro cellI hc comp
    have h := congrFun aU cellI
    simp only [if_pos hc] at h
    rw [h]
  · intro cellI hc
    have h := congrFun bp cellI
    simp only [if_pos hc] at h
    rw [h, ap, app]
  · intro faceI hf
    have h : C.Psi.phi.primitiveField faceI = _ :=
      congrFun (congrArg (fun F => F.primitiveField) cphi) faceI
    simp only [if_pos hf] at h
    rw [h, bphi, aphi]
  · intro patchI hp faceI hf
    have h : C.Psi.phi.boundaryField patchI faceI = _ :=
      congrFun (congrFun (congrArg (fun F => F.boundaryField) cphi) patchI) faceI
    simp only [hp, hf, and_self, if_true] at h
    rw [h, bphi, aphi]
  · intro cellI hc
    have h := congrFun dn cellI
    simp only [if_pos hc] at h
    rw [h, cn, bn, an, cpn, bpn, apn]
  · rw [dU, cU, bU]
  · rw [dp, cp]
  · rw [dphi]

/-! ## The swap of the lower and upper coefficients -/

theorem forAll_coeffs {α τ : Type} (n : Nat)
    (body : Nat → fvMatrix α τ → fvMatrix α τ) (eqn : fvMatrix α τ)
    (h : ∀ i e, (body i e).lower = e.lower ∧ (body i e).upper = e.upper
      ∧ (body i e).diag = e.diag ∧ (body i e).internalCoeffs = e.internalCoeffs) :
    (forAll n body eqn).lower = eqn.lower ∧ (forAll n body eqn).upper = eqn.upper
      ∧ (forAll n body eqn).diag = eqn.diag
      ∧ (forAll n body eqn).internalCoeffs = eqn.internalCoeffs :=
  forAll_induction (fun e => e.lower = eqn.lower ∧ e.upper = eqn.upper
      ∧ e.diag = eqn.diag ∧ e.internalCoeffs = eqn.internalCoeffs) n body eqn
    ⟨rfl, rfl, rfl, rfl⟩
    (fun i acc _ hacc => ⟨(h i acc).1.trans hacc.1, (h i acc).2.1.trans hacc.2.1,
      (h i acc).2.2.1.trans hacc.2.2.1, (h i acc).2.2.2.trans hacc.2.2.2⟩)

/-- The loop over the boundary faces writes the source only. -/
theorem subtractBoundarySource_coeffs {α τ : Type} [Sub τ] (mesh : fvMesh α)
    (eqn : fvMatrix α τ) :
    (subtractBoundarySource mesh eqn).lower = eqn.lower ∧
    (subtractBoundarySource mesh eqn).upper = eqn.upper ∧
    (subtractBoundarySource mesh eqn).diag = eqn.diag ∧
    (subtractBoundarySource mesh eqn).internalCoeffs = eqn.internalCoeffs := by
  unfold subtractBoundarySource
  exact forAll_coeffs _ _ _
    (fun _ _ => forAll_coeffs _ _ _ (fun _ _ => ⟨rfl, rfl, rfl, rfl⟩))

/-- The entries of the coefficient matrix depend on the arrays `lower`, `upper` and `diag`
only. -/
theorem entry_congr {α τ τ' : Type} [Field α] (eqn : fvMatrix α τ) (eqn' : fvMatrix α τ')
    (mesh : fvMesh α) (addr : lduAddressing) (hl : eqn'.lower = eqn.lower)
    (hu : eqn'.upper = eqn.upper) (hd : eqn'.diag = eqn.diag) (i j : Nat) :
    eqn'.entry mesh addr i j = eqn.entry mesh addr i j := by
  unfold fvMatrix.entry
  rw [hl, hu, hd]

theorem entry_swapUpperLower {α τ : Type} [Field α] (eqn : fvMatrix α τ) (mesh : fvMesh α)
    (addr : lduAddressing) (i j : Nat) :
    (swapUpperLower eqn).entry mesh addr i j = eqn.entry mesh addr j i := by
  unfold fvMatrix.entry
  have hd : (if i = j then (swapUpperLower eqn).diag i else 0)
      = (if j = i then eqn.diag j else 0) := by
    by_cases h : i = j
    · subst h
      rfl
    · rw [if_neg h, if_neg (fun h' => h h'.symm)]
  rw [hd]
  exact forAll_congr mesh.nInternalFaces
    (fun faceI acc =>
      acc + ((if addr.lowerAddr faceI = i ∧ addr.upperAddr faceI = j
          then (swapUpperLower eqn).upper faceI else 0)
        + (if addr.upperAddr faceI = i ∧ addr.lowerAddr faceI = j
          then (swapUpperLower eqn).lower faceI else 0)))
    (fun faceI acc =>
      acc + ((if addr.lowerAddr faceI = j ∧ addr.upperAddr faceI = i then eqn.upper faceI else 0)
        + (if addr.upperAddr faceI = j ∧ addr.lowerAddr faceI = i then eqn.lower faceI else 0)))
    _ (fun faceI acc _ => by
      show acc + ((if addr.lowerAddr faceI = i ∧ addr.upperAddr faceI = j
          then eqn.lower faceI else 0)
        + (if addr.upperAddr faceI = i ∧ addr.lowerAddr faceI = j
          then eqn.upper faceI else 0)) = _
      rw [add_comm (if addr.lowerAddr faceI = i ∧ addr.upperAddr faceI = j
          then eqn.lower faceI else 0)]
      simp only [and_comm])

/-- On the one internal face of `exampleMesh` (owner 0, neighbour 1) the momentum matrix of
`exampleFv` has its upper coefficient -2 in row 0, column 1 and its lower coefficient -1 in
row 1, column 0; the swap exchanges the two. -/
theorem entry_swapUpperLower_example :
    (exampleFv.momentumEqn exampleBlocks.phi exampleTurbulence.nuEff exampleBlocks.U).entry
        exampleMesh exampleAddressing 0 1 = -2 ∧
    (exampleFv.momentumEqn exampleBlocks.phi exampleTurbulence.nuEff exampleBlocks.U).entry
        exampleMesh exampleAddressing 1 0 = -1 ∧
    (swapUpperLower (exampleFv.momentumEqn exampleBlocks.phi exampleTurbulence.nuEff
        exampleBlocks.U)).entry exampleMesh exampleAddressing 0 1 = -1 ∧
    (swapUpperLower (exampleFv.momentumEqn exampleBlocks.phi exampleTurbulence.nuEff
        exampleBlocks.U)).entry exampleMesh exampleAddressing 1 0 = -2 := by
  refine ⟨?_, ?_, ?_, ?_⟩ <;>
    simp [fvMatrix.entry, forAll, List.range_succ, exampleMesh, exampleAddressing, exampleFv,
      swapUpperLower]

/-- C15: the swap of the arrays `lower` and `upper` leaves the diagonal, the boundary
coefficients (internal and boundary), the source and the field of the matrix as they are,
puts each array in the place of the other, and transposes the internal-coefficient matrix:
the entry `(i, j)` after the swap is the entry `(j, i)` before it, for all cells `i`, `j`,
every face addressing and every number of internal faces; the swap done twice gives the
matrix back. In `invTranProdUEqn` the matrix handed to `solve()` has the transposed
entries of the relaxed momentum matrix; in `invTranProdPEqn` it has the entries of the
matrix that `setReference` returns for the swapped `fvm::laplacian(rAU, pseudoP)`. -/
theorem swapUpperLower_transpose {α τ : Type} [Field α] (eqn : fvMatrix α τ)
    (mesh : fvMesh α) (addr : lduAddressing) (s : Solver α)
    (mySourceU pseudoU : volVectorField α) (mySourceP pseudoP : volScalarField α) :
    (∀ i j, (swapUpperLower eqn).entry mesh addr i j = eqn.entry mesh addr j i) ∧
    (swapUpperLower eqn).diag = eqn.diag ∧
    (swapUpperLower eqn).internalCoeffs = eqn.internalCoeffs ∧
    (swapUpperLower eqn).boundaryCoeffs = eqn.boundaryCoeffs ∧
    (swapUpperLower eqn).source = eqn.source ∧
    (swapUpperLower eqn).psi = eqn.psi ∧
    (swapUpperLower eqn).lower = eqn.upper ∧
    (swapUpperLower eqn).upper = eqn.lower ∧
    swapUpperLower (swapUpperLower eqn) = eqn ∧
    (∀ i j, (invTranProdUEqnSystem s mySourceU pseudoU).entry mesh addr i j
      = (s.fv.relax (s.fv.momentumEqn s.state.phi s.daTurbulenceModel.nuEff pseudoU)).entry
          mesh addr j i) ∧
    (∀ i j, (invTranProdPEqnSystem s mySourceP pseudoP).entry mesh addr i j
      = (s.fv.setReference 0 0
          { swapUpperLower (s.fv.laplacian
              (fun cellI => 1 / s.fv.A (s.fv.relax (s.fv.momentumEqn s.state.phi
                s.daTurbulenceModel.nuEff s.state.U)) cellI) pseudoP) with
            source := mySourceP }).entry mesh addr i j) := by
  refine ⟨entry_swapUpperLower eqn mesh addr, rfl, rfl, rfl, rfl, rfl, rfl, rfl, rfl, ?_, ?_⟩
  · intro i j
    obtain ⟨hl, hu, hd, -⟩ := subtractBoundarySource_coeffs s.mesh
      { swapUpperLower (s.fv.relax
          (s.fv.momentumEqn s.state.phi s.daTurbulenceModel.nuEff pseudoU)) with
        source := mySourceU }
    have h1 : (invTranProdUEqnSystem s mySourceU pseudoU).entry mesh addr i j
        = (swapUpperLower (s.fv.relax
            (s.fv.momentumEqn s.state.phi s.daTurbulenceModel.nuEff pseudoU))).entry
              mesh addr i j :=
      entry_congr _ _ mesh addr hl hu hd i j
    rw [h1]
    exact entry_swapUpperLower _ mesh addr i j
  · intro i j
    obtain ⟨hl, hu, hd, -⟩ := subtractBoundarySource_coeffs s.mesh
      (s.fv.setReference 0 0
        { swapUpperLower (s.fv.laplacian
            (fun cellI => 1 / s.fv.A (s.fv.relax (s.fv.momentumEqn s.state.phi
              s.daTurbulenceModel.nuEff s.state.U)) cellI) pseudoP) with
          source := mySourceP })
    exact entry_congr _ _ mesh addr hl hu hd i j

/-! ## calcLduResiduals: the momentum residual -/

/-- A loop that adds `g k` to the value read by `ev` in every pass adds the sum of the
`g k`. -/
theorem forAll_ev_add {σ α : Type} [AddCommMonoid α] (ev : σ → α) (n : Nat)
    (body : Nat → σ → σ) (g : Nat → α) (a : σ)
    (h : ∀ k acc, k < n → ev (body k acc) = ev acc + g k) :
    ev (forAll n body a) = ev a + ∑ k in Finset.range n, g k := by
  induction n with
  | zero => simp [forAll_zero]
  | succ n ih =>
    rw [forAll_succ, h n _ (Nat.lt_succ_self n),
      ih (fun k acc hk => h k acc (Nat.lt_succ_of_lt hk)), Finset.sum_range_succ, add_assoc]

/-- The same for a loop over the faces of the patches. -/
theorem forAll_patches_ev_add {σ α : Type} [AddCommMonoid α] (ev : σ → α)
    (nPatches : Nat) (patchSize : Nat → Nat) (body : Nat → Nat → σ → σ) (g : Nat → Nat → α)
    (a : σ)
    (h : ∀ patchI faceI acc, patchI < nPatches → faceI < patchSize patchI →
      ev (body patchI faceI acc) = ev acc + g patchI faceI) :
    ev (forAll nPatches (fun patchI acc =>
        forAll (patchSize patchI) (fun faceI acc => body patchI faceI acc) acc) a)
      = ev a + ∑ patchI in Finset.range nPatches,
          ∑ faceI in Finset.range (patchSize patchI), g patchI faceI :=
  forAll_ev_add ev nPatches
    (fun patchI acc => forAll (patchSize patchI) (fun faceI acc => body patchI faceI acc) acc)
    (fun patchI => ∑ faceI in Finset.range (patchSize patchI), g patchI faceI) a
    (fun patchI acc hp =>
      forAll_ev_add ev (patchSize patchI) (fun faceI acc => body patchI faceI acc)
        (fun faceI => g patchI faceI) acc (fun faceI acc' hf => h patchI faceI acc' hp hf))

theorem boundarySum_eq_sum {α : Type} [Field α] (mesh : fvMesh α) (g : Nat → Nat → α)
    (cellI : Nat) :
    boundarySum mesh g cellI
      = ∑ patchI in Finset.range mesh.nPatches,
          ∑ faceI in Finset.range (mesh.patchSize patchI),
            (if mesh.faceCells patchI faceI = cellI then g patchI faceI else 0) := by
  unfold boundarySum
  rw [forAll_patches_ev_add (fun x : α => x) mesh.nPatches mesh.patchSize
    (fun patchI faceI acc =>
      acc + (if mesh.faceCells patchI faceI = cellI then g patchI faceI else 0))
    (fun patchI faceI => if mesh.faceCells patchI faceI = cellI then g patchI faceI else 0)
    0 (fun _ _ _ _ _ => rfl), zero_add]

/-- The boundary sum of `ic * x - bc` is the boundary sum of `ic` times `x` minus the
boundary sum of `bc`. -/
theorem boundarySum_linear {α : Type} [Field α] (mesh : fvMesh α) (ic bc : Nat → Nat → α)
    (x : α) (cellI : Nat) :
    boundarySum mesh (fun patchI faceI => ic patchI faceI * x - bc patchI faceI) cellI
      = boundarySum mesh ic cellI * x - boundarySum mesh bc cellI := by
  rw [boundarySum_eq_sum, boundarySum_eq_sum, boundarySum_eq_sum, Finset.sum_mul,
    ← Finset.sum_sub_distrib]
  refine Finset.sum_congr rfl (fun patchI _ => ?_)
  rw [Finset.sum_mul, ← Finset.sum_sub_distrib]
  refine Finset.sum_congr rfl (fun faceI _ => ?_)
  split_ifs <;> ring

/-- The spec's `H(U)` is the negated off-diagonal part of the operator applied to the
field. -/
theorem lduMatrixH_eq_neg {α : Type} [Field α] (mesh : fvMesh α) (addr : lduAddressing)
    (eqn : fvMatrix α (vector α)) (psi : volVectorField α) (cellI : Nat) (cmpt : Fin 3) :
    lduMatrixH mesh addr eqn psi cellI cmpt = - offDiagonalTimes mesh addr eqn psi cellI cmpt := by
  unfold lduMatrixH offDiagonalTimes
  rw [forAll_add_eq_sum, zero_add,
    forAll_ev_add (fun x : α => x) mesh.nInternalFaces _
      (fun faceI => -((if addr.lowerAddr faceI = cellI
                then eqn.upper faceI * psi (addr.upperAddr faceI) cmpt else 0)
        + (if addr.upperAddr faceI = cellI
                then eqn.lower faceI * psi (addr.lowerAddr faceI) cmpt else 0))) 0
      (fun faceI acc _ => by
        dsimp only
        split_ifs <;> ring), zero_add, Finset.sum_neg_distrib]

/-- One pass of the boundary loop of the momentum residual, read in cell `i` and component
`cmpt`: the face adds its contribution when `i` is its face cell, and nothing otherwise. -/
theorem boundaryFace_URes {α : Type} [Field α] (URes U : volVectorField α)
    (ic bc : vector α) (cellI i : Nat) (cmpt : Fin 3) :
    (Function.update
        (forComp (fun cmpt URes =>
          setComp URes cellI cmpt (URes cellI cmpt + ic cmpt * U cellI cmpt)) URes) cellI
        (fun cmpt =>
          (forComp (fun cmpt URes =>
            setComp URes cellI cmpt (URes cellI cmpt + ic cmpt * U cellI cmpt)) URes) cellI cmpt
            - bc cmpt)) i cmpt
      = URes i cmpt + (if cellI = i then ic cmpt * U i cmpt - bc cmpt else 0) := by
  rw [forComp_eq]
  by_cases h : cellI = i
  · subst h
    rw [if_pos rfl, Function.update_same]
    fin_cases cmpt <;> simp [setComp, Function.update] <;> ring
  · rw [if_neg h, add_zero, Function.update_noteq (fun h' => h h'.symm)]
    simp [setComp, Function.update_noteq (fun h' => h h'.symm)]

/-- The momentum residual that `calcLduResiduals` writes, cell by cell and component by
component, with `lduMatrix::H` as the library gives it. -/
theorem calcLduResiduals_U {α : Type} [Field α] (s : Solver α) (res : Blocks α)
    (i : Nat) (hi : i < s.mesh.nCells) (cmpt : Fin 3) :
    (calcLduResiduals s res).U i cmpt
      = (s.fv.momentumEqn s.state.phi s.daTurbulenceModel.nuEff s.state.U).diag i
            * s.state.U i cmpt
          - (s.fv.momentumEqn s.state.phi s.daTurbulenceModel.nuEff s.state.U).source i cmpt
          + s.mesh.V i * s.fv.grad s.state.p i cmpt
          - s.fv.lduHVector
              (s.fv.momentumEqn s.state.phi s.daTurbulenceModel.nuEff s.state.U) s.state.U i cmpt
          + boundarySum s.mesh (fun patchI faceI =>
              (s.fv.momentumEqn s.state.phi s.daTurbulenceModel.nuEff
                  s.state.U).internalCoeffs patchI faceI cmpt * s.state.U i cmpt
                - (s.fv.momentumEqn s.state.phi s.daTurbulenceModel.nuEff
                  s.state.U).boundaryCoeffs patchI faceI cmpt) i := by
  have h0 := forAll_update s.mesh.nCells
    (fun i => fun cmpt =>
      (s.fv.momentumEqn s.state.phi s.daTurbulenceModel.nuEff s.state.U).diag i
          * s.state.U i cmpt
        - (s.fv.momentumEqn s.state.phi s.daTurbulenceModel.nuEff s.state.U).source i cmpt
        + s.mesh.V i * s.fv.grad s.state.p i cmpt) res.U
  have ha := congrFun (congrFun h0 i) cmpt
  simp only [if_pos hi] at ha
  have hb := forAll_patches_ev_add (fun URes : volVectorField α => URes i cmpt)
    s.mesh.nPatches s.mesh.patchSize
    (fun patchI faceI URes =>
      let cellI := s.mesh.faceCells patchI faceI
      let URes := forComp (fun cmpt URes =>
        setComp URes cellI cmpt
          (URes cellI cmpt
            + (s.fv.momentumEqn s.state.phi s.daTurbulenceModel.nuEff
                s.state.U).internalCoeffs patchI faceI cmpt * s.state.U cellI cmpt)) URes
      Function.update URes cellI
        (fun cmpt => URes cellI cmpt
          - (s.fv.momentumEqn s.state.phi s.daTurbulenceModel.nuEff
              s.state.U).boundaryCoeffs patchI faceI cmpt))
    (fun patchI faceI => if s.mesh.faceCells patchI faceI = i
      then (s.fv.momentumEqn s.state.phi s.daTurbulenceModel.nuEff
            s.state.U).internalCoeffs patchI faceI cmpt * s.state.U i cmpt
        - (s.fv.momentumEqn s.state.phi s.daTurbulenceModel.nuEff
            s.state.U).boundaryCoeffs patchI faceI cmpt else 0)
    (fun i cmpt =>
      forAll s.mesh.nCells (fun i URes =>
        Function.update URes i
          (fun cmpt =>
            (s.fv.momentumEqn s.state.phi s.daTurbulenceModel.nuEff s.state.U).diag i
                * s.state.U i cmpt
              - (s.fv.momentumEqn s.state.phi s.daTurbulenceModel.nuEff s.state.U).source i cmpt
              + s.mesh.V i * s.fv.grad s.state.p i cmpt)) res.U i cmpt
        - s.fv.lduHVector
            (s.fv.momentumEqn s.state.phi s.daTurbulenceModel.nuEff s.state.U) s.state.U i cmpt)
    (fun patchI faceI acc _ _ =>
      boundaryFace_URes acc s.state.U
        ((s.fv.momentumEqn s.state.phi s.daTurbulenceModel.nuEff
            s.state.U).internalCoeffs patchI faceI)
        ((s.fv.momentumEqn s.state.phi s.daTurbulenceModel.nuEff
            s.state.U).boundaryCoeffs patchI faceI) (s.mesh.faceCells patchI faceI) i cmpt)
  simp only [ha] at hb
  rw [boundarySum_eq_sum, ← hb]
  rfl

/-- C16: for every state and every cell `i` of the mesh, the momentum residual that
`calcLduResiduals` writes is `diag[i]*U[i] - source[i] + V[i]*gradp[i] - H(U)[i]` plus, for
every boundary face whose face cell is `i`, `internalCoeffs*U[i]` per component minus
`boundaryCoeffs`, whatever the residual field held on entry. When `lduMatrix::H` of the
library is the negated sum of the off-diagonal coefficients times the neighbour values
over the face addressing, the residual is `A*U - b + V*gradp` for the operator `A` (diagonal
plus boundary internal coefficients plus off-diagonals) and the source `b` (source plus
boundary coefficients) of the un-relaxed momentum matrix, and it is zero in every cell
exactly when `A*U = b - V*gradp` holds in every cell. -/
theorem calcLduResiduals_momentum {α : Type} [Field α] (s : Solver α) (res : Blocks α)
    (addr : lduAddressing)
    (hH : ∀ i, i < s.mesh.nCells → ∀ cmpt,
      s.fv.lduHVector (s.fv.momentumEqn s.state.phi s.daTurbulenceModel.nuEff s.state.U)
          s.state.U i cmpt
        = lduMatrixH s.mesh addr
            (s.fv.momentumEqn s.state.phi s.daTurbulenceModel.nuEff s.state.U)
            s.state.U i cmpt) :
    (∀ i, i < s.mesh.nCells → ∀ cmpt,
      (calcLduResiduals s res).U i cmpt
        = (s.fv.momentumEqn s.state.phi s.daTurbulenceModel.nuEff s.state.U).diag i
              * s.state.U i cmpt
            - (s.fv.momentumEqn s.state.phi s.daTurbulenceModel.nuEff s.state.U).source i cmpt
            + s.mesh.V i * s.fv.grad s.state.p i cmpt
            - s.fv.lduHVector
                (s.fv.momentumEqn s.state.phi s.daTurbulenceModel.nuEff s.state.U)
                s.state.U i cmpt
            + boundarySum s.mesh (fun patchI faceI =>
                (s.fv.momentumEqn s.state.phi s.daTurbulenceModel.nuEff
                    s.state.U).internalCoeffs patchI faceI cmpt * s.state.U i cmpt
                  - (s.fv.momentumEqn s.state.phi s.daTurbulenceModel.nuEff
                    s.state.U).boundaryCoeffs patchI faceI cmpt) i) ∧
    (∀ i cmpt,
      lduMatrixH s.mesh addr
          (s.fv.momentumEqn s.state.phi s.daTurbulenceModel.nuEff s.state.U) s.state.U i cmpt
        = - offDiagonalTimes s.mesh addr
            (s.fv.momentumEqn s.state.phi s.daTurbulenceModel.nuEff s.state.U)
            s.state.U i cmpt) ∧
    (∀ i, i < s.mesh.nCells → ∀ cmpt,
      (calcLduResiduals s res).U i cmpt
        = operatorTimes s.mesh addr
              (s.fv.momentumEqn s.state.phi s.daTurbulenceModel.nuEff s.state.U)
              s.state.U i cmpt
            - fullSource s.mesh
              (s.fv.momentumEqn s.state.phi s.daTurbulenceModel.nuEff s.state.U) i cmpt
            + s.mesh.V i * s.fv.grad s.state.p i cmpt) ∧
    ((∀ i, i < s.mesh.nCells → ∀ cmpt, (calcLduResiduals s res).U i cmpt = 0) ↔
      (∀ i, i < s.mesh.nCells → ∀ cmpt,
        operatorTimes s.mesh addr
            (s.fv.momentumEqn s.state.phi s.daTurbulenceModel.nuEff s.state.U)
            s.state.U i cmpt
          = fullSource s.mesh
              (s.fv.momentumEqn s.state.phi s.daTurbulenceModel.nuEff s.state.U) i cmpt
            - s.mesh.V i * s.fv.grad s.state.p i cmpt)) := by
  have hfull : ∀ i, i < s.mesh.nCells → ∀ cmpt,
      (calcLduResiduals s res).U i cmpt
        = operatorTimes s.mesh addr
              (s.fv.momentumEqn s.state.phi s.daTurbulenceModel.nuEff s.state.U)
              s.state.U i cmpt
            - fullSource s.mesh
              (s.fv.momentumEqn s.state.phi s.daTurbulenceModel.nuEff s.state.U) i cmpt
            + s.mesh.V i * s.fv.grad s.state.p i cmpt := by
    intro i hi cmpt
    rw [calcLduResiduals_U s res i hi cmpt, hH i hi cmpt, lduMatrixH_eq_neg, boundarySum_linear]
    unfold operatorTimes fullSource
    ring
  refine ⟨fun i hi cmpt => calcLduResiduals_U s res i hi cmpt,
    fun i cmpt => lduMatrixH_eq_neg _ _ _ _ i cmpt, hfull, ?_⟩
  constructor
  · intro h i hi cmpt
    have e := hfull i hi cmpt
    rw [h i hi cmpt] at e
    linear_combination -e
  · intro h i hi cmpt
    rw [hfull i hi cmpt, h i hi cmpt]
    ring

theorem calcLduResiduals_momentum_witness :
    (∀ i, i < exampleLduSolver.mesh.nCells → ∀ cmpt,
      exampleLduSolver.fv.lduHVector
          (exampleLduSolver.fv.momentumEqn exampleLduSolver.state.phi
            exampleLduSolver.daTurbulenceModel.nuEff exampleLduSolver.state.U)
          exampleLduSolver.state.U i cmpt
        = lduMatrixH exampleLduSolver.mesh exampleAddressing
            (exampleLduSolver.fv.momentumEqn exampleLduSolver.state.phi
              exampleLduSolver.daTurbulenceModel.nuEff exampleLduSolver.state.U)
            exampleLduSolver.state.U i cmpt) ∧
    (calcLduResiduals exampleLduSolver zeroBlocks).U 0 0
      = operatorTimes exampleLduSolver.mesh exampleAddressing
            (exampleLduSolver.fv.momentumEqn exampleLduSolver.state.phi
              exampleLduSolver.daTurbulenceModel.nuEff exampleLduSolver.state.U)
            exampleLduSolver.state.U 0 0
          - fullSource exampleLduSolver.mesh
            (exampleLduSolver.fv.momentumEqn exampleLduSolver.state.phi
              exampleLduSolver.daTurbulenceModel.nuEff exampleLduSolver.state.U) 0 0
          + exampleLduSolver.mesh.V 0 * exampleLduSolver.fv.grad exampleLduSolver.state.p 0 0 :=
  ⟨fun _ _ _ => rfl,
    (calcLduResiduals_momentum exampleLduSolver zeroBlocks exampleAddressing
      (fun _ _ _ => rfl)).2.2.1 0 (by decide) 0⟩

/-! ## The convergence check: when the loop is left -/

/-- C7: in a sweep entered with `cnt >= 1` the statement `break` is reached if and only if
each of the six normalized norms (three of `adjURes`, one each of `adjpRes`, `adjphiRes`,
`adjnuTildaRes`) is below `fpRelTol`; each normalized norm is the division of the norm of
the adjoint residual after the four block updates by the baseline that the check leaves in
the state, and such a division is below the tolerance when the baseline is not zero and
the quotient is below the tolerance (or, with a zero baseline, the norm is negative: a
norm that is not negative over a zero baseline is below no tolerance, so `break` is not
reached then); when `break` is reached the loop ends in the state of the end of the sweep
with `cnt` as it was, and when it is not the loop goes on with `cnt + 1`; in the sweep
entered with `cnt == 0` no check is made: `break` is not reached and the state is the one
the four block updates left. -/
theorem sweep_break_iff {α : Type} [LinearOrderedField α] (s : Solver α) (dFd : Blocks α)
    (st : FPState α) (hloop : st.cnt < s.daOption.fpMaxIters) :
    (1 ≤ st.cnt →
      ((sweep s dFd st).2 = true ↔
        (((normalizedNorms s
              (updateBlocks s dFd { st with sweeps := st.sweeps + 1 })).norm_adjURes 0).below
            s.daOption.fpRelTol = true ∧
          ((normalizedNorms s
              (updateBlocks s dFd { st with sweeps := st.sweeps + 1 })).norm_adjURes 1).below
            s.daOption.fpRelTol = true ∧
          ((normalizedNorms s
              (updateBlocks s dFd { st with sweeps := st.sweeps + 1 })).norm_adjURes 2).below
            s.daOption.fpRelTol = true ∧
          (normalizedNorms s
              (updateBlocks s dFd { st with sweeps := st.sweeps + 1 })).norm_adjpRes.below
            s.daOption.fpRelTol = true ∧
          (normalizedNorms s
              (updateBlocks s dFd { st with sweeps := st.sweeps + 1 })).norm_adjphiRes.below
            s.daOption.fpRelTol = true ∧
          (normalizedNorms s
              (updateBlocks s dFd { st with sweeps := st.sweeps + 1 })).norm_adjnuTildaRes.below
            s.daOption.fpRelTol = true))) ∧
    (1 ≤ st.cnt →
      (∀ comp,
        (normalizedNorms s
            (updateBlocks s dFd { st with sweeps := st.sweeps + 1 })).norm_adjURes comp
          = divide
              ((currentNorms s
                (updateBlocks s dFd { st with sweeps := st.sweeps + 1 })).norm_adjURes comp)
              ((sweep s dFd st).1.initNorm_adjURes comp)) ∧
      (normalizedNorms s
          (updateBlocks s dFd { st with sweeps := st.sweeps + 1 })).norm_adjpRes
        = divide
            (currentNorms s
              (updateBlocks s dFd { st with sweeps := st.sweeps + 1 })).norm_adjpRes
            (sweep s dFd st).1.initNorm_adjpRes ∧
      (normalizedNorms s
          (updateBlocks s dFd { st with sweeps := st.sweeps + 1 })).norm_adjphiRes
        = divide
            (currentNorms s
              (updateBlocks s dFd { st with sweeps := st.sweeps + 1 })).norm_adjphiRes
            (sweep s dFd st).1.initNorm_adjphiRes ∧
      (normalizedNorms s
          (updateBlocks s dFd { st with sweeps := st.sweeps + 1 })).norm_adjnuTildaRes
        = divide
            (currentNorms s
              (updateBlocks s dFd { st with sweeps := st.sweeps + 1 })).norm_adjnuTildaRes
            (sweep s dFd st).1.initNorm_adjnuTildaRes) ∧
    (∀ x y tol : α,
      ((divide x y).below tol = true ↔ (y ≠ 0 ∧ x / y < tol) ∨ (y = 0 ∧ x < 0)) ∧
      (0 ≤ x → (divide x 0).below tol = false)) ∧
    (st.cnt = 0 →
      (sweep s dFd st).2 = false ∧
      (sweep s dFd st).1 = updateBlocks s dFd { st with sweeps := st.sweeps + 1 }) ∧
    ((sweep s dFd st).2 = true →
      fpLoop s dFd st = (sweep s dFd st).1 ∧ (fpLoop s dFd st).cnt = st.cnt) ∧
    ((sweep s dFd st).2 = false →
      fpLoop s dFd st
        = fpLoop s dFd { (sweep s dFd st).1 with cnt := st.cnt + 1 }) := by
  refine ⟨?_, ?_, ?_, ?_, ?_, ?_⟩
  · intro h1
    rw [(sweep_fst_of_pos s dFd st h1).2, toleranceMet_iff]
  · intro h1
    exact normalizedNorms_eq s dFd st h1
  · intro x y tol
    exact ⟨divide_below_iff x y tol, divide_zero_not_below x tol⟩
  · intro h0
    have hc : ¬ (updateBlocks s dFd { st with sweeps := st.sweeps + 1 }).cnt ≥ 1 := by
      show ¬ st.cnt ≥ 1
      omega
    unfold sweep convergenceCheck
    rw [if_neg hc]
    exact ⟨rfl, rfl⟩
  · intro hb
    rw [fpLoop_unfold, if_pos hloop, if_pos hb]
    exact ⟨rfl, sweep_cnt s dFd st⟩
  · intro hb
    rw [fpLoop_unfold, if_pos hloop, sweep_cnt]
    simp [hb]

/-! ## Concrete runs on `exampleMesh` -/

theorem L2norm_exampleMesh (sqrt : ℚ → ℚ) (v : volScalarField ℚ) :
    L2norm sqrt exampleMesh v = sqrt (v 0 ^ 2 + v 1 ^ 2) := by
  unfold L2norm
  simp only [forAll, List.range_succ, exampleMesh, sqr, List.range_zero, List.nil_append,
    List.foldl_cons, List.foldl_nil, List.singleton_append]
  congr 1
  ring

theorem L2normSurface_exampleMesh (sqrt : ℚ → ℚ) (Phi : surfaceScalarField ℚ) :
    L2normSurface sqrt exampleMesh Phi
      = sqrt (Phi.primitiveField 0 ^ 2 + Phi.boundaryField 0 0 ^ 2
          + Phi.boundaryField 0 1 ^ 2) := by
  unfold L2normSurface
  simp only [forAll, List.range_succ, exampleMesh, sqr, List.range_zero, List.nil_append,
    List.foldl_cons, List.foldl_nil, List.singleton_append]
  congr 1
  ring

/-- The four norms of the convergence check on `exampleMesh`, from the values of the
adjoint residuals in its two cells and on its three faces. -/
theorem currentNorms_exampleMesh (s : Solver ℚ) (hm : s.mesh = exampleMesh)
    (st : FPState ℚ) :
    (∀ comp, (currentNorms s st).norm_adjURes comp
      = s.sqrt (st.adjRes.U 0 comp ^ 2 + st.adjRes.U 1 comp ^ 2)) ∧
    (currentNorms s st).norm_adjpRes = s.sqrt (st.adjRes.p 0 ^ 2 + st.adjRes.p 1 ^ 2) ∧
    (currentNorms s st).norm_adjphiRes
      = s.sqrt (st.adjRes.phi.primitiveField 0 ^ 2 + st.adjRes.phi.boundaryField 0 0 ^ 2
          + st.adjRes.phi.boundaryField 0 1 ^ 2) ∧
    (currentNorms s st).norm_adjnuTildaRes
      = s.sqrt (st.adjRes.nuTilda 0 ^ 2 + st.adjRes.nuTilda 1 ^ 2) := by
  unfold currentNorms
  rw [hm]
  refine ⟨fun comp => ?_, L2norm_exampleMesh _ _, L2normSurface_exampleMesh _ _,
    L2norm_exampleMesh _ _⟩
  show L2normVector s.sqrt exampleMesh st.adjRes.U comp = _
  rw [L2normVector_apply, L2norm_exampleMesh]

/-! ## Runs with a recorded residual evaluation -/

/-- A call on a tape that holds the statements `program` and whose adjoints are zero when
it is seeded: the adjoint residual is the negated objective gradient plus the gradient
that the evaluation of the seeded tape leaves. -/
theorem calcAdjointResidual_adjRes_of_program {α : Type} [Field α] (s : Solver α)
    (Res dfd Psi adjRes : Blocks α) (tape : Tape α) (cnt : Nat)
    (program : List (Statement α))
    (hst : (tapeForCall s Res tape cnt).2.statements = program)
    (had : (tapeForCall s Res tape cnt).2.adjoints = fun _ => 0) :
    ∀ slot, s.mesh.hasSlot slot = true →
      (calcAdjointResidual s Res dfd Psi adjRes tape cnt).adjRes.component slot
        = - dfd.component slot + seededGradient s.mesh program Psi slot := by
  intro slot hslot
  show (addGradients s.mesh _ (negBlocks dfd)).component slot = _
  rw [addGradients_component, if_pos hslot, seedResiduals_eq]
  simp only [Tape.evaluate, Tape.getGradient, hst, had, seededGradient]
  cases slot <;> rfl

theorem tapeForCall_of_program {α : Type} [Field α] (s : Solver α) (Res : Blocks α)
    (tape : Tape α) (cnt : Nat) (program : List (Statement α))
    (hp : s.linkProgram ++ s.residualProgram = program)
    (ht : cnt ≠ 0 → tape.statements = program ∧ tape.adjoints = fun _ => 0) :
    (tapeForCall s Res tape cnt).2.statements = program ∧
    (tapeForCall s Res tape cnt).2.adjoints = (fun _ => 0) := by
  unfold tapeForCall
  by_cases h : cnt = 0
  · rw [if_pos h]
    refine ⟨?_, recordResiduals_adjoints s Res tape⟩
    rw [recordResiduals_statements, hp]
  · rw [if_neg h]
    exact ht h

/-- One call of `calcAdjointResidual` from the loop, for a solver whose recorded
statements are `program`, on a tape that holds them with cleared adjoints (or in the first
sweep, which records): the adjoint residual it leaves and the tape it leaves. -/
theorem callAdjointResidual_of_program {α : Type} [Field α] (s : Solver α) (dFd : Blocks α)
    (st : FPState α) (program : List (Statement α))
    (hp : s.linkProgram ++ s.residualProgram = program)
    (ht : st.cnt ≠ 0 → st.tape.statements = program ∧ st.tape.adjoints = fun _ => 0) :
    (∀ slot, s.mesh.hasSlot slot = true →
      (calcAdjointResidual s st.Res dFd st.Psi st.adjRes st.tape st.cnt).adjRes.component slot
        = - dFd.component slot + seededGradient s.mesh program st.Psi slot) ∧
    (calcAdjointResidual s st.Res dFd st.Psi st.adjRes st.tape st.cnt).tape.statements
      = program ∧
    (calcAdjointResidual s st.Res dFd st.Psi st.adjRes st.tape st.cnt).tape.adjoints
      = (fun _ => 0) := by
  have hT := tapeForCall_of_program s st.Res st.tape st.cnt program hp ht
  have f := calcAdjointResidual_tape_facts s st.Res dFd st.Psi st.adjRes st.tape st.cnt
  refine ⟨calcAdjointResidual_adjRes_of_program s st.Res dFd st.Psi st.adjRes st.tape st.cnt
    program hT.1 hT.2, ?_, f.2.2⟩
  rw [f.2.1]
  by_cases h : st.cnt = 0
  · rw [if_pos h, hp]
  · rw [if_neg h]
    exact (ht h).1

/-- The four block updates of a sweep, for a solver whose recorded statements are `program`,
on a tape that holds them (or in the first sweep, which records): the adjoint residual
that the call of the block `p` leaves, the adjoint residual at the end of the updates, and
the statements of the tape at the end. -/
theorem updateBlocks_of_program {α : Type} [Field α] (s : Solver α) (dFd : Blocks α)
    (st : FPState α) (program : List (Statement α))
    (hp : s.linkProgram ++ s.residualProgram = program)
    (ht : st.cnt ≠ 0 → st.tape.statements = program) :
    (∀ slot, s.mesh.hasSlot slot = true →
      (calcAdjointResidual s (updateUPsi s dFd st).Res dFd (updateUPsi s dFd st).Psi
          (updateUPsi s dFd st).adjRes (updateUPsi s dFd st).tape
          (updateUPsi s dFd st).cnt).adjRes.component slot
        = - dFd.component slot
          + seededGradient s.mesh program (updateUPsi s dFd st).Psi slot) ∧
    (∀ slot, s.mesh.hasSlot slot = true →
      (updateBlocks s dFd st).adjRes.component slot
        = - dFd.component slot
          + seededGradient s.mesh program
              (updatephiPsi s dFd (updatepPsi s dFd (updateUPsi s dFd st))).Psi slot) ∧
    (updateBlocks s dFd st).tape.statements = program := by
  have f0 := calcAdjointResidual_tape_facts s st.Res dFd st.Psi st.adjRes st.tape st.cnt
  have t1 := updateUPsi_tape s dFd st
  obtain ⟨st1, h1⟩ : ∃ x, x = updateUPsi s dFd st := ⟨_, rfl⟩
  rw [← h1] at t1 ⊢
  have hs1 : st1.tape.statements = program ∧ st1.tape.adjoints = (fun _ => 0) := by
    rw [t1.1]
    refine ⟨?_, f0.2.2⟩
    rw [f0.2.1]
    by_cases h : st.cnt = 0
    · rw [if_pos h, hp]
    · rw [if_neg h]
      exact ht h
  have c1 := callAdjointResidual_of_program s dFd st1 program hp (fun _ => hs1)
  have t2 := updatepPsi_tape s dFd st1
  obtain ⟨st2, h2⟩ : ∃ x, x = updatepPsi s dFd st1 := ⟨_, rfl⟩
  rw [← h2] at t2 ⊢
  have hs2 : st2.tape.statements = program ∧ st2.tape.adjoints = (fun _ => 0) := by
    rw [t2.1]
    exact c1.2
  have c2 := callAdjointResidual_of_program s dFd st2 program hp (fun _ => hs2)
  have t3 := updatephiPsi_tape s dFd st2
  obtain ⟨st3, h3⟩ : ∃ x, x = updatephiPsi s dFd st2 := ⟨_, rfl⟩
  rw [← h3] at t3 ⊢
  have hs3 : st3.tape.statements = program ∧ st3.tape.adjoints = (fun _ => 0) := by
    rw [t3.1]
    exact c2.2
  have c3 := callAdjointResidual_of_program s dFd st3 program hp (fun _ => hs3)
  have e : updateBlocks s dFd st = updatenuTildaPsi s dFd st3 := by
    rw [h3, h2, h1]
    rfl
  have ea : (updatenuTildaPsi s dFd st3).adjRes
      = (calcAdjointResidual s st3.Res dFd st3.Psi st3.adjRes st3.tape st3.cnt).adjRes := rfl
  have et : (updatenuTildaPsi s dFd st3).tape
      = (calcAdjointResidual s st3.Res dFd st3.Psi st3.adjRes st3.tape st3.cnt).tape :=
    (updatenuTildaPsi_tape s dFd st3).1
  refine ⟨c1.1, ?_, ?_⟩
  · rw [e, ea]
    exact c3.1
  · rw [e, et]
    exact c3.2.1

/-- The gradient that the evaluation of `exampleCoupledProgram` leaves: 8/3 times the
block `p` of `Psi` in cell 0 for `p` in cell 0, nothing for the other slots. -/
theorem exampleCoupled_seededGradient (Psi : Blocks ℚ) (slot : Slot) :
    seededGradient exampleMesh exampleCoupledProgram Psi slot
      = if slot = .p 0 then 8 / 3 * Psi.p 0 else 0 := by
  unfold seededGradient exampleCoupledProgram
  simp only [List.foldr_cons, List.foldr_nil, Statement.propagate, List.foldl_cons,
    List.foldl_nil]
  by_cases h : slot = .p 0
  · subst h
    simp [seedAdjoints, fvMesh.hasSlot, exampleMesh, Blocks.component]
  · rw [if_neg h, Function.update_noteq (by simpa using h)]
    rfl

/-- The transposed pressure solve of `exampleFv` in cell 0: the source over the diagonal
coefficient 4 that `setReference` leaves there. -/
theorem exampleCoupled_invTranProdPEqn (mySource pseudoP : volScalarField ℚ) :
    invTranProdPEqn exampleCoupledSolver mySource pseudoP 0 = mySource 0 / 4 := by
  simp [invTranProdPEqn, invTranProdPEqnSystem, subtractBoundarySource, swapUpperLower,
    forAll, List.range_succ, exampleCoupledSolver, exampleSolver, exampleFv, exampleMesh,
    exampleTurbulence, Function.update_apply]
  ring

/-- The four block updates of a sweep of `exampleCoupledSolver` on `exampleGradient`: the
block `p` of `Psi` in cell 0 goes from `x` to `2/3 * x - 3/8`, and the adjoint residual at
the end is 3 and 4 in the two cells for every component of `U` and for `nuTilda`, 3, 4 and
0 on the three faces, 4 for `p` in cell 1 and `3 + 8/3 * x'` for `p` in cell 0, with `x'`
the new value of the block `p` of `Psi` there. -/
theorem exampleCoupled_updateBlocks (st : FPState ℚ)
    (ht : st.cnt ≠ 0 → st.tape.statements = exampleCoupledProgram) :
    (updateBlocks exampleCoupledSolver exampleGradient st).Psi.p 0
      = 2 / 3 * st.Psi.p 0 - 3 / 8 ∧
    (∀ comp, (updateBlocks exampleCoupledSolver exampleGradient st).adjRes.U 0 comp = 3) ∧
    (∀ comp, (updateBlocks exampleCoupledSolver exampleGradient st).adjRes.U 1 comp = 4) ∧
    (updateBlocks exampleCoupledSolver exampleGradient st).adjRes.p 0
      = 3 + 8 / 3 * (updateBlocks exampleCoupledSolver exampleGradient st).Psi.p 0 ∧
    (updateBlocks exampleCoupledSolver exampleGradient st).adjRes.p 1 = 4 ∧
    (updateBlocks exampleCoupledSolver exampleGradient st).adjRes.phi.primitiveField 0 = 3 ∧
    (updateBlocks exampleCoupledSolver exampleGradient st).adjRes.phi.boundaryField 0 0 = 4 ∧
    (updateBlocks exampleCoupledSolver exampleGradient st).adjRes.phi.boundaryField 0 1 = 0 ∧
    (updateBlocks exampleCoupledSolver exampleGradient st).adjRes.nuTilda 0 = 3 ∧
    (updateBlocks exampleCoupledSolver exampleGradient st).adjRes.nuTilda 1 = 4 ∧
    (updateBlocks exampleCoupledSolver exampleGradient st).tape.statements
      = exampleCoupledProgram := by
  obtain ⟨hcall, hfin, htape⟩ := updateBlocks_of_program exampleCoupledSolver exampleGradient
    st exampleCoupledProgram rfl ht
  obtain ⟨gU0, gU1, gp0, gp1, gphi, gb0, gb1, gn0, gn1⟩ := exampleGradient_component
  obtain ⟨-, ap, -, -, app, -⟩ := updateUPsi_Psi exampleCoupledSolver exampleGradient st
  obtain ⟨st1, h1⟩ : ∃ x, x = updateUPsi exampleCoupledSolver exampleGradient st := ⟨_, rfl⟩
  rw [← h1] at hcall hfin ap app
  obtain ⟨bp, -, -, -, -⟩ := updatepPsi_Psi exampleCoupledSolver exampleGradient st1
  obtain ⟨st2, h2⟩ : ∃ x, x = updatepPsi exampleCoupledSolver exampleGradient st1 := ⟨_, rfl⟩
  rw [← h2] at hfin bp
  obtain ⟨-, -, cp, -, -⟩ := updatephiPsi_Psi exampleCoupledSolver exampleGradient st2
  obtain ⟨st3, h3⟩ : ∃ x, x = updatephiPsi exampleCoupledSolver exampleGradient st2 := ⟨_, rfl⟩
  rw [← h3] at hfin cp
  obtain ⟨-, -, dp, -⟩ := updatenuTildaPsi_Psi exampleCoupledSolver exampleGradient st3
  have e : updateBlocks exampleCoupledSolver exampleGradient st
      = updatenuTildaPsi exampleCoupledSolver exampleGradient st3 := by
    rw [h3, h2, h1]
    rfl
  rw [← e] at dp
  have hm : exampleCoupledSolver.mesh = exampleMesh := rfl
  have hcallp := hcall (.p 0) rfl
  rw [hm, exampleCoupled_seededGradient, if_pos rfl] at hcallp
  simp only [Blocks.component, gp0] at hcallp
  have hPsi2 : st2.Psi.p 0 = 2 / 3 * st.Psi.p 0 - 3 / 8 := by
    have h := congrFun bp 0
    simp only [if_pos (show (0 : ℕ) < exampleCoupledSolver.mesh.nCells by decide)] at h
    rw [h, exampleCoupled_invTranProdPEqn, hcallp, ap]
    show st.Psi.p 0 - 1 / 2 * ((- -3 + 8 / 3 * st.Psi.p 0) / 4) = _
    ring
  have hPsi : (updateBlocks exampleCoupledSolver exampleGradient st).Psi.p 0
      = 2 / 3 * st.Psi.p 0 - 3 / 8 := by
    rw [dp, cp, hPsi2]
  have hslot : ∀ slot, exampleCoupledSolver.mesh.hasSlot slot = true →
      (updateBlocks exampleCoupledSolver exampleGradient st).adjRes.component slot
        = - exampleGradient.component slot
          + (if slot = .p 0 then 8 / 3
              * (updateBlocks exampleCoupledSolver exampleGradient st).Psi.p 0 else 0) := by
    intro slot hs
    rw [hfin slot hs, hm, exampleCoupled_seededGradient, dp, cp]
  refine ⟨hPsi, ?_, ?_, ?_, ?_, ?_, ?_, ?_, ?_, ?_, htape⟩
  · intro comp
    have h := hslot (.U 0 comp) rfl
    simp only [Blocks.component, gU0 comp, neg_neg, reduceCtorEq, if_false, add_zero] at h
    exact h
  · intro comp
    have h := hslot (.U 1 comp) rfl
    simp only [Blocks.component, gU1 comp, neg_neg, reduceCtorEq, if_false, add_zero] at h
    exact h
  · have h := hslot (.p 0) rfl
    simp only [Blocks.component, gp0, neg_neg, if_true] at h
    exact h
  · have h := hslot (.p 1) rfl
    simp only [Blocks.component, gp1, neg_neg, Slot.p.injEq, Nat.one_ne_zero, if_false,
      add_zero] at h
    exact h
  · have h := hslot (.phi 0) rfl
    simp only [Blocks.component, gphi, neg_neg, reduceCtorEq, if_false, add_zero] at h
    exact h
  · have h := hslot (.phiBoundary 0 0) rfl
    simp only [Blocks.component, gb0, neg_neg, reduceCtorEq, if_false, add_zero] at h
    exact h
  · have h := hslot (.phiBoundary 0 1) rfl
    simp only [Blocks.component, gb1, neg_zero, reduceCtorEq, if_false, add_zero] at h
    exact h
  · have h := hslot (.nuTilda 0) rfl
    simp only [Blocks.component, gn0, neg_neg, reduceCtorEq, if_false, add_zero] at h
    exact h
  · have h := hslot (.nuTilda 1) rfl
    simp only [Blocks.component, gn1, neg_neg, reduceCtorEq, if_false, add_zero] at h
    exact h

/-- A completed sweep of `exampleCoupledSolver` on `exampleGradient`: what it does to the
block `p` of `Psi` in cell 0 and what the tape holds after it. -/
theorem exampleCoupled_completedSweep (st : FPState ℚ)
    (ht : st.cnt ≠ 0 → st.tape.statements = exampleCoupledProgram) :
    (completedSweep exampleCoupledSolver exampleGradient st).Psi.p 0
      = 2 / 3 * st.Psi.p 0 - 3 / 8 ∧
    (completedSweep exampleCoupledSolver exampleGradient st).tape.statements
      = exampleCoupledProgram := by
  obtain ⟨hPsi, -, -, -, -, -, -, -, -, -, htape⟩ :=
    exampleCoupled_updateBlocks { st with sweeps := st.sweeps + 1 } ht
  have e := convergenceCheck_fst exampleCoupledSolver
    (updateBlocks exampleCoupledSolver exampleGradient { st with sweeps := st.sweeps + 1 })
  constructor
  · show (sweep exampleCoupledSolver exampleGradient st).1.Psi.p 0 = _
    unfold sweep
    rw [e.2.2.2.1]
    exact hPsi
  · show (sweep exampleCoupledSolver exampleGradient st).1.tape.statements = _
    unfold sweep
    rw [e.2.2.2.2]
    exact htape

/-- The heads of the second and of the third sweep of the run of `exampleCoupledSolver` on
`exampleGradient`. -/
theorem exampleCoupled_heads :
    (sweepHead exampleCoupledSolver exampleGradient emptyTape 1).Psi.p 0 = -3 / 8 ∧
    (sweepHead exampleCoupledSolver exampleGradient emptyTape 1).tape.statements
      = exampleCoupledProgram ∧
    (sweepHead exampleCoupledSolver exampleGradient emptyTape 2).Psi.p 0 = -5 / 8 ∧
    (sweepHead exampleCoupledSolver exampleGradient emptyTape 2).tape.statements
      = exampleCoupledProgram := by
  have h0 := exampleCoupled_completedSweep
    (sweepHead exampleCoupledSolver exampleGradient emptyTape 0) (fun h => absurd rfl h)
  have p0 : (sweepHead exampleCoupledSolver exampleGradient emptyTape 0).Psi.p 0 = 0 := by
    show (0 : ℚ) * _ = 0
    rw [zero_mul]
  have e1 : sweepHead exampleCoupledSolver exampleGradient emptyTape 1
      = completedSweep exampleCoupledSolver exampleGradient
          (sweepHead exampleCoupledSolver exampleGradient emptyTape 0) := rfl
  rw [← e1, p0] at h0
  have h1 := exampleCoupled_completedSweep
    (sweepHead exampleCoupledSolver exampleGradient emptyTape 1) (fun _ => h0.2)
  have e2 : sweepHead exampleCoupledSolver exampleGradient emptyTape 2
      = completedSweep exampleCoupledSolver exampleGradient
          (sweepHead exampleCoupledSolver exampleGradient emptyTape 1) := rfl
  rw [← e2, h0.1] at h1
  refine ⟨?_, h0.2, ?_, h1.2⟩
  · rw [h0.1]
    norm_num
  · rw [h1.1]
    norm_num

/-- The norms of the adjoint residuals after the four block updates of a sweep of
`exampleCoupledSolver` on `exampleGradient`, whose square root is the identity. -/
theorem exampleCoupled_norms (st : FPState ℚ)
    (ht : st.cnt ≠ 0 → st.tape.statements = exampleCoupledProgram) :
    (∀ comp, (currentNorms exampleCoupledSolver
        (updateBlocks exampleCoupledSolver exampleGradient st)).norm_adjURes comp = 25) ∧
    (currentNorms exampleCoupledSolver
        (updateBlocks exampleCoupledSolver exampleGradient st)).norm_adjpRes
      = (3 + 8 / 3 * (2 / 3 * st.Psi.p 0 - 3 / 8)) ^ 2 + 16 ∧
    (currentNorms exampleCoupledSolver
        (updateBlocks exampleCoupledSolver exampleGradient st)).norm_adjphiRes = 25 ∧
    (currentNorms exampleCoupledSolver
        (updateBlocks exampleCoupledSolver exampleGradient st)).norm_adjnuTildaRes = 25 := by
  obtain ⟨hPsi, aU0, aU1, ap0, ap1, aphi, ab0, ab1, an0, an1, -⟩ :=
    exampleCoupled_updateBlocks st ht
  obtain ⟨nU, np, nphi, nn⟩ := currentNorms_exampleMesh exampleCoupledSolver rfl
    (updateBlocks exampleCoupledSolver exampleGradient st)
  refine ⟨fun comp => ?_, ?_, ?_, ?_⟩
  · rw [nU comp, aU0 comp, aU1 comp]
    show ((3 : ℚ) ^ 2 + 4 ^ 2) = 25
    norm_num
  · rw [np, ap0, ap1, hPsi]
    show ((3 + 8 / 3 * (2 / 3 * st.Psi.p 0 - 3 / 8)) ^ 2 + (4 : ℚ) ^ 2) = _
    norm_num
  · rw [nphi, aphi, ab0, ab1]
    show ((3 : ℚ) ^ 2 + 4 ^ 2 + 0 ^ 2) = 25
    norm_num
  · rw [nn, an0, an1]
    show ((3 : ℚ) ^ 2 + 4 ^ 2) = 25
    norm_num

/-- The norms at the convergence checks of the second and of the third sweep of the run of
`exampleCoupledSolver` on `exampleGradient`: the norm of `adjpRes` is 160/9 in the sweep
with `cnt == 1` and 1360/81 in the sweep with `cnt == 2`, every other norm is 25 in
both. -/
theorem exampleCoupled_checks :
    ((∀ comp, (currentNorms exampleCoupledSolver
        (beforeCheck exampleCoupledSolver exampleGradient emptyTape 1)).norm_adjURes comp
          = 25) ∧
      (currentNorms exampleCoupledSolver
        (beforeCheck exampleCoupledSolver exampleGradient emptyTape 1)).norm_adjpRes
          = 160 / 9 ∧
      (currentNorms exampleCoupledSolver
        (beforeCheck exampleCoupledSolver exampleGradient emptyTape 1)).norm_adjphiRes = 25 ∧
      (currentNorms exampleCoupledSolver
        (beforeCheck exampleCoupledSolver exampleGradient emptyTape 1)).norm_adjnuTildaRes
          = 25) ∧
    ((∀ comp, (currentNorms exampleCoupledSolver
        (beforeCheck exampleCoupledSolver exampleGradient emptyTape 2)).norm_adjURes comp
          = 25) ∧
      (currentNorms exampleCoupledSolver
        (beforeCheck exampleCoupledSolver exampleGradient emptyTape 2)).norm_adjpRes
          = 1360 / 81 ∧
      (currentNorms exampleCoupledSolver
        (beforeCheck exampleCoupledSolver exampleGradient emptyTape 2)).norm_adjphiRes = 25 ∧
      (currentNorms exampleCoupledSolver
        (beforeCheck exampleCoupledSolver exampleGradient emptyTape 2)).norm_adjnuTildaRes
          = 25) := by
  obtain ⟨p1, t1, p2, t2⟩ := exampleCoupled_heads
  obtain ⟨U1, n1, phi1, nu1⟩ := exampleCoupled_norms
    { sweepHead exampleCoupledSolver exampleGradient emptyTape 1 with
      sweeps := (sweepHead exampleCoupledSolver exampleGradient emptyTape 1).sweeps + 1 }
    (fun _ => t1)
  obtain ⟨U2, n2, phi2, nu2⟩ := exampleCoupled_norms
    { sweepHead exampleCoupledSolver exampleGradient emptyTape 2 with
      sweeps := (sweepHead exampleCoupledSolver exampleGradient emptyTape 2).sweeps + 1 }
    (fun _ => t2)
  refine ⟨⟨U1, ?_, phi1, nu1⟩, ⟨U2, ?_, phi2, nu2⟩⟩
  · refine n1.trans ?_
    show (3 + 8 / 3 * (2 / 3
      * (sweepHead exampleCoupledSolver exampleGradient emptyTape 1).Psi.p 0 - 3 / 8)) ^ 2
        + 16 = (160 / 9 : ℚ)
    rw [p1]
    norm_num
  · refine n2.trans ?_
    show (3 + 8 / 3 * (2 / 3
      * (sweepHead exampleCoupledSolver exampleGradient emptyTape 2).Psi.p 0 - 3 / 8)) ^ 2
        + 16 = (1360 / 81 : ℚ)
    rw [p2]
    norm_num

/-- In the run of `exampleCoupledSolver` on `exampleGradient` (tolerance 1) the first three
sweeps do not reach `break`: no check in the first, and in the next two the quotient of
the first component of `adjURes` is 25/25 = 1, not below 1. -/
theorem exampleCoupled_no_break (k : Nat) (hk : k ≤ 2) :
    (sweep exampleCoupledSolver exampleGradient
      (sweepHead exampleCoupledSolver exampleGradient emptyTape k)).2 = false := by
  by_cases h0 : k = 0
  · subst h0
    exact sweep_first_no_break _ _ _ rfl
  · have hk1 : 1 ≤ k := by omega
    have hc : 1 ≤ (sweepHead exampleCoupledSolver exampleGradient emptyTape k).cnt := by
      rw [sweepHead_cnt]
      exact hk1
    obtain ⟨⟨U1, -, -, -⟩, ⟨U2, -, -, -⟩⟩ := exampleCoupled_checks
    have Uk : (currentNorms exampleCoupledSolver
        (beforeCheck exampleCoupledSolver exampleGradient emptyTape k)).norm_adjURes 0
          = 25 := by
      have hcases : k = 1 ∨ k = 2 := by omega
      rcases hcases with h | h <;> subst h
      · exact U1 0
      · exact U2 0
    have hb := congrFun (sweepHead_baselines exampleCoupledSolver exampleGradient emptyTape k
      hk1).1 0
    rw [U1 0] at hb
    have hq' : (normalizedNorms exampleCoupledSolver
        (beforeCheck exampleCoupledSolver exampleGradient emptyTape k)).norm_adjURes 0
          = divide
            ((currentNorms exampleCoupledSolver
              (beforeCheck exampleCoupledSolver exampleGradient emptyTape k)).norm_adjURes 0)
            ((sweep exampleCoupledSolver exampleGradient
              (sweepHead exampleCoupledSolver exampleGradient emptyTape k)).1.initNorm_adjURes
                0) :=
      (normalizedNorms_eq exampleCoupledSolver exampleGradient
        (sweepHead exampleCoupledSolver exampleGradient emptyTape k) hc).1 0
    rw [hb, Uk] at hq'
    rw [Bool.eq_false_iff]
    intro hbreak
    rw [(sweep_fst_of_pos exampleCoupledSolver exampleGradient _ hc).2,
      toleranceMet_iff] at hbreak
    have h1 : (divide (25 : ℚ) 25).below 1 = true := by
      rw [← hq']
      exact hbreak.1
    rw [divide_below_iff] at h1
    norm_num at h1

/-- The statement C17 on the run of `exampleCoupledSolver` (a budget of three sweeps, the
tolerance 1) on `exampleGradientVec`: the baseline of `adjpRes` is 0 at the head of the
loop; the norm of `adjpRes` is 160/9 at the check of the sweep with `cnt == 1` and 1360/81
at the check of the sweep with `cnt == 2`; the baseline that both checks leave is 160/9,
the norm captured in the sweep with `cnt == 1`; the quotient is 1 in the sweep with
`cnt == 1` and (1360/81)/(160/9) = 17/18 in the sweep with `cnt == 2`; and the run makes
these sweeps: it ends at the head of the loop after three completed sweeps. -/
theorem runFPAdj_baselines_witness :
    exampleCoupledSolver.daOption.adjEqnSolMethod = "fixedPoint" ∧
    exampleCoupledSolver.daIndex.fits exampleCoupledSolver.mesh exampleGradientVec.size
      = true ∧
    (initialState exampleCoupledSolver emptyTape).initNorm_adjpRes = 0 ∧
    (currentNorms exampleCoupledSolver
      (beforeCheck exampleCoupledSolver exampleGradient emptyTape 1)).norm_adjpRes
        = 160 / 9 ∧
    (currentNorms exampleCoupledSolver
      (beforeCheck exampleCoupledSolver exampleGradient emptyTape 2)).norm_adjpRes
        = 1360 / 81 ∧
    (sweep exampleCoupledSolver exampleGradient
      (sweepHead exampleCoupledSolver exampleGradient emptyTape 1)).1.initNorm_adjpRes
        = 160 / 9 ∧
    (sweep exampleCoupledSolver exampleGradient
      (sweepHead exampleCoupledSolver exampleGradient emptyTape 2)).1.initNorm_adjpRes
        = 160 / 9 ∧
    (normalizedNorms exampleCoupledSolver
      (beforeCheck exampleCoupledSolver exampleGradient emptyTape 1)).norm_adjpRes
        = .finite 1 ∧
    (normalizedNorms exampleCoupledSolver
      (beforeCheck exampleCoupledSolver exampleGradient emptyTape 2)).norm_adjpRes
        = .finite (17 / 18) ∧
    (runFPAdj exampleCoupledSolver exampleGradientVec exampleVec emptyTape).loop
      = some (sweepHead exampleCoupledSolver exampleGradient emptyTape 3) := by
  have hfits : exampleCoupledSolver.daIndex.fits exampleCoupledSolver.mesh
      exampleGradientVec.size = true := exampleIndex_fits 13 (le_refl 13)
  have hg : vec2FieldsRead exampleCoupledSolver.mesh exampleCoupledSolver.daIndex
      exampleGradientVec.array (zeroTimes exampleCoupledSolver.state) = exampleGradient := rfl
  obtain ⟨-, -, -, -, hk, hrun⟩ := runFPAdj_baselines exampleCoupledSolver exampleGradientVec
    exampleVec emptyTape rfl hfits
  rw [hg] at hk hrun
  obtain ⟨⟨-, c1, -, -⟩, ⟨-, c2, -, -⟩⟩ := exampleCoupled_checks
  obtain ⟨-, b1, -, -, -, q1, -, -, -⟩ := hk 1 (le_refl 1)
  obtain ⟨-, b2, -, -, -, q2, -, -, -⟩ := hk 2 (by decide)
  rw [c1] at b1 b2 q1 q2
  rw [c2] at q2
  rw [divide_of_ne_zero _ _ (by norm_num)] at q1 q2
  refine ⟨rfl, hfits, rfl, c1, c2, b1, b2, ?_, ?_, ?_⟩
  · rw [q1]
    norm_num
  · rw [q2]
    norm_num
  · obtain ⟨k, -, -, hend⟩ := hrun
    rcases hend with ⟨hlt, hbr, -⟩ | ⟨heq, hloop⟩
    · have hk2 : k ≤ 2 := by
        change k < 3 at hlt
        omega
      rw [exampleCoupled_no_break k hk2] at hbr
      exact absurd hbr (by decide)
    · have hk3 : k = 3 := heq
      subst hk3
      exact hloop

theorem sqrt_zero_rat : Rat.sqrt 0 = 0 := by
  rw [show (0 : ℚ) = 0 * 0 by norm_num, Rat.sqrt_eq]
  norm_num

/-- On `exampleLooseSolver` with a gradient that is zero everywhere, after the block
updates of a sweep on a tape without statements every norm of the adjoint residuals is
zero. -/
theorem exampleLoose_zero_norms (st : FPState ℚ) (ht : st.tape.statements = []) :
    (∀ comp, (currentNorms exampleLooseSolver
        (updateBlocks exampleLooseSolver zeroBlocks st)).norm_adjURes comp = 0) ∧
    (currentNorms exampleLooseSolver
        (updateBlocks exampleLooseSolver zeroBlocks st)).norm_adjpRes = 0 ∧
    (currentNorms exampleLooseSolver
        (updateBlocks exampleLooseSolver zeroBlocks st)).norm_adjphiRes = 0 ∧
    (currentNorms exampleLooseSolver
        (updateBlocks exampleLooseSolver zeroBlocks st)).norm_adjnuTildaRes = 0 := by
  have hadj := updateBlocks_adjRes_of_nil exampleLooseSolver zeroBlocks st rfl rfl
    (fun _ => ht)
  obtain ⟨nU, np, nphi, nn⟩ := currentNorms_exampleMesh exampleLooseSolver rfl
    (updateBlocks exampleLooseSolver zeroBlocks st)
  have z : ∀ slot, exampleLooseSolver.mesh.hasSlot slot = true →
      (updateBlocks exampleLooseSolver zeroBlocks st).adjRes.component slot = 0 := by
    intro slot hs
    rw [hadj slot hs]
    cases slot <;> simp [Blocks.component, zeroBlocks]
  have hs : exampleLooseSolver.sqrt = Rat.sqrt := rfl
  refine ⟨fun comp => ?_, ?_, ?_, ?_⟩
  · have h0 := z (.U 0 comp) rfl
    have h1 := z (.U 1 comp) rfl
    simp only [Blocks.component] at h0 h1
    rw [nU comp, h0, h1, hs]
    norm_num [sqrt_zero_rat]
  · have h0 := z (.p 0) rfl
    have h1 := z (.p 1) rfl
    simp only [Blocks.component] at h0 h1
    rw [np, h0, h1, hs]
    norm_num [sqrt_zero_rat]
  · have h0 := z (.phi 0) rfl
    have h1 := z (.phiBoundary 0 0) rfl
    have h2 := z (.phiBoundary 0 1) rfl
    simp only [Blocks.component] at h0 h1 h2
    rw [nphi, h0, h1, h2, hs]
    norm_num [sqrt_zero_rat]
  · have h0 := z (.nuTilda 0) rfl
    have h1 := z (.nuTilda 1) rfl
    simp only [Blocks.component] at h0 h1
    rw [nn, h0, h1, hs]
    norm_num [sqrt_zero_rat]

/-- The head of the second sweep of a run of `exampleLooseSolver`, whatever the gradient:
`cnt` is 1 and the tape holds no statement. -/
theorem exampleLoose_head (dFd : Blocks ℚ) :
    (sweepHead exampleLooseSolver dFd emptyTape 1).cnt = 1 ∧
    (sweepHead exampleLooseSolver dFd emptyTape 1).tape.statements = [] := by
  refine ⟨sweepHead_cnt _ _ _ 1, ?_⟩
  have ht0 := (sweep_tape exampleLooseSolver dFd (initialState exampleLooseSolver emptyTape)).2.1
  show (sweep exampleLooseSolver dFd (initialState exampleLooseSolver emptyTape)).1.tape.statements
    = []
  rw [ht0]
  rfl

theorem beforeCheck_eq {α : Type} [LinearOrderedField α] (s : Solver α) (dFd : Blocks α)
    (tape : Tape α) (k : Nat) :
    beforeCheck s dFd tape k
      = updateBlocks s dFd
          { sweepHead s dFd tape k with sweeps := (sweepHead s dFd tape k).sweeps + 1 } := rfl

/-- The statement C7 on three sweeps entered with `cnt >= 1`. In the second sweep of the
run of `exampleLooseSolver` (tolerance 2) on `exampleGradient` every norm is 5 and every
quotient is 5/5 = 1, below 2: `break` is reached and the loop ends in the state of the end
of the sweep. In the third sweep of the run of `exampleCoupledSolver` (tolerance 1) the
quotient of `adjpRes` is 17/18 but the quotient of the first component of `adjURes` is 1,
not below 1: `break` is not reached and the loop goes on with `cnt + 1`. In the second
sweep of the run of `exampleLooseSolver` on a gradient that is zero everywhere every norm
and every baseline is zero, the quotient of `adjpRes` is not a number, and `break` is not
reached. -/
theorem sweep_break_iff_witness :
    ((sweepHead exampleLooseSolver exampleGradient emptyTape 1).cnt
        < exampleLooseSolver.daOption.fpMaxIters ∧
      exampleLooseSolver.daOption.fpRelTol = 2 ∧
      (∀ comp, (normalizedNorms exampleLooseSolver
        (beforeCheck exampleLooseSolver exampleGradient emptyTape 1)).norm_adjURes comp
          = .finite 1) ∧
      (normalizedNorms exampleLooseSolver
        (beforeCheck exampleLooseSolver exampleGradient emptyTape 1)).norm_adjpRes
          = .finite 1 ∧
      (normalizedNorms exampleLooseSolver
        (beforeCheck exampleLooseSolver exampleGradient emptyTape 1)).norm_adjphiRes
          = .finite 1 ∧
      (normalizedNorms exampleLooseSolver
        (beforeCheck exampleLooseSolver exampleGradient emptyTape 1)).norm_adjnuTildaRes
          = .finite 1 ∧
      (sweep exampleLooseSolver exampleGradient
        (sweepHead exampleLooseSolver exampleGradient emptyTape 1)).2 = true ∧
      fpLoop exampleLooseSolver exampleGradient
          (sweepHead exampleLooseSolver exampleGradient emptyTape 1)
        = (sweep exampleLooseSolver exampleGradient
            (sweepHead exampleLooseSolver exampleGradient emptyTape 1)).1) ∧
    ((sweepHead exampleCoupledSolver exampleGradient emptyTape 2).cnt
        < exampleCoupledSolver.daOption.fpMaxIters ∧
      exampleCoupledSolver.daOption.fpRelTol = 1 ∧
      (normalizedNorms exampleCoupledSolver
        (beforeCheck exampleCoupledSolver exampleGradient emptyTape 2)).norm_adjURes 0
          = .finite 1 ∧
      (normalizedNorms exampleCoupledSolver
        (beforeCheck exampleCoupledSolver exampleGradient emptyTape 2)).norm_adjpRes
          = .finite (17 / 18) ∧
      (sweep exampleCoupledSolver exampleGradient
        (sweepHead exampleCoupledSolver exampleGradient emptyTape 2)).2 = false ∧
      fpLoop exampleCoupledSolver exampleGradient
          (sweepHead exampleCoupledSolver exampleGradient emptyTape 2)
        = fpLoop exampleCoupledSolver exampleGradient
            { (sweep exampleCoupledSolver exampleGradient
                (sweepHead exampleCoupledSolver exampleGradient emptyTape 2)).1 with
              cnt := (sweepHead exampleCoupledSolver exampleGradient emptyTape 2).cnt + 1 }) ∧
    ((sweepHead exampleLooseSolver zeroBlocks emptyTape 1).cnt
        < exampleLooseSolver.daOption.fpMaxIters ∧
      (currentNorms exampleLooseSolver
        (beforeCheck exampleLooseSolver zeroBlocks emptyTape 1)).norm_adjpRes = 0 ∧
      (sweep exampleLooseSolver zeroBlocks
        (sweepHead exampleLooseSolver zeroBlocks emptyTape 1)).1.initNorm_adjpRes = 0 ∧
      (normalizedNorms exampleLooseSolver
        (beforeCheck exampleLooseSolver zeroBlocks emptyTape 1)).norm_adjpRes = .nan ∧
      (sweep exampleLooseSolver zeroBlocks
        (sweepHead exampleLooseSolver zeroBlocks emptyTape 1)).2 = false) := by
  refine ⟨?_, ?_, ?_⟩
  · -- the second sweep of the loose run
    obtain ⟨c1, t1⟩ := exampleLoose_head exampleGradient
    have hloop : (sweepHead exampleLooseSolver exampleGradient emptyTape 1).cnt
        < exampleLooseSolver.daOption.fpMaxIters := by
      rw [c1]
      show (1 : ℕ) < 5
      decide
    have h1 : 1 ≤ (sweepHead exampleLooseSolver exampleGradient emptyTape 1).cnt := by
      rw [c1]
    obtain ⟨hiff, hq, -, -, hbreak, -⟩ := sweep_break_iff exampleLooseSolver exampleGradient
      (sweepHead exampleLooseSolver exampleGradient emptyTape 1) hloop
    obtain ⟨nU, np, nphi, nn⟩ := exampleLoose_norms
      { sweepHead exampleLooseSolver exampleGradient emptyTape 1 with
        sweeps := (sweepHead exampleLooseSolver exampleGradient emptyTape 1).sweeps + 1 } t1
    obtain ⟨-, -, bU, bp, bphi, bn⟩ := sweep_at_one exampleLooseSolver exampleGradient
      (sweepHead exampleLooseSolver exampleGradient emptyTape 1) c1
    rw [← beforeCheck_eq] at hiff hq nU np nphi nn bU bp bphi bn
    obtain ⟨qU, qp, qphi, qn⟩ := hq h1
    rw [bp, np] at qp
    rw [bphi, nphi] at qphi
    rw [bn, nn] at qn
    have h55 : divide (5 : ℚ) 5 = .finite 1 := by
      rw [divide_of_ne_zero _ _ (by norm_num)]
      norm_num
    have qU' : ∀ comp, (normalizedNorms exampleLooseSolver
        (beforeCheck exampleLooseSolver exampleGradient emptyTape 1)).norm_adjURes comp
          = .finite 1 := by
      intro comp
      have h := qU comp
      rw [bU, nU comp] at h
      rw [← h55]
      exact h
    rw [h55] at qp qphi qn
    have hb : (sweep exampleLooseSolver exampleGradient
        (sweepHead exampleLooseSolver exampleGradient emptyTape 1)).2 = true := by
      have hbelow : (DivResult.finite (1 : ℚ)).below exampleLooseSolver.daOption.fpRelTol
          = true := by
        show decide ((1 : ℚ) < 2) = true
        decide
      refine (hiff h1).mpr ⟨?_, ?_, ?_, ?_, ?_, ?_⟩
      · rw [show _ = DivResult.finite (1 : ℚ) from qU' 0]
        exact hbelow
      · rw [show _ = DivResult.finite (1 : ℚ) from qU' 1]
        exact hbelow
      · rw [show _ = DivResult.finite (1 : ℚ) from qU' 2]
        exact hbelow
      · rw [qp]
        exact hbelow
      · rw [qphi]
        exact hbelow
      · rw [qn]
        exact hbelow
    exact ⟨hloop, rfl, qU', qp, qphi, qn, hb, (hbreak hb).1⟩
  · -- the third sweep of the coupled run
    have c2 : (sweepHead exampleCoupledSolver exampleGradient emptyTape 2).cnt = 2 :=
      sweepHead_cnt _ _ _ 2
    have hloop : (sweepHead exampleCoupledSolver exampleGradient emptyTape 2).cnt
        < exampleCoupledSolver.daOption.fpMaxIters := by
      rw [c2]
      show (2 : ℕ) < 3
      decide
    have h1 : 1 ≤ (sweepHead exampleCoupledSolver exampleGradient emptyTape 2).cnt := by
      rw [c2]
      decide
    obtain ⟨-, hq, -, -, -, hgo⟩ := sweep_break_iff exampleCoupledSolver exampleGradient
      (sweepHead exampleCoupledSolver exampleGradient emptyTape 2) hloop
    obtain ⟨⟨U1, p1, -, -⟩, ⟨U2, p2, -, -⟩⟩ := exampleCoupled_checks
    obtain ⟨bU, bp, -, -⟩ := sweepHead_baselines exampleCoupledSolver exampleGradient
      emptyTape 2 (by decide)
    rw [← beforeCheck_eq] at hq
    obtain ⟨qU, qp, -, -⟩ := hq h1
    have qU0' := qU 0
    rw [bU, U1 0, U2 0] at qU0'
    have qp' := qp
    rw [bp, p1, p2] at qp'
    rw [divide_of_ne_zero _ _ (by norm_num)] at qU0' qp'
    have hnb := exampleCoupled_no_break 2 (le_refl 2)
    refine ⟨hloop, rfl, ?_, ?_, hnb, ?_⟩
    · rw [qU0']
      norm_num
    · rw [qp']
      norm_num
    · exact hgo hnb
  · -- the second sweep of the loose run on the zero gradient
    obtain ⟨c1, t1⟩ := exampleLoose_head zeroBlocks
    have hloop : (sweepHead exampleLooseSolver zeroBlocks emptyTape 1).cnt
        < exampleLooseSolver.daOption.fpMaxIters := by
      rw [c1]
      show (1 : ℕ) < 5
      decide
    have h1 : 1 ≤ (sweepHead exampleLooseSolver zeroBlocks emptyTape 1).cnt := by
      rw [c1]
    obtain ⟨hiff, hq, hdiv, -, -, -⟩ := sweep_break_iff exampleLooseSolver zeroBlocks
      (sweepHead exampleLooseSolver zeroBlocks emptyTape 1) hloop
    obtain ⟨-, np, -, -⟩ := exampleLoose_zero_norms
      { sweepHead exampleLooseSolver zeroBlocks emptyTape 1 with
        sweeps := (sweepHead exampleLooseSolver zeroBlocks emptyTape 1).sweeps + 1 } t1
    obtain ⟨-, -, -, bp, -, -⟩ := sweep_at_one exampleLooseSolver zeroBlocks
      (sweepHead exampleLooseSolver zeroBlocks emptyTape 1) c1
    rw [← beforeCheck_eq] at hiff hq np bp
    obtain ⟨-, qp, -, -⟩ := hq h1
    rw [bp, np] at qp
    rw [np] at bp
    have h00 : divide (0 : ℚ) 0 = .nan := by
      unfold divide
      simp
    refine ⟨hloop, np, bp, ?_, ?_⟩
    · rw [← h00]
      exact qp
    · rw [Bool.eq_false_iff]
      intro hb
      have hp := ((hiff h1).mp hb).2.2.2.1
      rw [show _ = divide (0 : ℚ) 0 from qp,
        (hdiv 0 0 exampleLooseSolver.daOption.fpRelTol).2 (le_refl 0)] at hp
      exact absurd hp (by decide)

end DASimpleFoam
